import Mathlib

/-!
# Sentence-granular document storage: storage-server core

A shallow embedding of `src/storage_server/ss_server.c`:

* the sentence lock table (`acquire_read_lock`, `acquire_write_lock`,
  `release_lock`, `release_all_locks_for_client`), a singly linked list in the
  source and a `List SentenceLock` here, head first;
* the sentence operations (`count_sentences`, `read_sentence`,
  `write_sentence`), where a file is the list of its bytes.

Conventions of the embedding.

* A C string is the list of its characters before the terminating NUL, so
  `strcmp(a, b) == 0` is `a = b` and `strlen` is `List.length`.
* `int` values are `Int`; the arithmetic of the source (`read_count++`,
  `count++`) stays far inside the `int` range on any table or file the server
  can hold, and signed overflow is undefined in C, so no wrap-around is
  modelled.
* Mutexes are not modelled: every lock-table function runs wholly inside
  `lock_list_mutex`, so a call is one atomic step on the table.
* `malloc`, `fopen` and `time` are inputs of the functions that call them.
  The memory `malloc` returns is not cleared: what a fresh lock record holds
  behind the bytes that `strncpy` copies into it is the input `junk`.
-/

/-- Modelled from the spec: `common/error_codes.h` is not among the sources.
The codes are the cluster-wide error codes of the specification, kept as
distinct symbolic values under the names the source uses. -/
inductive ErrorCode where
  | ERR_SUCCESS
  | ERR_FILE_NOT_FOUND
  | ERR_FILE_EXISTS
  | ERR_FILE_ALREADY_EXISTS
  | ERR_FILE_LOCKED
  | ERR_UNAUTHORIZED_ACCESS
  | ERR_PERMISSION_DENIED
  | ERR_SS_UNAVAILABLE
  | ERR_INVALID_COMMAND
  | ERR_INVALID_OPERATION
  | ERR_CONNECTION_FAILED
  deriving DecidableEq, Repr

namespace StorageServer

open ErrorCode

/-! ## Constants of `ss_server.h` -/

def MAX_FILES : Nat := 10000
def MAX_SENTENCE_LOCKS : Nat := 1000
def MAX_PATH_LEN : Nat := 512
def MAX_SENTENCE_LEN : Nat := 4096

/-! ## Data model -/

/-- The `SentenceLock` record, without its mutex and `next` pointer (the list
structure carries `next`). -/
structure SentenceLock where
  filepath : List Char
  sentence_idx : Int
  client_fd : Int
  is_write_lock : Bool
  read_count : Int
  acquired_at : Int
  deriving DecidableEq, Repr

/-- The `FileEntry` record, without its mutex. -/
structure FileEntry where
  filepath : List Char
  full_path : List Char
  file_size : Int
  created_at : Int
  modified_at : Int
  sentence_count : Int
  is_directory : Bool
  locks : List SentenceLock
  deriving DecidableEq, Repr

/-- The part of `StorageServerState` the file and lock operations read or
write: the file registry (`files[0 .. file_count)`) and the lock list. -/
structure StorageServerState where
  base_path : List Char
  files : List FileEntry
  active_locks : List SentenceLock
  deriving DecidableEq, Repr

/-- The call `strncpy(dst, src, n)` into a record fresh from `malloc`, which
the code neither clears nor terminates afterwards, read back as a C string (by
`strcmp`).  A source shorter than `n` is copied with its terminator.  For a
source of `n` characters or more `strncpy` writes `n` characters and no
terminator, so the string read back runs on into `junk`: what the memory
holds from offset `n` up to its first zero byte (`[]` when the byte at offset
`n` happens to be zero). -/
def strncpy (src : List Char) (n : Nat) (junk : List Char) : List Char :=
  if src.length < n then src else src.take n ++ junk

/-! ## Lock table -/

/-- First loop of `acquire_read_lock`: is there a write lock on the key? -/
def find_write_lock (filepath : List Char) (sentence_idx : Int) :
    List SentenceLock → Bool
  | [] => false
  | lock :: next =>
    if lock.filepath = filepath ∧ lock.sentence_idx = sentence_idx ∧
        lock.is_write_lock = true then true
    else find_write_lock filepath sentence_idx next

/-- Second loop of `acquire_read_lock`: the first read lock on the key gets
`read_count++`; `none` when the loop runs off the end of the list. -/
def bump_read_lock (filepath : List Char) (sentence_idx : Int) :
    List SentenceLock → Option (List SentenceLock)
  | [] => none
  | lock :: next =>
    if lock.filepath = filepath ∧ lock.sentence_idx = sentence_idx ∧
        lock.is_write_lock = false then
      some ({ lock with read_count := lock.read_count + 1 } :: next)
    else (bump_read_lock filepath sentence_idx next).map (fun rest => lock :: rest)

/-- The loop of `acquire_write_lock` (and of `is_sentence_locked`): is there
any lock on the key? -/
def find_any_lock (filepath : List Char) (sentence_idx : Int) :
    List SentenceLock → Bool
  | [] => false
  | lock :: next =>
    if lock.filepath = filepath ∧ lock.sentence_idx = sentence_idx then true
    else find_any_lock filepath sentence_idx next

/-- The function `acquire_read_lock`; `now` is the value of `time(NULL)`,
`malloc_ok` tells whether `malloc` returns a record and `junk` what the memory
of that record holds behind the copied path (see `strncpy`). -/
def acquire_read_lock (state : StorageServerState) (filepath : List Char)
    (sentence_idx : Int) (client_fd : Int) (now : Int) (malloc_ok : Bool)
    (junk : List Char) : ErrorCode × StorageServerState :=
  if find_write_lock filepath sentence_idx state.active_locks then
    (ERR_FILE_LOCKED, state)
  else
    match bump_read_lock filepath sentence_idx state.active_locks with
    | some locks => (ERR_SUCCESS, { state with active_locks := locks })
    | none =>
      if malloc_ok then
        let new_lock : SentenceLock :=
          { filepath := strncpy filepath (MAX_PATH_LEN - 1) junk
            sentence_idx := sentence_idx
            client_fd := client_fd
            is_write_lock := false
            read_count := 1
            acquired_at := now }
        (ERR_SUCCESS, { state with active_locks := new_lock :: state.active_locks })
      else (ERR_INVALID_OPERATION, state)

/-- The function `acquire_write_lock`, with the inputs of `acquire_read_lock`. -/
def acquire_write_lock (state : StorageServerState) (filepath : List Char)
    (sentence_idx : Int) (client_fd : Int) (now : Int) (malloc_ok : Bool)
    (junk : List Char) : ErrorCode × StorageServerState :=
  if find_any_lock filepath sentence_idx state.active_locks then
    (ERR_FILE_LOCKED, state)
  else if malloc_ok then
    let new_lock : SentenceLock :=
      { filepath := strncpy filepath (MAX_PATH_LEN - 1) junk
        sentence_idx := sentence_idx
        client_fd := client_fd
        is_write_lock := true
        read_count := 0
        acquired_at := now }
    (ERR_SUCCESS, { state with active_locks := new_lock :: state.active_locks })
  else (ERR_INVALID_OPERATION, state)

/-- The loop of `release_lock`: the first lock of `client_fd` on the key is
decremented (a read lock whose count stays positive) or unlinked; `none` when
no lock matches. -/
def release_walk (filepath : List Char) (sentence_idx : Int) (client_fd : Int) :
    List SentenceLock → Option (List SentenceLock)
  | [] => none
  | lock :: next =>
    if lock.filepath = filepath ∧ lock.sentence_idx = sentence_idx ∧
        lock.client_fd = client_fd then
      if lock.is_write_lock = false then
        if lock.read_count - 1 > 0 then
          some ({ lock with read_count := lock.read_count - 1 } :: next)
        else some next
      else some next
    else (release_walk filepath sentence_idx client_fd next).map (fun rest => lock :: rest)

/-- The function `release_lock`. -/
def release_lock (state : StorageServerState) (filepath : List Char)
    (sentence_idx : Int) (client_fd : Int) : ErrorCode × StorageServerState :=
  match release_walk filepath sentence_idx client_fd state.active_locks with
  | some locks => (ERR_SUCCESS, { state with active_locks := locks })
  | none => (ERR_INVALID_OPERATION, state)

/-- The loop of `release_all_locks_for_client`: `count` so far and the list
that is left. -/
def release_all_walk (client_fd : Int) : List SentenceLock → Int → Int × List SentenceLock
  | [], count => (count, [])
  | lock :: next, count =>
    if lock.client_fd = client_fd then release_all_walk client_fd next (count + 1)
    else
      let r := release_all_walk client_fd next count
      (r.1, lock :: r.2)

/-- The function `release_all_locks_for_client`: the number of locks released
and the state left. -/
def release_all_locks_for_client (state : StorageServerState) (client_fd : Int) :
    Int × StorageServerState :=
  let r := release_all_walk client_fd state.active_locks 0
  (r.1, { state with active_locks := r.2 })

/-- The function `is_sentence_locked`. -/
def is_sentence_locked (state : StorageServerState) (filepath : List Char)
    (sentence_idx : Int) : Bool :=
  find_any_lock filepath sentence_idx state.active_locks

/-- One call on the lock table. -/
inductive LockCall where
  | acquire_read (filepath : List Char) (sentence_idx client_fd now : Int) (malloc_ok : Bool)
      (junk : List Char)
  | acquire_write (filepath : List Char) (sentence_idx client_fd now : Int) (malloc_ok : Bool)
      (junk : List Char)
  | release (filepath : List Char) (sentence_idx client_fd : Int)
  | release_all (client_fd : Int)
  deriving DecidableEq, Repr

/-- The state after one call. -/
def LockCall.run (state : StorageServerState) : LockCall → StorageServerState
  | .acquire_read p i fd now ok junk => (acquire_read_lock state p i fd now ok junk).2
  | .acquire_write p i fd now ok junk => (acquire_write_lock state p i fd now ok junk).2
  | .release p i fd => (release_lock state p i fd).2
  | .release_all fd => (release_all_locks_for_client state fd).2

/-- The path a call stores in the table is shorter than `MAX_PATH_LEN - 1`,
so that `strncpy` copies it with its terminator. -/
def LockCall.path_fits : LockCall → Prop
  | .acquire_read p _ _ _ _ _ => p.length < MAX_PATH_LEN - 1
  | .acquire_write p _ _ _ _ _ => p.length < MAX_PATH_LEN - 1
  | .release _ _ _ => True
  | .release_all _ => True

instance (c : LockCall) : Decidable c.path_fits := by
  cases c <;> unfold LockCall.path_fits <;> infer_instance

/-- The state after a sequence of calls, first call first. -/
def run_calls (state : StorageServerState) (calls : List LockCall) : StorageServerState :=
  calls.foldl LockCall.run state

/-- The number of entries of the table for the key `(filepath, sentence_idx)`. -/
def entries_for (filepath : List Char) (sentence_idx : Int)
    (locks : List SentenceLock) : Nat :=
  locks.countP (fun l => l.filepath = filepath ∧ l.sentence_idx = sentence_idx)

/-! ## Sentence operations

A file is `Option (List Char)`: `none` when `fopen(filepath, "r")` fails (or
`filepath` is `NULL`), `some content` with the bytes of the file otherwise. -/

/-- The test `ch == '.' || ch == '!' || ch == '?'` of the three scans. -/
def is_delimiter (ch : Char) : Bool :=
  ch == '.' || ch == '!' || ch == '?'

/-- The test `ch != ' ' && ch != '\t' && ch != '\n'` of the three scans. -/
def starts_sentence (ch : Char) : Bool :=
  ch != ' ' && ch != '\t' && ch != '\n'

/-- The `while` loop of `count_sentences`: `count` and `in_sentence` at end of
file. -/
def count_loop : List Char → Int → Bool → Int × Bool
  | [], count, in_sentence => (count, in_sentence)
  | ch :: rest, count, in_sentence =>
    let in_sentence := if !in_sentence && starts_sentence ch then true else in_sentence
    if in_sentence && is_delimiter ch then count_loop rest (count + 1) false
    else count_loop rest count in_sentence

/-- The function `count_sentences`. -/
def count_sentences (file : Option (List Char)) : Int :=
  match file with
  | none => -1
  | some content =>
    let r := count_loop content 0 false
    let count := if r.2 then r.1 + 1 else r.1
    if count > 0 then count else 0

/-- The `while` loop of `read_sentence`; `buffer` holds `buffer[0 .. pos)`, so
`pos` is its length.  The result is the buffer when the loop is left (by
`break`, at end of file or on a full buffer). -/
def read_loop (sentence_idx : Int) (buffer_size : Nat) :
    List Char → Int → Bool → List Char → List Char
  | [], _, _, buffer => buffer
  | ch :: rest, current_sentence, in_sentence, buffer =>
    if buffer.length < buffer_size - 1 then
      let in_sentence := if !in_sentence && starts_sentence ch then true else in_sentence
      let copied := decide (current_sentence = sentence_idx) && in_sentence
      let buffer := if copied then buffer ++ [ch] else buffer
      if copied && is_delimiter ch then buffer
      else if in_sentence && is_delimiter ch then
        if current_sentence = sentence_idx then buffer
        else read_loop sentence_idx buffer_size rest (current_sentence + 1) false buffer
      else read_loop sentence_idx buffer_size rest current_sentence in_sentence buffer
    else buffer

/-- The function `read_sentence`: the return value and the string left in
`buffer` (nothing is written on the error return `-1`). -/
def read_sentence (file : Option (List Char)) (sentence_idx : Int) (buffer_size : Nat) :
    Int × List Char :=
  if buffer_size = 0 then (-1, [])
  else
    match file with
    | none => (-1, [])
    | some content =>
      let buffer := read_loop sentence_idx buffer_size content 0 false []
      (buffer.length, buffer)

/-- The variables `current_sentence`, `start_pos` and `end_pos` of
`write_sentence` after its `for` loop. -/
structure SentenceBounds where
  current_sentence : Int
  start_pos : Nat
  end_pos : Nat
  deriving DecidableEq, Repr

/-- The `for` loop of `write_sentence` from offset `i` on. -/
def bounds_loop (sentence_idx : Int) :
    List Char → Nat → Int → Nat → Nat → Bool → SentenceBounds
  | [], _, current_sentence, start_pos, end_pos, _ =>
    { current_sentence := current_sentence, start_pos := start_pos, end_pos := end_pos }
  | ch :: rest, i, current_sentence, start_pos, end_pos, in_sentence =>
    let opens := !in_sentence && starts_sentence ch
    let start_pos := if opens && decide (current_sentence = sentence_idx) then i else start_pos
    let in_sentence := if opens then true else in_sentence
    if in_sentence && is_delimiter ch then
      if current_sentence = sentence_idx then
        { current_sentence := current_sentence, start_pos := start_pos, end_pos := i + 1 }
      else bounds_loop sentence_idx rest (i + 1) (current_sentence + 1) start_pos end_pos false
    else bounds_loop sentence_idx rest (i + 1) current_sentence start_pos end_pos in_sentence

/-- Whether the two `malloc` calls of `write_sentence` and its
`fopen(filepath, "w")` succeed. -/
structure WriteEnv where
  malloc_file_ok : Bool
  malloc_new_ok : Bool
  fopen_w_ok : Bool
  deriving DecidableEq, Repr

/-- The function `write_sentence`: the return code and the file afterwards.
`content` is a C string, so `strlen(content)` is its length. -/
def write_sentence (file : Option (List Char)) (sentence_idx : Int) (content : List Char)
    (env : WriteEnv) : ErrorCode × Option (List Char) :=
  match file with
  | none => (ERR_FILE_NOT_FOUND, none)
  | some file_content =>
    if !env.malloc_file_ok then (ERR_INVALID_OPERATION, some file_content)
    else
      let b := bounds_loop sentence_idx file_content 0 0 0 0 false
      if b.current_sentence ≠ sentence_idx then (ERR_INVALID_OPERATION, some file_content)
      else if !env.malloc_new_ok then (ERR_INVALID_OPERATION, some file_content)
      else
        let new_content :=
          file_content.take b.start_pos ++ content ++
            (file_content.drop b.end_pos).take (file_content.length - b.end_pos)
        if !env.fopen_w_ok then (ERR_INVALID_OPERATION, some file_content)
        else (ERR_SUCCESS, some new_content)

/-- The number of sentences the scan of `count_sentences` still closes when it
stands before `content` with the given `in_sentence`. -/
def sentences_from : List Char → Bool → Nat
  | [], in_sentence => if in_sentence then 1 else 0
  | ch :: rest, in_sentence =>
    if (in_sentence || starts_sentence ch) && is_delimiter ch then 1 + sentences_from rest false
    else sentences_from rest (in_sentence || starts_sentence ch)

/-- The span from the head of `content` to its first delimiter, inclusive, or
all of `content` when it has no delimiter. -/
def take_sentence : List Char → List Char
  | [] => []
  | ch :: rest => if is_delimiter ch then [ch] else ch :: take_sentence rest

/-- The bytes after the last delimiter of `content` (all of `content` when it
has no delimiter). -/
def after_last_delimiter (content : List Char) : List Char :=
  (content.reverse.takeWhile (fun ch => !is_delimiter ch)).reverse

/-- The key of a table entry. -/
def lock_key (l : SentenceLock) : List Char × Int :=
  (l.filepath, l.sentence_idx)

/-! ## Files on disk and the storage-server handlers

The calls `send_all` and `log_message` only produce output and are left out. -/

/-- The files under the base directory, by absolute path: `none` where no file
exists. -/
abbrev Disk := List Char → Option (List Char)

/-- The disk with the file at `path` replaced by `file` (`none` removes it). -/
def Disk.put (disk : Disk) (path : List Char) (file : Option (List Char)) : Disk :=
  fun p => if p = path then file else disk p

/-- The loop of the storage server's `find_file`, with the returned pointer as
a position in the registry: the entries before the first entry whose
`filepath` is the path, that entry, and the entries after it. -/
def find_file_in (filepath : List Char) :
    List FileEntry → Option (List FileEntry × FileEntry × List FileEntry)
  | [] => none
  | entry :: rest =>
    if entry.filepath = filepath then some ([], entry, rest)
    else (find_file_in filepath rest).map (fun r => (entry :: r.1, r.2.1, r.2.2))

/-- The function `find_file` of the storage server. -/
def find_file (state : StorageServerState) (filepath : List Char) :
    Option (List FileEntry × FileEntry × List FileEntry) :=
  find_file_in filepath state.files

/-- The function `delete_file`: the return code, the state and the disk
afterwards.  `unlink` fails when no file is at the path. -/
def delete_file (state : StorageServerState) (disk : Disk) (filepath : List Char) :
    ErrorCode × StorageServerState × Disk :=
  match find_file state filepath with
  | none => (ERR_FILE_NOT_FOUND, state, disk)
  | some (before, entry, after) =>
    if entry.locks ≠ [] then (ERR_FILE_LOCKED, state, disk)
    else
      match disk entry.full_path with
      | none => (ERR_INVALID_OPERATION, state, disk)
      | some _ =>
        (ERR_SUCCESS, { state with files := before ++ after }, disk.put entry.full_path none)

/-- What `handle_write_request` returns and leaves behind. -/
structure WriteRequestResult where
  code : ErrorCode
  state : StorageServerState
  disk : Disk

/-- The function `handle_write_request`.  `now` is `time(NULL)` inside
`acquire_write_lock`, `malloc_ok` and `junk` its `malloc`, `env` the resources
of `write_sentence`, and `mtime` the `st_mtime` that `stat` reports
afterwards; `stat` succeeds exactly when a file is at the path, with `st_size`
its length. -/
def handle_write_request (state : StorageServerState) (disk : Disk) (client_fd : Int)
    (filepath : List Char) (sentence_idx : Int) (content : List Char)
    (now : Int) (malloc_ok : Bool) (junk : List Char) (env : WriteEnv) (mtime : Int) :
    WriteRequestResult :=
  match find_file state filepath with
  | none => { code := ERR_FILE_NOT_FOUND, state := state, disk := disk }
  | some (before, entry, after) =>
    let acquired := acquire_write_lock state filepath sentence_idx client_fd now malloc_ok junk
    if acquired.1 ≠ ERR_SUCCESS then
      { code := acquired.1, state := acquired.2, disk := disk }
    else
      let written := write_sentence (disk entry.full_path) sentence_idx content env
      let disk := disk.put entry.full_path written.2
      let released := release_lock acquired.2 filepath sentence_idx client_fd
      if written.1 = ERR_SUCCESS then
        match disk entry.full_path with
        | some new_content =>
          { code := written.1
            state := { released.2 with
              files := before ++
                { entry with
                  file_size := (new_content.length : Nat)
                  modified_at := mtime
                  sentence_count := count_sentences (some new_content) } :: after }
            disk := disk }
        | none => { code := written.1, state := released.2, disk := disk }
      else { code := written.1, state := released.2, disk := disk }

end StorageServer

/-! # Name server

A shallow embedding of `src/name_server/nm_server.c`.  The three registries are
arrays with a count in the source and lists here (`ss_count`, `client_count`
and `file_count` are the lengths); an ACL is a linked list in the source and a
list here, head first.  A pointer into a registry that the source only reads
through is the entry it points to. -/

namespace NameServer

open ErrorCode

/-! ## Constants of `nm_server.h` -/

def MAX_STORAGE_SERVERS : Nat := 10
def MAX_CLIENTS : Nat := 100
def MAX_FILES : Nat := 10000
def NM_PORT : Nat := 8000
def MAX_PATH_LEN : Nat := 512

/-- Modelled from the spec: `SUCCESS` comes from `common/error_codes.h`, which
is not among the sources; the specification has one success code
cluster-wide. -/
def SUCCESS : ErrorCode := ERR_SUCCESS

/-! ## Data model -/

/-- The `StorageServer` record, without `file_list` (allocated at registration
and never read by the functions embedded here). -/
structure StorageServer where
  ss_id : Int
  ip : List Char
  nm_port : Int
  client_port : Int
  is_active : Bool
  last_heartbeat : Int
  file_count : Int
  sockfd : Int
  deriving DecidableEq, Repr

/-- The `ClientInfo` record. -/
structure ClientInfo where
  client_fd : Int
  username : List Char
  ip : List Char
  port : Int
  connected_at : Int
  is_active : Bool
  deriving DecidableEq, Repr

/-- The `AccessControlEntry` record; the list structure carries `next`. -/
structure AccessControlEntry where
  username : List Char
  can_read : Bool
  can_write : Bool
  deriving DecidableEq, Repr

/-- The `FileMetadata` record, `acl_head` being the list of ACL entries. -/
structure FileMetadata where
  filename : List Char
  filepath : List Char
  owner : List Char
  ss_id : Int
  created_at : Int
  last_modified : Int
  last_accessed : Int
  file_size : Int
  word_count : Int
  char_count : Int
  acl_head : List AccessControlEntry
  deriving DecidableEq, Repr

/-- The registries of `NameServerState`. -/
structure NameServerState where
  ss_registry : List StorageServer
  client_registry : List ClientInfo
  file_map : List FileMetadata
  running : Bool
  deriving DecidableEq, Repr

/-- Modelled from the spec: the `Response` record of `common/protocol.h`, which
is not among the sources: the status code and the `SS_IP` and `SS_PORT` fields
of a redirection (`none` where the source does not assign the field); the
message text is left out. -/
structure Response where
  status_code : ErrorCode
  ss_ip : Option (List Char)
  ss_port : Option Int
  deriving DecidableEq, Repr

/-- What the parse of an `SS_REGISTER` message yields:
`SS_REGISTER <ss_id> <ip> <nm_port> <client_port> <file_count>`. -/
structure Registration where
  ss_id : Int
  ip : List Char
  nm_port : Int
  client_port : Int
  file_count : Int
  deriving DecidableEq, Repr

/-- The call `strncpy(dst, src, n)` into a destination that is read back as
ending at offset `n` at the latest: a registry entry of the state cleared by
`nm_init`, the record that `route_create_request` clears with `memset`, and
the `ss_ip` field of a `Response`.  The string read back is the first `n`
characters of `src`. -/
def strncpy (src : List Char) (n : Nat) : List Char :=
  src.take n

/-- The function `register_storage_server`: the return value and the state.
`received` is the registration read from the socket (`none` when `recv_all`
fails) and `now` the value of `time(NULL)`.  The result is `none` where the
behaviour is undefined: `sscanf` reads the `<ip>` field with `%s` into
`char ip[16]`, so a field of 16 characters or more is written past the end of
that array. -/
def register_storage_server (state : NameServerState) (sockfd : Int)
    (received : Option Registration) (now : Int) : Option (Int × NameServerState) :=
  if state.ss_registry.length ≥ MAX_STORAGE_SERVERS then some (-1, state)
  else
    match received with
    | none => some (-1, state)
    | some reg =>
      if reg.ip.length ≥ 16 then none
      else
        let ss : StorageServer :=
          { ss_id := reg.ss_id
            ip := strncpy reg.ip (16 - 1)
            nm_port := reg.nm_port
            client_port := reg.client_port
            is_active := true
            last_heartbeat := now
            sockfd := sockfd
            file_count := reg.file_count }
        some (reg.ss_id, { state with ss_registry := state.ss_registry ++ [ss] })

/-- The loop of `find_storage_server`. -/
def find_storage_server_in (ss_id : Int) : List StorageServer → Option StorageServer
  | [] => none
  | ss :: rest =>
    if ss.ss_id = ss_id ∧ ss.is_active = true then some ss
    else find_storage_server_in ss_id rest

/-- The function `find_storage_server`. -/
def find_storage_server (state : NameServerState) (ss_id : Int) : Option StorageServer :=
  find_storage_server_in ss_id state.ss_registry

/-! ## Client registry -/

/-- The loop of `find_client`. -/
def find_client_in (client_fd : Int) : List ClientInfo → Option ClientInfo
  | [] => none
  | client :: rest =>
    if client.client_fd = client_fd ∧ client.is_active = true then some client
    else find_client_in client_fd rest

/-- The function `find_client`. -/
def find_client (state : NameServerState) (client_fd : Int) : Option ClientInfo :=
  find_client_in client_fd state.client_registry

/-! ## File registry -/

/-- The loop of `find_file` (and the existence check of
`add_file_to_registry`). -/
def find_file_in (filename : List Char) : List FileMetadata → Option FileMetadata
  | [] => none
  | file :: rest =>
    if file.filename = filename then some file else find_file_in filename rest

/-- The function `find_file` of the name server. -/
def find_file (state : NameServerState) (filename : List Char) : Option FileMetadata :=
  find_file_in filename state.file_map

/-- The function `add_file_to_registry`: the return value (`none` for `-1`)
and the state. -/
def add_file_to_registry (state : NameServerState) (file : FileMetadata) :
    Option ErrorCode × NameServerState :=
  if state.file_map.length ≥ MAX_FILES then (none, state)
  else
    match find_file_in file.filename state.file_map with
    | some _ => (some ERR_FILE_ALREADY_EXISTS, state)
    | none => (some SUCCESS, { state with file_map := state.file_map ++ [file] })

/-! ## Access control -/

/-- The ACL loop of `check_read_permission`. -/
def acl_can_read (username : List Char) : List AccessControlEntry → Bool
  | [] => false
  | entry :: next =>
    if entry.username = username then entry.can_read else acl_can_read username next

/-- The function `check_read_permission`. -/
def check_read_permission (file : FileMetadata) (username : List Char) : Bool :=
  if file.owner = username then true else acl_can_read username file.acl_head

/-- The ACL loop of `check_write_permission`. -/
def acl_can_write (username : List Char) : List AccessControlEntry → Bool
  | [] => false
  | entry :: next =>
    if entry.username = username then entry.can_write else acl_can_write username next

/-- The function `check_write_permission`. -/
def check_write_permission (file : FileMetadata) (username : List Char) : Bool :=
  if file.owner = username then true else acl_can_write username file.acl_head

/-! ## Request routing

A routing function returns `none` when it dereferences the `NULL` that
`find_client` returns for a descriptor with no active session; otherwise the
return code, the response sent and the state afterwards.  `resp_ip_size` is
`sizeof(resp.ss_ip)`, a constant of the absent `common/protocol.h`. -/

/-- The function `route_read_request`. -/
def route_read_request (state : NameServerState) (client_fd : Int) (filename : List Char)
    (resp_ip_size : Nat) : Option (ErrorCode × Response × NameServerState) :=
  match find_file state filename with
  | none =>
    some (ERR_FILE_NOT_FOUND,
      { status_code := ERR_FILE_NOT_FOUND, ss_ip := none, ss_port := none }, state)
  | some file =>
    match find_client state client_fd with
    | none => none
    | some client =>
      if !check_read_permission file client.username then
        some (ERR_UNAUTHORIZED_ACCESS,
          { status_code := ERR_UNAUTHORIZED_ACCESS, ss_ip := none, ss_port := none }, state)
      else
        match find_storage_server state file.ss_id with
        | none =>
          some (ERR_SS_UNAVAILABLE,
            { status_code := ERR_SS_UNAVAILABLE, ss_ip := none, ss_port := none }, state)
        | some ss =>
          if !ss.is_active then
            some (ERR_SS_UNAVAILABLE,
              { status_code := ERR_SS_UNAVAILABLE, ss_ip := none, ss_port := none }, state)
          else
            some (SUCCESS,
              { status_code := SUCCESS
                ss_ip := some (strncpy ss.ip (resp_ip_size - 1))
                ss_port := some ss.client_port }, state)

/-- The function `route_create_request`; `now` is the value of `time(NULL)`.
The return value of `add_file_to_registry` is not looked at by the source. -/
def route_create_request (state : NameServerState) (client_fd : Int) (filename : List Char)
    (owner : List Char) (now : Int) : Option (ErrorCode × Response × NameServerState) :=
  match find_file state filename with
  | some _ =>
    some (ERR_FILE_ALREADY_EXISTS,
      { status_code := ERR_FILE_ALREADY_EXISTS, ss_ip := none, ss_port := none }, state)
  | none =>
    if state.ss_registry.length = 0 then
      some (ERR_SS_UNAVAILABLE,
        { status_code := ERR_SS_UNAVAILABLE, ss_ip := none, ss_port := none }, state)
    else
      match state.ss_registry[state.file_map.length % state.ss_registry.length]? with
      | none => none
      | some ss =>
        let file : FileMetadata :=
          { filename := strncpy filename (256 - 1)
            filepath := []
            owner := strncpy owner (64 - 1)
            ss_id := ss.ss_id
            created_at := now
            last_modified := now
            last_accessed := now
            file_size := 0
            word_count := 0
            char_count := 0
            acl_head := [] }
        let added := add_file_to_registry state file
        match find_client added.2 client_fd with
        | none => none
        | some _ =>
          some (SUCCESS, { status_code := SUCCESS, ss_ip := none, ss_port := none }, added.2)

/-- The loop of `remove_file_from_registry`: the registry without its first
entry of the filename (the later entries shifted down); `none` when no entry
has the filename. -/
def remove_file_in (filename : List Char) : List FileMetadata → Option (List FileMetadata)
  | [] => none
  | file :: rest =>
    if file.filename = filename then some rest
    else (remove_file_in filename rest).map (fun files => file :: files)

/-- The function `remove_file_from_registry`. -/
def remove_file_from_registry (state : NameServerState) (filename : List Char) :
    ErrorCode × NameServerState :=
  match remove_file_in filename state.file_map with
  | some files => (SUCCESS, { state with file_map := files })
  | none => (ERR_FILE_NOT_FOUND, state)

/-- The function `route_delete_request`.  The return value of
`remove_file_from_registry` is not looked at by the source, and the storage
server is not consulted (`Forward to SS (stub - will implement later)`). -/
def route_delete_request (state : NameServerState) (client_fd : Int) (filename : List Char) :
    Option (ErrorCode × Response × NameServerState) :=
  match find_file state filename with
  | none =>
    some (ERR_FILE_NOT_FOUND,
      { status_code := ERR_FILE_NOT_FOUND, ss_ip := none, ss_port := none }, state)
  | some file =>
    match find_client state client_fd with
    | none => none
    | some client =>
      if file.owner ≠ client.username then
        some (ERR_PERMISSION_DENIED,
          { status_code := ERR_PERMISSION_DENIED, ss_ip := none, ss_port := none }, state)
      else
        let removed := remove_file_from_registry state filename
        some (SUCCESS, { status_code := SUCCESS, ss_ip := none, ss_port := none }, removed.2)

/-! ## Access control lists -/

/-- The function `register_client`: the return value and the state.  `peer_ip`
and `peer_port` are what `get_peer_info` reports and `now` is `time(NULL)`. -/
def register_client (state : NameServerState) (client_fd : Int) (username : List Char)
    (peer_ip : List Char) (peer_port : Int) (now : Int) : Int × NameServerState :=
  if state.client_registry.length ≥ MAX_CLIENTS then (-1, state)
  else
    let client : ClientInfo :=
      { client_fd := client_fd
        username := strncpy username (64 - 1)
        ip := peer_ip
        port := peer_port
        connected_at := now
        is_active := true }
    (0, { state with client_registry := state.client_registry ++ [client] })

/-- The loop of `remove_client`: the first entry with the descriptor, active
or not, gets `is_active = false`, and the loop stops there. -/
def remove_client_in (client_fd : Int) : List ClientInfo → List ClientInfo
  | [] => []
  | client :: rest =>
    if client.client_fd = client_fd then { client with is_active := false } :: rest
    else client :: remove_client_in client_fd rest

/-- The function `remove_client`. -/
def remove_client (state : NameServerState) (client_fd : Int) : NameServerState :=
  { state with client_registry := remove_client_in client_fd state.client_registry }

/-- A file registry that is full: `MAX_FILES` entries named `f0`, `f1`, ...,
owned by `a` and held by storage server 2, as `MAX_FILES` successful creates
leave it. -/
def full_file_map : List FileMetadata :=
  (List.range MAX_FILES).map (fun n =>
    { filename := 'f' :: (Nat.repr n).toList, filepath := [], owner := ['a'], ss_id := 2,
      created_at := 0, last_modified := 0, last_accessed := 0, file_size := 0,
      word_count := 0, char_count := 0, acl_head := [] })

end NameServer

/-! # Common utilities

A shallow embedding of the string utilities of `src/common/utils_enhanced.c`.
A C string is the list of its characters before the terminating NUL. -/

namespace Utils

/-- The `isspace` of `<ctype.h>` in the C locale: space, `\t`, `\n`, `\v`,
`\f` and `\r`. -/
def isspace (c : Char) : Bool :=
  c == ' ' || c == '\t' || c == '\n' || c == Char.ofNat 11 || c == Char.ofNat 12 || c == '\r'

/-- The second loop of `trim_whitespace`, `end` being an offset from `start`:
`while (end > start && isspace(*end)) end--`. -/
def trim_end (start : List Char) : Nat → Nat
  | 0 => 0
  | e + 1 => if isspace (start.getD (e + 1) (Char.ofNat 0)) then trim_end start e else e + 1

/-- The function `trim_whitespace`: the string left in the buffer.  `start` is
the string after the leading loop; `end - start` starts at `strlen(start) - 1`,
which is `-1` for an empty `start`, where the second loop does not run. -/
def trim_whitespace (str : List Char) : List Char :=
  let start := str.dropWhile isspace
  let end_offset : Int :=
    if start.length = 0 then -1 else (trim_end start (start.length - 1) : Nat)
  let len : Int := end_offset + 1
  start.take len.toNat

/-- One call of the C library's `strtok` on the text `s` it still has to scan:
it skips the leading delimiters; with nothing left it returns `NULL` (`none`);
otherwise the token runs to the next delimiter or the end, and the scan goes on
after that delimiter. -/
def strtok (delim : List Char) (s : List Char) : Option (List Char × List Char) :=
  let s1 := s.dropWhile (fun c => decide (c ∈ delim))
  if s1 = [] then none
  else
    some (s1.takeWhile (fun c => !decide (c ∈ delim)),
      (s1.dropWhile (fun c => !decide (c ∈ delim))).drop 1)

/-- The first loop of `split_string`: `token_count` when `strtok` returns
`NULL`.  Each turn consumes at least one character, so `fuel` above the length
of the text never runs out. -/
def count_tokens (delim : List Char) : Nat → List Char → Int → Int
  | 0, _, token_count => token_count
  | fuel + 1, s, token_count =>
    match strtok delim s with
    | none => token_count
    | some (_, rest) => count_tokens delim fuel rest (token_count + 1)

/-- The second loop of `split_string`: the tokens stored in `tokens[0 .. i)`. -/
def collect_tokens (delim : List Char) : Nat → List Char → List (List Char)
  | 0, _ => []
  | fuel + 1, s =>
    match strtok delim s with
    | none => []
    | some (token, rest) => token :: collect_tokens delim fuel rest

/-- The function `split_string`: the array returned (`none` for `NULL`) and
`*count`; `malloc_ok` tells whether the array is allocated. -/
def split_string (str delim : List Char) (malloc_ok : Bool) :
    Option (List (List Char)) × Int :=
  let token_count := count_tokens delim (str.length + 1) str 0
  if token_count = 0 then (none, 0)
  else if !malloc_ok then (none, 0)
  else (some (collect_tokens delim (str.length + 1) str), token_count)

/-- The maximal non-empty substrings of `str` that hold no character of
`delim`, in order: the pieces between delimiters, the empty ones dropped. -/
def pieces (str delim : List Char) : List (List Char) :=
  (str.splitOnP (fun c => decide (c ∈ delim))).filter (fun t => !t.isEmpty)

end Utils

namespace StorageServer

open ErrorCode

/-! ## Lock table: facts about the loops -/

theorem strncpy_of_fits (p junk : List Char) (h : p.length < MAX_PATH_LEN - 1) :
    strncpy p (MAX_PATH_LEN - 1) junk = p := by
  unfold strncpy
  rw [if_pos h]

theorem strncpy_overlong (p junk : List Char) (h : MAX_PATH_LEN - 1 ≤ p.length)
    (hlen : p.length ≠ MAX_PATH_LEN - 1 + junk.length) :
    strncpy p (MAX_PATH_LEN - 1) junk ≠ p := by
  unfold strncpy
  rw [if_neg (Nat.not_lt.mpr h)]
  intro he
  apply hlen
  have h2 := congrArg List.length he
  rw [List.length_append, List.length_take, Nat.min_eq_left h] at h2
  exact h2.symm

theorem find_any_lock_eq_true_iff (p : List Char) (i : Int) (locks : List SentenceLock) :
    find_any_lock p i locks = true ↔
      ∃ l ∈ locks, l.filepath = p ∧ l.sentence_idx = i := by
  induction locks with
  | nil => simp [find_any_lock]
  | cons lock next ih =>
    unfold find_any_lock
    by_cases h : lock.filepath = p ∧ lock.sentence_idx = i
    · simp [h]
    · rw [if_neg h, ih]
      constructor
      · rintro ⟨l, hl, hk⟩
        exact ⟨l, List.mem_cons_of_mem _ hl, hk⟩
      · rintro ⟨l, hl, hk⟩
        rcases List.mem_cons.mp hl with rfl | hl
        · exact absurd hk h
        · exact ⟨l, hl, hk⟩

theorem find_any_lock_eq_false_iff (p : List Char) (i : Int) (locks : List SentenceLock) :
    find_any_lock p i locks = false ↔
      ∀ l ∈ locks, ¬ (l.filepath = p ∧ l.sentence_idx = i) := by
  rw [← Bool.not_eq_true, find_any_lock_eq_true_iff]
  push_neg
  rfl

theorem find_write_lock_eq_true_iff (p : List Char) (i : Int) (locks : List SentenceLock) :
    find_write_lock p i locks = true ↔
      ∃ l ∈ locks, l.filepath = p ∧ l.sentence_idx = i ∧ l.is_write_lock = true := by
  induction locks with
  | nil => simp [find_write_lock]
  | cons lock next ih =>
    unfold find_write_lock
    by_cases h : lock.filepath = p ∧ lock.sentence_idx = i ∧ lock.is_write_lock = true
    · simp [h]
    · rw [if_neg h, ih]
      constructor
      · rintro ⟨l, hl, hk⟩
        exact ⟨l, List.mem_cons_of_mem _ hl, hk⟩
      · rintro ⟨l, hl, hk⟩
        rcases List.mem_cons.mp hl with rfl | hl
        · exact absurd hk h
        · exact ⟨l, hl, hk⟩

theorem entries_for_eq_zero_iff (p : List Char) (i : Int) (locks : List SentenceLock) :
    entries_for p i locks = 0 ↔
      ∀ l ∈ locks, ¬ (l.filepath = p ∧ l.sentence_idx = i) := by
  unfold entries_for
  rw [List.countP_eq_zero]
  simp

theorem find_any_lock_iff_entries (p : List Char) (i : Int) (locks : List SentenceLock) :
    find_any_lock p i locks = false ↔ entries_for p i locks = 0 := by
  rw [find_any_lock_eq_false_iff, entries_for_eq_zero_iff]

theorem bump_read_lock_none (p : List Char) (i : Int) (locks : List SentenceLock)
    (hw : find_write_lock p i locks = false) :
    bump_read_lock p i locks = none ↔ entries_for p i locks = 0 := by
  induction locks with
  | nil => simp [bump_read_lock, entries_for]
  | cons lock next ih =>
    unfold bump_read_lock
    unfold find_write_lock at hw
    rw [entries_for_eq_zero_iff]
    by_cases hkw : lock.filepath = p ∧ lock.sentence_idx = i ∧ lock.is_write_lock = true
    · simp [hkw] at hw
    · rw [if_neg hkw] at hw
      by_cases hk : lock.filepath = p ∧ lock.sentence_idx = i ∧ lock.is_write_lock = false
      · rw [if_pos hk]
        simp only [false_iff, reduceCtorEq]
        intro hall
        exact hall lock (List.mem_cons_self _ _) ⟨hk.1, hk.2.1⟩
      · rw [if_neg hk]
        rw [Option.map_eq_none', ih hw, entries_for_eq_zero_iff]
        constructor
        · intro hall l hl
          rcases List.mem_cons.mp hl with rfl | hl
          · rintro ⟨a, b⟩
            cases hwl : l.is_write_lock
            · exact hk ⟨a, b, hwl⟩
            · exact hkw ⟨a, b, hwl⟩
          · exact hall l hl
        · intro hall l hl
          exact hall l (List.mem_cons_of_mem _ hl)

theorem bump_read_lock_keys (p : List Char) (i : Int) (locks locks' : List SentenceLock)
    (h : bump_read_lock p i locks = some locks') :
    locks'.map lock_key = locks.map lock_key := by
  induction locks generalizing locks' with
  | nil => simp [bump_read_lock] at h
  | cons lock next ih =>
    unfold bump_read_lock at h
    split at h
    · simp at h
      rw [← h]
      simp [lock_key]
    · cases hb : bump_read_lock p i next with
      | none => simp [hb] at h
      | some rest =>
        rw [hb] at h
        simp at h
        rw [← h]
        simp [ih rest hb]

theorem release_walk_keys (p : List Char) (i fd : Int) (locks locks' : List SentenceLock)
    (h : release_walk p i fd locks = some locks') :
    (locks'.map lock_key).Sublist (locks.map lock_key) := by
  induction locks generalizing locks' with
  | nil => simp [release_walk] at h
  | cons lock next ih =>
    unfold release_walk at h
    split at h
    · split at h
      · split at h
        · simp at h
          rw [← h]
          simp [lock_key]
        · simp at h
          rw [← h]
          simp
      · simp at h
        rw [← h]
        simp
    · cases hb : release_walk p i fd next with
      | none => simp [hb] at h
      | some rest =>
        rw [hb] at h
        simp at h
        rw [← h]
        simp only [List.map_cons]
        exact (ih rest hb).cons₂ _

theorem release_all_walk_eq (fd : Int) (locks : List SentenceLock) (count : Int) :
    release_all_walk fd locks count =
      (count + (locks.countP (fun l => l.client_fd = fd) : Nat),
        locks.filter (fun l => l.client_fd ≠ fd)) := by
  induction locks generalizing count with
  | nil => simp [release_all_walk]
  | cons lock next ih =>
    unfold release_all_walk
    by_cases h : lock.client_fd = fd
    · rw [if_pos h, ih]
      simp [h, List.countP_cons]
      omega
    · rw [if_neg h, ih]
      simp [h, List.countP_cons]

/-- The keys of the table stay pairwise distinct under every call whose path
fits the record. -/
theorem keys_nodup_run (state : StorageServerState) (c : LockCall)
    (hfit : c.path_fits) (h : (state.active_locks.map lock_key).Nodup) :
    ((c.run state).active_locks.map lock_key).Nodup := by
  cases c with
  | acquire_read p i fd now ok junk =>
    simp only [LockCall.run, acquire_read_lock]
    cases hw : find_write_lock p i state.active_locks
    · simp only [Bool.false_eq_true, if_false]
      cases hb : bump_read_lock p i state.active_locks with
      | some locks =>
        simp only
        rw [bump_read_lock_keys p i _ _ hb]
        exact h
      | none =>
        cases ok
        · simpa using h
        · have h0 := (bump_read_lock_none p i _ hw).mp hb
          rw [entries_for_eq_zero_iff] at h0
          simp only [if_true, List.map_cons, List.nodup_cons]
          refine ⟨?_, h⟩
          intro hmem
          obtain ⟨l, hl, hk⟩ := List.mem_map.mp hmem
          simp only [lock_key, strncpy_of_fits p junk hfit, Prod.mk.injEq] at hk
          exact h0 l hl hk
    · simpa using h
  | acquire_write p i fd now ok junk =>
    simp only [LockCall.run, acquire_write_lock]
    cases hw : find_any_lock p i state.active_locks
    · cases ok
      · simpa using h
      · rw [find_any_lock_eq_false_iff] at hw
        simp only [Bool.false_eq_true, if_false, if_true, List.map_cons, List.nodup_cons]
        refine ⟨?_, h⟩
        intro hmem
        obtain ⟨l, hl, hk⟩ := List.mem_map.mp hmem
        simp only [lock_key, strncpy_of_fits p junk hfit, Prod.mk.injEq] at hk
        exact hw l hl hk
    · simpa using h
  | release p i fd =>
    simp only [LockCall.run, release_lock]
    cases hr : release_walk p i fd state.active_locks with
    | none => simpa using h
    | some locks =>
      simp only
      exact h.sublist (release_walk_keys p i fd _ _ hr)
  | release_all fd =>
    simp only [LockCall.run, release_all_locks_for_client, release_all_walk_eq]
    exact h.sublist ((List.filter_sublist _).map lock_key)

theorem keys_nodup_run_calls (calls : List LockCall) (state : StorageServerState)
    (hfit : ∀ c ∈ calls, c.path_fits) (h : (state.active_locks.map lock_key).Nodup) :
    ((run_calls state calls).active_locks.map lock_key).Nodup := by
  induction calls generalizing state with
  | nil => simpa [run_calls] using h
  | cons c rest ih =>
    simp only [run_calls, List.foldl_cons]
    exact ih (c.run state) (fun c' hc' => hfit c' (List.mem_cons_of_mem _ hc'))
      (keys_nodup_run state c (hfit c (List.mem_cons_self _ _)) h)

theorem entries_for_le_one_of_nodup (locks : List SentenceLock)
    (h : (locks.map lock_key).Nodup) (p : List Char) (i : Int) :
    entries_for p i locks ≤ 1 := by
  induction locks with
  | nil => simp [entries_for]
  | cons l rest ih =>
    simp only [List.map_cons, List.nodup_cons] at h
    have ih' := ih h.2
    unfold entries_for at ih' ⊢
    rw [List.countP_cons]
    by_cases hk : l.filepath = p ∧ l.sentence_idx = i
    · have h0 : entries_for p i rest = 0 := by
        rw [entries_for_eq_zero_iff]
        intro l' hl' hk'
        apply h.1
        refine List.mem_map.mpr ⟨l', hl', ?_⟩
        simp [lock_key, hk.1, hk.2, hk'.1, hk'.2]
      unfold entries_for at h0
      rw [h0]
      split <;> simp
    · rw [show (decide (l.filepath = p ∧ l.sentence_idx = i)) = false from
        decide_eq_false hk]
      simpa using ih'

theorem find_write_lock_of_entries_zero (p : List Char) (i : Int) (locks : List SentenceLock)
    (h : entries_for p i locks = 0) : find_write_lock p i locks = false := by
  rw [← Bool.not_eq_true, find_write_lock_eq_true_iff]
  rintro ⟨l, hl, h1, h2, _⟩
  exact (entries_for_eq_zero_iff p i locks).mp h l hl ⟨h1, h2⟩

theorem release_walk_none_of_entries_zero (p : List Char) (i fd : Int)
    (locks : List SentenceLock) (h : entries_for p i locks = 0) :
    release_walk p i fd locks = none := by
  induction locks with
  | nil => rfl
  | cons lock next ih =>
    rw [entries_for_eq_zero_iff] at h
    have hl := h lock (List.mem_cons_self _ _)
    have hn : entries_for p i next = 0 := by
      rw [entries_for_eq_zero_iff]
      exact fun l hl' => h l (List.mem_cons_of_mem _ hl')
    unfold release_walk
    rw [if_neg (fun hk => hl ⟨hk.1, hk.2.1⟩), ih hn]
    rfl

/-- A shared lock taken by client `a` and then by another client `b` on a free
key is one entry recorded for `a` with `read_count` 2, and `release_lock` by
`b` finds nothing to release. -/
theorem release_by_second_reader (state : StorageServerState) (p : List Char)
    (i a b now1 now2 : Int) (junk1 junk2 : List Char) (hp : p.length < MAX_PATH_LEN - 1)
    (hfree : entries_for p i state.active_locks = 0) (hab : a ≠ b) :
    acquire_read_lock (acquire_read_lock state p i a now1 true junk1).2 p i b now2 true junk2 =
      (ERR_SUCCESS, { state with active_locks :=
        { filepath := p, sentence_idx := i, client_fd := a, is_write_lock := false,
          read_count := 2, acquired_at := now1 } :: state.active_locks }) ∧
    release_lock
        (acquire_read_lock (acquire_read_lock state p i a now1 true junk1).2 p i b now2 true junk2).2
        p i b =
      (ERR_INVALID_OPERATION,
        (acquire_read_lock (acquire_read_lock state p i a now1 true junk1).2 p i b now2 true junk2).2) := by
  have hf := find_write_lock_of_entries_zero p i _ hfree
  have hb := (bump_read_lock_none p i _ hf).mpr hfree
  have e1 : acquire_read_lock state p i a now1 true junk1 =
      (ERR_SUCCESS, { state with active_locks :=
        { filepath := p, sentence_idx := i, client_fd := a, is_write_lock := false,
          read_count := 1, acquired_at := now1 } :: state.active_locks }) := by
    simp [acquire_read_lock, hf, hb, strncpy_of_fits p junk1 hp]
  have e2 : acquire_read_lock (acquire_read_lock state p i a now1 true junk1).2 p i b now2 true junk2 =
      (ERR_SUCCESS, { state with active_locks :=
        { filepath := p, sentence_idx := i, client_fd := a, is_write_lock := false,
          read_count := 2, acquired_at := now1 } :: state.active_locks }) := by
    rw [e1]
    simp [acquire_read_lock, find_write_lock, hf, bump_read_lock]
  refine ⟨e2, ?_⟩
  rw [e2]
  simp [release_lock, release_walk, hab, release_walk_none_of_entries_zero p i b _ hfree]

theorem strncpy_exact (p junk : List Char) (h : p.length = MAX_PATH_LEN - 1) :
    strncpy p (MAX_PATH_LEN - 1) junk = p ++ junk := by
  unfold strncpy
  rw [if_neg (by omega), List.take_of_length_le (by omega)]

/-- When the record does not read back as the path asked for, a write acquire
of a free key succeeds, and so does the next one: the loop of
`acquire_write_lock` does not find the entry of the first. -/
theorem acquire_write_lock_of_key_miss (state : StorageServerState) (p : List Char)
    (i fd1 fd2 now1 now2 : Int) (junk1 junk2 : List Char)
    (hfree : entries_for p i state.active_locks = 0)
    (hmiss : strncpy p (MAX_PATH_LEN - 1) junk1 ≠ p) :
    acquire_write_lock state p i fd1 now1 true junk1 =
      (ERR_SUCCESS, { state with active_locks :=
        { filepath := strncpy p (MAX_PATH_LEN - 1) junk1, sentence_idx := i, client_fd := fd1,
          is_write_lock := true, read_count := 0, acquired_at := now1 }
          :: state.active_locks }) ∧
    acquire_write_lock (acquire_write_lock state p i fd1 now1 true junk1).2
        p i fd2 now2 true junk2 =
      (ERR_SUCCESS, { state with active_locks :=
        { filepath := strncpy p (MAX_PATH_LEN - 1) junk2, sentence_idx := i, client_fd := fd2,
          is_write_lock := true, read_count := 0, acquired_at := now2 }
          :: { filepath := strncpy p (MAX_PATH_LEN - 1) junk1, sentence_idx := i,
               client_fd := fd1, is_write_lock := true, read_count := 0, acquired_at := now1 }
          :: state.active_locks }) := by
  have hf := (find_any_lock_iff_entries p i _).mpr hfree
  have e1 : acquire_write_lock state p i fd1 now1 true junk1 =
      (ERR_SUCCESS, { state with active_locks :=
        { filepath := strncpy p (MAX_PATH_LEN - 1) junk1, sentence_idx := i, client_fd := fd1,
          is_write_lock := true, read_count := 0, acquired_at := now1 }
          :: state.active_locks }) := by
    simp only [acquire_write_lock, hf, Bool.false_eq_true, if_false, if_true]
  refine ⟨e1, ?_⟩
  rw [e1]
  simp only [acquire_write_lock, find_any_lock, hmiss, false_and, if_false, hf,
    Bool.false_eq_true, if_true]

theorem is_delimiter_starts_sentence (ch : Char) (h : is_delimiter ch = true) :
    starts_sentence ch = true := by
  simp only [is_delimiter, Bool.or_eq_true, beq_iff_eq] at h
  rcases h with (rfl | rfl) | rfl <;> decide

theorem sentences_from_cons (ch : Char) (rest : List Char) (ins : Bool) :
    sentences_from (ch :: rest) ins =
      if is_delimiter ch then 1 + sentences_from rest false
      else sentences_from rest (ins || starts_sentence ch) := by
  conv_lhs => unfold sentences_from
  cases hd : is_delimiter ch
  · simp
  · simp [is_delimiter_starts_sentence ch hd]

theorem count_loop_eq (content : List Char) (count : Int) (ins : Bool) :
    (if (count_loop content count ins).2 then (count_loop content count ins).1 + 1
      else (count_loop content count ins).1) = count + sentences_from content ins := by
  induction content generalizing count ins with
  | nil => cases ins <;> simp [count_loop, sentences_from]
  | cons ch rest ih =>
    conv_lhs => unfold count_loop
    conv_rhs => unfold sentences_from
    have e : (if (!ins && starts_sentence ch) = true then true else ins) =
        (ins || starts_sentence ch) := by
      cases ins <;> cases starts_sentence ch <;> rfl
    simp only [e]
    cases hc : ((ins || starts_sentence ch) && is_delimiter ch)
    · simp only [Bool.false_eq_true, if_false]
      exact ih count _
    · simp only [if_true]
      rw [ih (count + 1) false]
      push_cast
      ring

theorem count_sentences_eq (content : List Char) :
    count_sentences (some content) = sentences_from content false := by
  have h := count_loop_eq content 0 false
  simp only [zero_add] at h
  simp only [count_sentences]
  rw [h]
  split
  · rfl
  · omega

theorem sentences_from_true_pos (content : List Char) : 0 < sentences_from content true := by
  induction content with
  | nil => simp [sentences_from]
  | cons ch rest ih =>
    rw [sentences_from_cons]
    split
    · omega
    · simpa using ih

theorem takeWhile_append_cases {α : Type} (q : α → Bool) (l₁ l₂ : List α) :
    (l₁ ++ l₂).takeWhile q =
      if l₁.all q then l₁ ++ l₂.takeWhile q else l₁.takeWhile q := by
  induction l₁ with
  | nil => simp
  | cons a l ih =>
    cases ha : q a
    · simp [List.takeWhile_cons, ha]
    · simp only [List.cons_append, List.takeWhile_cons, ha, if_true, List.all_cons, Bool.true_and]
      rw [ih]
      split <;> rfl

theorem after_last_delimiter_cons (ch : Char) (rest : List Char) :
    after_last_delimiter (ch :: rest) =
      if rest.any is_delimiter then after_last_delimiter rest
      else if is_delimiter ch then rest else ch :: rest := by
  unfold after_last_delimiter
  rw [List.reverse_cons, takeWhile_append_cases]
  by_cases hany : rest.any is_delimiter = true
  · have hall : (rest.reverse.all fun c => !is_delimiter c) = false := by
      rw [← Bool.not_eq_true]
      intro hall
      rw [List.any_eq_true] at hany
      obtain ⟨x, hx, hd⟩ := hany
      have := (List.all_eq_true.mp hall) x (List.mem_reverse.mpr hx)
      simp [hd] at this
    simp [hall, hany]
  · have hnone : ∀ x ∈ rest, is_delimiter x = false := by
      intro x hx
      cases hd : is_delimiter x
      · rfl
      · exact absurd (List.any_eq_true.mpr ⟨x, hx, hd⟩) hany
    have hall : (rest.reverse.all fun c => !is_delimiter c) = true := by
      rw [List.all_eq_true]
      intro x hx
      simp [hnone x (List.mem_reverse.mp hx)]
    have htw : rest.reverse.takeWhile (fun c => !is_delimiter c) = rest.reverse := by
      rw [List.takeWhile_eq_self_iff]
      intro x hx
      simp [hnone x (List.mem_reverse.mp hx)]
    rw [if_pos hall, if_neg hany]
    cases hd : is_delimiter ch
    · simp [List.takeWhile_cons, hd]
    · simp [List.takeWhile_cons, hd]

/-- Every delimiter byte closes a sentence, so the scan counts the delimiters
and, at end of file, one more when it stands inside a sentence. -/
theorem sentences_from_eq (content : List Char) (ins : Bool) :
    sentences_from content ins =
      content.countP is_delimiter +
        (if (if content.any is_delimiter then (after_last_delimiter content).any starts_sentence
              else (ins || content.any starts_sentence)) then 1 else 0) := by
  induction content generalizing ins with
  | nil => cases ins <;> simp [sentences_from]
  | cons ch rest ih =>
    rw [sentences_from_cons, after_last_delimiter_cons]
    cases hd : is_delimiter ch
    · simp only [Bool.false_eq_true, if_false]
      rw [ih, List.countP_cons, hd, List.any_cons, hd]
      cases hany : rest.any is_delimiter
      · simp [Bool.or_assoc]
      · simp
    · simp only [if_true]
      rw [ih, List.countP_cons, hd, List.any_cons, hd]
      cases hany : rest.any is_delimiter
      · simp
        omega
      · simp
        omega

theorem after_last_delimiter_of_none (content : List Char)
    (h : content.any is_delimiter = false) : after_last_delimiter content = content := by
  induction content with
  | nil => rfl
  | cons ch rest ih =>
    simp only [List.any_cons, Bool.or_eq_false_iff] at h
    rw [after_last_delimiter_cons, h.2, h.1]
    simp

theorem sentences_from_whitespace (content : List Char)
    (h : ∀ ch ∈ content, starts_sentence ch = false) : sentences_from content false = 0 := by
  induction content with
  | nil => rfl
  | cons ch rest ih =>
    have h1 := h ch (List.mem_cons_self _ _)
    have h2 : is_delimiter ch = false := by
      cases hd : is_delimiter ch
      · rfl
      · rw [is_delimiter_starts_sentence ch hd] at h1
        exact absurd h1 (by decide)
    rw [sentences_from_cons, h2, h1]
    simpa using ih (fun c hc => h c (List.mem_cons_of_mem _ hc))

theorem sentences_from_append_whitespace (ws rest : List Char)
    (h : ∀ ch ∈ ws, starts_sentence ch = false) :
    sentences_from (ws ++ rest) false = sentences_from rest false := by
  induction ws with
  | nil => rfl
  | cons ch more ih =>
    have h1 := h ch (List.mem_cons_self _ _)
    have h2 : is_delimiter ch = false := by
      cases hd : is_delimiter ch
      · rfl
      · rw [is_delimiter_starts_sentence ch hd] at h1
        exact absurd h1 (by decide)
    rw [List.cons_append, sentences_from_cons, h2, h1]
    simpa using ih (fun c hc => h c (List.mem_cons_of_mem _ hc))

theorem sentences_from_of_no_delimiter (content : List Char)
    (h : ∀ ch ∈ content, is_delimiter ch = false) : sentences_from content true = 1 := by
  induction content with
  | nil => rfl
  | cons ch rest ih =>
    rw [sentences_from_cons, h ch (List.mem_cons_self _ _)]
    simpa using ih (fun c hc => h c (List.mem_cons_of_mem _ hc))

theorem take_sentence_shape (content : List Char) :
    (∃ body t rest, content = body ++ t :: rest ∧ take_sentence content = body ++ [t] ∧
        is_delimiter t = true ∧ ∀ ch ∈ body, is_delimiter ch = false) ∨
    (take_sentence content = content ∧ ∀ ch ∈ content, is_delimiter ch = false) := by
  induction content with
  | nil => exact Or.inr ⟨rfl, by simp⟩
  | cons ch rest ih =>
    unfold take_sentence
    cases hd : is_delimiter ch
    · rcases ih with ⟨body, t, more, e1, e2, e3, e4⟩ | ⟨e1, e2⟩
      · refine Or.inl ⟨ch :: body, t, more, by simp [e1], by simp [e2], e3, ?_⟩
        intro c hc
        rcases List.mem_cons.mp hc with rfl | hc
        · exact hd
        · exact e4 c hc
      · refine Or.inr ⟨by simp [e1], ?_⟩
        intro c hc
        rcases List.mem_cons.mp hc with rfl | hc
        · exact hd
        · exact e2 c hc
    · exact Or.inl ⟨[], ch, rest, rfl, by simp, hd, by simp⟩

/-- One turn of the loop of `read_sentence` while the buffer has room. -/
theorem read_loop_cons (idx : Int) (bs : Nat) (ch : Char) (rest : List Char) (cur : Int)
    (ins : Bool) (b : List Char) (hb : b.length < bs - 1) :
    read_loop idx bs (ch :: rest) cur ins b =
      if (decide (cur = idx) && (ins || starts_sentence ch)) = true then
        (if is_delimiter ch = true then b ++ [ch] else read_loop idx bs rest cur true (b ++ [ch]))
      else if ((ins || starts_sentence ch) && is_delimiter ch) = true then
        read_loop idx bs rest (cur + 1) false b
      else read_loop idx bs rest cur (ins || starts_sentence ch) b := by
  conv_lhs => unfold read_loop
  rw [if_pos hb]
  by_cases hc : cur = idx <;> cases ins <;> cases hs : starts_sentence ch <;>
    cases hd : is_delimiter ch <;> simp [hc]

theorem read_loop_full (idx : Int) (bs : Nat) (content : List Char) (cur : Int)
    (ins : Bool) (b : List Char) (hb : ¬ b.length < bs - 1) :
    read_loop idx bs content cur ins b = b := by
  cases content with
  | nil => rfl
  | cons ch rest =>
    unfold read_loop
    rw [if_neg hb]

/-- Inside the sentence asked for, the loop copies up to the next delimiter,
inclusive, or to the end of the file. -/
theorem read_loop_collect (idx : Int) (bs : Nat) (content : List Char) (b : List Char)
    (h : (b ++ take_sentence content).length < bs) :
    read_loop idx bs content idx true b = b ++ take_sentence content := by
  induction content generalizing b with
  | nil => simp [read_loop, take_sentence]
  | cons ch rest ih =>
    have hb : b.length < bs - 1 := by
      unfold take_sentence at h
      split at h <;> simp at h <;> omega
    rw [read_loop_cons idx bs ch rest idx true b hb]
    unfold take_sentence at h ⊢
    cases hd : is_delimiter ch
    · rw [hd] at h
      simp only [decide_True, Bool.true_or, Bool.and_self, if_true, Bool.false_eq_true, if_false]
      rw [ih (b ++ [ch]) (by simpa using h)]
      simp
    · simp

/-- An index at or past the number of sentences left copies nothing. -/
theorem read_loop_past (idx : Int) (bs : Nat) (content : List Char) (cur : Int) (ins : Bool)
    (h : cur + sentences_from content ins ≤ idx) :
    read_loop idx bs content cur ins [] = [] := by
  induction content generalizing cur ins with
  | nil => rfl
  | cons ch rest ih =>
    by_cases hb : ([] : List Char).length < bs - 1
    · rw [read_loop_cons idx bs ch rest cur ins [] hb]
      rw [sentences_from_cons] at h
      cases hd : is_delimiter ch
      · rw [hd] at h
        simp only [Bool.false_eq_true, if_false] at h
        cases hi : (ins || starts_sentence ch)
        · simp only [Bool.and_false, Bool.false_eq_true, if_false, Bool.false_and]
          rw [hi] at h
          exact ih cur false h
        · rw [hi] at h
          have hpos := sentences_from_true_pos rest
          have hne : ¬ cur = idx := by omega
          simp only [hne, decide_False, Bool.false_and, Bool.false_eq_true, if_false,
            Bool.and_false]
          exact ih cur true h
      · rw [hd] at h
        simp only [if_true] at h
        have hne : ¬ cur = idx := by omega
        have hi : (ins || starts_sentence ch) = true := by
          simp [is_delimiter_starts_sentence ch hd]
        simp only [hne, decide_False, Bool.false_and, Bool.false_eq_true, if_false, hi,
          Bool.true_and, if_true]
        apply ih
        push_cast at h
        omega
    · exact read_loop_full idx bs _ cur ins [] hb

/-- A negative index copies nothing. -/
theorem read_loop_before (idx : Int) (bs : Nat) (content : List Char) (cur : Int) (ins : Bool)
    (b : List Char) (h : idx < cur) :
    read_loop idx bs content cur ins b = b := by
  induction content generalizing cur ins with
  | nil => rfl
  | cons ch rest ih =>
    by_cases hb : b.length < bs - 1
    · rw [read_loop_cons idx bs ch rest cur ins b hb]
      have hne : ¬ cur = idx := by omega
      simp only [hne, decide_False, Bool.false_and, Bool.false_eq_true, if_false]
      split
      · exact ih (cur + 1) false (by omega)
      · exact ih cur _ h
    · exact read_loop_full idx bs _ cur ins b hb

/-- One turn of the loop of `write_sentence`. -/
theorem bounds_loop_cons (idx : Int) (ch : Char) (rest : List Char) (i : Nat) (cur : Int)
    (sp ep : Nat) (ins : Bool) :
    bounds_loop idx (ch :: rest) i cur sp ep ins =
      if ((ins || starts_sentence ch) && is_delimiter ch) = true then
        (if cur = idx then
          { current_sentence := cur
            start_pos := if (!ins && starts_sentence ch) = true then i else sp
            end_pos := i + 1 }
        else bounds_loop idx rest (i + 1) (cur + 1) sp ep false)
      else bounds_loop idx rest (i + 1) cur
        (if (!ins && starts_sentence ch) = true ∧ cur = idx then i else sp) ep
        (ins || starts_sentence ch) := by
  conv_lhs => unfold bounds_loop
  by_cases hc : cur = idx <;> cases ins <;> cases hs : starts_sentence ch <;>
    cases hd : is_delimiter ch <;> simp [hc]

/-- Inside the target sentence, with a delimiter ahead, the loop of
`write_sentence` stops just after that delimiter. -/
theorem bounds_loop_closed (idx : Int) (body : List Char) (t : Char) (rest : List Char)
    (i sp ep : Nat) (hbody : ∀ ch ∈ body, is_delimiter ch = false)
    (ht : is_delimiter t = true) :
    bounds_loop idx (body ++ t :: rest) i idx sp ep true =
      { current_sentence := idx, start_pos := sp, end_pos := i + body.length + 1 } := by
  induction body generalizing i with
  | nil =>
    rw [List.nil_append, bounds_loop_cons]
    simp [ht]
  | cons ch more ih =>
    rw [List.cons_append, bounds_loop_cons]
    have hd := hbody ch (List.mem_cons_self _ _)
    simp only [hd, Bool.and_false, Bool.false_eq_true, if_false, Bool.not_true, Bool.false_and,
      false_and, Bool.true_or]
    rw [ih (i + 1) (fun c hc => hbody c (List.mem_cons_of_mem _ hc))]
    simp only [List.length_cons, SentenceBounds.mk.injEq, true_and]
    omega

/-- Inside the target sentence, with no delimiter ahead, the loop of
`write_sentence` runs to the end of the file and never assigns `end_pos`. -/
theorem bounds_loop_open (idx : Int) (content : List Char) (i sp ep : Nat)
    (h : ∀ ch ∈ content, is_delimiter ch = false) :
    bounds_loop idx content i idx sp ep true =
      { current_sentence := idx, start_pos := sp, end_pos := ep } := by
  induction content generalizing i with
  | nil => rfl
  | cons ch rest ih =>
    rw [bounds_loop_cons]
    have hd := h ch (List.mem_cons_self _ _)
    simp only [hd, Bool.and_false, Bool.false_eq_true, if_false, Bool.not_true, Bool.false_and,
      false_and, Bool.true_or]
    exact ih (i + 1) (fun c hc => h c (List.mem_cons_of_mem _ hc))

/-- Before the sentence asked for, `k` sentences ahead, the scans skip to it.
The sentence is a non-empty span `s` of the file that ends with a delimiter
or, as the last sentence, runs to the end of the file.  The loop of
`read_sentence` copies `s`; the loop of `write_sentence` finds its first
offset as `start_pos`, and its end as `end_pos` only when `s` ends with a
delimiter: otherwise `end_pos` keeps the value it had. -/
theorem scan_seek (content : List Char) (k : Nat) (cur : Int) (ins : Bool)
    (hk : ins = true → 0 < k) (h : k < sentences_from content ins) :
    ∃ pre s post, content = pre ++ s ++ post ∧ s ≠ [] ∧
      ((∃ body t, s = body ++ [t] ∧ is_delimiter t = true) ∨
        (k + 1 = sentences_from content ins ∧ post = [] ∧ ∀ ch ∈ s, is_delimiter ch = false)) ∧
      (∀ bs, s.length < bs → read_loop (cur + k) bs content cur ins [] = s) ∧
      (∀ i0 sp ep : Nat, bounds_loop (cur + k) content i0 cur sp ep ins =
        { current_sentence := cur + k
          start_pos := i0 + pre.length
          end_pos := if s.any is_delimiter then i0 + pre.length + s.length else ep }) := by
  induction content generalizing k cur ins with
  | nil =>
    cases ins
    · simp [sentences_from] at h
    · have := hk rfl
      simp [sentences_from] at h
      omega
  | cons ch rest ih =>
    rw [sentences_from_cons] at h ⊢
    cases hd : is_delimiter ch
    · -- not a delimiter
      rw [hd] at h
      simp only [Bool.false_eq_true, if_false] at h ⊢
      cases hi : (ins || starts_sentence ch)
      · -- still outside a sentence
        rw [hi] at h
        have hopen : (!ins && starts_sentence ch) = false := by
          cases ins <;> cases hs : starts_sentence ch <;> simp_all
        obtain ⟨pre, s, post, e1, e2, e3, e4, e5⟩ := ih k cur false (by simp) h
        refine ⟨ch :: pre, s, post, by simp [e1], e2, e3, ?_, ?_⟩
        · intro bs hbs
          have hlen : 0 < s.length := List.length_pos.mpr e2
          rw [read_loop_cons _ bs ch rest cur ins [] (by simp; omega)]
          simp only [hi, Bool.and_false, Bool.false_eq_true, if_false, Bool.false_and]
          exact e4 bs hbs
        · intro i0 sp ep
          rw [bounds_loop_cons]
          simp only [hi, hd, hopen, Bool.and_false, Bool.false_eq_true, if_false, false_and]
          rw [e5 (i0 + 1) sp ep]
          simp only [List.length_cons, SentenceBounds.mk.injEq, true_and]
          constructor
          · omega
          · split
            · omega
            · rfl
      · rw [hi] at h
        cases k with
        | zero =>
          -- the sentence asked for opens at this byte
          have hins : ins = false := by
            cases ins
            · rfl
            · exact absurd (hk rfl) (by omega)
          have hs : starts_sentence ch = true := by
            rw [hins] at hi
            simpa using hi
          have hread : ∀ bs, (ch :: take_sentence rest).length < bs →
              read_loop (cur + (0 : Nat)) bs (ch :: rest) cur ins [] = ch :: take_sentence rest := by
            intro bs hbs
            rw [read_loop_cons _ bs ch rest cur ins [] (by simp at hbs ⊢; omega)]
            simp only [Nat.cast_zero, add_zero, decide_True, hi, Bool.and_self, if_true, hd,
              Bool.false_eq_true, if_false, List.nil_append]
            exact read_loop_collect cur bs rest [ch] (by simpa using hbs)
          rcases take_sentence_shape rest with ⟨body, t, more, e1, e2, e3, e4⟩ | ⟨e1, e2⟩
          · refine ⟨[], ch :: take_sentence rest, more, ?_, by simp,
              Or.inl ⟨ch :: body, t, by simp [e2], e3⟩, hread, ?_⟩
            · rw [e2]
              conv_lhs => rw [e1]
              simp
            · intro i0 sp ep
              rw [bounds_loop_cons]
              simp only [hi, hd, hins, hs, Bool.and_false, Bool.false_eq_true, if_false,
                Nat.cast_zero, add_zero, Bool.not_false, Bool.and_self, and_self, if_true,
                Bool.or_true]
              rw [e2, e1, bounds_loop_closed cur body t more (i0 + 1) i0 ep e4 e3]
              have hany : (ch :: (body ++ [t])).any is_delimiter = true := by
                simp [e3]
              rw [hany]
              simp only [List.length_nil, add_zero, if_true, List.length_cons,
                List.length_append, List.length_singleton, SentenceBounds.mk.injEq, true_and]
              omega
          · refine ⟨[], ch :: take_sentence rest, [], by simp [e1], by simp, Or.inr ⟨?_, rfl, ?_⟩,
              hread, ?_⟩
            · rw [sentences_from_of_no_delimiter rest e2]
            · intro c hc
              rw [e1] at hc
              rcases List.mem_cons.mp hc with rfl | hc
              · exact hd
              · exact e2 c hc
            · intro i0 sp ep
              rw [bounds_loop_cons]
              simp only [hi, hd, hins, hs, Bool.and_false, Bool.false_eq_true, if_false,
                Nat.cast_zero, add_zero, Bool.not_false, Bool.and_self, and_self, if_true,
                Bool.or_true]
              rw [bounds_loop_open cur rest (i0 + 1) i0 ep e2, e1]
              have hany : (ch :: rest).any is_delimiter = false := by
                rw [List.any_cons, hd, Bool.false_or, ← Bool.not_eq_true, List.any_eq_true]
                rintro ⟨x, hx, hxd⟩
                rw [e2 x hx] at hxd
                exact Bool.noConfusion hxd
              rw [hany]
              simp
        | succ k' =>
          obtain ⟨pre, s, post, e1, e2, e3, e4, e5⟩ := ih (k' + 1) cur true (by simp) h
          have hne : ¬ cur = cur + ((k' + 1 : Nat) : Int) := by push_cast; omega
          refine ⟨ch :: pre, s, post, by simp [e1], e2, e3, ?_, ?_⟩
          · intro bs hbs
            have hlen : 0 < s.length := List.length_pos.mpr e2
            rw [read_loop_cons _ bs ch rest cur ins [] (by simp; omega)]
            simp only [hne, decide_False, Bool.false_and, Bool.false_eq_true, if_false, hi, hd,
              Bool.and_false]
            exact e4 bs hbs
          · intro i0 sp ep
            rw [bounds_loop_cons]
            simp only [hi, hd, hne, Bool.and_false, Bool.false_eq_true, if_false, and_false]
            rw [e5 (i0 + 1) sp ep]
            simp only [List.length_cons, SentenceBounds.mk.injEq, true_and]
            constructor
            · omega
            · split
              · omega
              · rfl
    · -- a delimiter: it closes a sentence, opened here or before
      rw [hd] at h
      simp only [if_true] at h ⊢
      have hs := is_delimiter_starts_sentence ch hd
      have hi : (ins || starts_sentence ch) = true := by simp [hs]
      cases k with
      | zero =>
        have hins : ins = false := by
          cases ins
          · rfl
          · exact absurd (hk rfl) (by omega)
        refine ⟨[], [ch], rest, by simp, by simp, Or.inl ⟨[], ch, by simp, hd⟩, ?_, ?_⟩
        · intro bs hbs
          rw [read_loop_cons _ bs ch rest cur ins [] (by simp at hbs ⊢; omega)]
          simp [hi, hd]
        · intro i0 sp ep
          rw [bounds_loop_cons]
          simp [hi, hd, hins, hs]
      | succ k' =>
        obtain ⟨pre, s, post, e1, e2, e3, e4, e5⟩ :=
          ih k' (cur + 1) false (by simp) (by omega)
        have hne : ¬ cur = cur + ((k' + 1 : Nat) : Int) := by push_cast; omega
        have hidx : cur + 1 + (k' : Int) = cur + ((k' + 1 : Nat) : Int) := by
          push_cast; ring
        refine ⟨ch :: pre, s, post, by simp [e1], e2, ?_, ?_, ?_⟩
        · rcases e3 with e3 | ⟨a, b, c⟩
          · exact Or.inl e3
          · exact Or.inr ⟨by omega, b, c⟩
        · intro bs hbs
          have hlen : 0 < s.length := List.length_pos.mpr e2
          rw [read_loop_cons _ bs ch rest cur ins [] (by simp; omega)]
          simp only [hne, decide_False, Bool.false_and, Bool.false_eq_true, if_false, hi, hd,
            Bool.and_self, if_true]
          have e := e4 bs hbs
          rw [hidx] at e
          exact e
        · intro i0 sp ep
          rw [bounds_loop_cons]
          simp only [hi, hd, hne, Bool.and_self, if_true, if_false]
          have e := e5 (i0 + 1) sp ep
          rw [hidx] at e
          rw [e]
          simp only [List.length_cons, SentenceBounds.mk.injEq, true_and]
          constructor
          · omega
          · split
            · omega
            · rfl

theorem count_loop_cons (ch : Char) (rest : List Char) (count : Int) (ins : Bool) :
    count_loop (ch :: rest) count ins =
      if is_delimiter ch then count_loop rest (count + 1) false
      else count_loop rest count (ins || starts_sentence ch) := by
  conv_lhs => unfold count_loop
  cases hd : is_delimiter ch
  · cases ins <;> cases starts_sentence ch <;> simp
  · cases ins <;> simp [is_delimiter_starts_sentence ch hd]

/-- The variables of `count_sentences` when its loop ends: `count` has gone up
by the number of delimiter bytes, and `in_sentence` tells whether a byte other
than space, tab and newline follows the last delimiter. -/
theorem count_loop_closed (content : List Char) (count : Int) (ins : Bool) :
    (count_loop content count ins).1 = count + (content.countP is_delimiter : Nat) ∧
    (count_loop content count ins).2 =
      (if content.any is_delimiter then (after_last_delimiter content).any starts_sentence
        else (ins || content.any starts_sentence)) := by
  induction content generalizing count ins with
  | nil => simp [count_loop]
  | cons ch rest ih =>
    rw [count_loop_cons, after_last_delimiter_cons]
    cases hd : is_delimiter ch
    · simp only [Bool.false_eq_true, if_false]
      obtain ⟨h1, h2⟩ := ih count (ins || starts_sentence ch)
      refine ⟨?_, ?_⟩
      · rw [h1, List.countP_cons, hd]
        simp
      · rw [h2, List.any_cons, hd]
        cases hany : rest.any is_delimiter
        · simp [Bool.or_assoc]
        · simp
    · simp only [if_true]
      obtain ⟨h1, h2⟩ := ih (count + 1) false
      refine ⟨?_, ?_⟩
      · rw [h1, List.countP_cons, hd]
        push_cast
        simp
        ring
      · rw [h2, List.any_cons, hd]
        cases hany : rest.any is_delimiter
        · simp
        · simp

/-- What `write_sentence` does at a valid index, all resources granted. The
target sentence is the span `s` that `read_sentence` returns, with
`F = pre ++ s ++ post`.  When `s` ends with a delimiter the file becomes
`pre ++ new_text ++ post`.  When `s` is the unterminated last sentence
`end_pos` is still 0 and the file becomes `pre ++ new_text ++ F`. -/
theorem write_sentence_at_sentence (content : List Char) (i : Int) (new_text : List Char)
    (h0 : 0 ≤ i) (hN : i < count_sentences (some content)) :
    ∃ pre s post, content = pre ++ s ++ post ∧ s ≠ [] ∧
      (∀ bs, s.length < bs →
        read_sentence (some content) i bs = (((s.length : Nat) : Int), s)) ∧
      ((∃ body t, s = body ++ [t] ∧ is_delimiter t = true ∧
          write_sentence (some content) i new_text ⟨true, true, true⟩ =
            (ERR_SUCCESS, some (pre ++ new_text ++ post))) ∨
        (i = count_sentences (some content) - 1 ∧ post = [] ∧
          (∀ ch ∈ s, is_delimiter ch = false) ∧
          write_sentence (some content) i new_text ⟨true, true, true⟩ =
            (ERR_SUCCESS, some (pre ++ new_text ++ content)))) := by
  rw [count_sentences_eq] at hN ⊢
  obtain ⟨k, rfl⟩ := Int.eq_ofNat_of_zero_le h0
  obtain ⟨pre, s, post, e1, e2, e3, e4, e5⟩ :=
    scan_seek content k 0 false (by simp) (by exact_mod_cast hN)
  have hb := e5 0 0 0
  simp only [zero_add] at hb
  refine ⟨pre, s, post, e1, e2, ?_, ?_⟩
  · intro bs hbs
    have e := e4 bs hbs
    rw [zero_add] at e
    have hne : bs ≠ 0 := by omega
    unfold read_sentence
    rw [if_neg hne]
    simp only [e]
  · rcases e3 with ⟨body, t, hs, ht⟩ | ⟨a, b, c⟩
    · refine Or.inl ⟨body, t, hs, ht, ?_⟩
      have hany : s.any is_delimiter = true := by
        rw [hs]
        simp [ht]
      rw [hany] at hb
      simp only [if_true] at hb
      simp only [write_sentence, hb, Bool.not_true, Bool.false_eq_true, if_false, ne_eq,
        not_true_eq_false]
      have ht1 : content.take pre.length = pre := by
        rw [e1, List.append_assoc, List.take_left']
        rfl
      have hd1 : content.drop (pre.length + s.length) = post := by
        rw [e1, ← List.length_append, List.drop_left']
        rfl
      have hl : content.length - (pre.length + s.length) = post.length := by
        rw [e1]
        simp only [List.length_append]
        omega
      rw [ht1, hd1, hl, List.take_length]
    · refine Or.inr ⟨?_, b, c, ?_⟩
      · rw [← a]
        push_cast
        ring
      · have hany : s.any is_delimiter = false := by
          rw [← Bool.not_eq_true, List.any_eq_true]
          rintro ⟨x, hx, hxd⟩
          rw [c x hx] at hxd
          exact Bool.noConfusion hxd
        rw [hany] at hb
        simp only [Bool.false_eq_true, if_false] at hb
        simp only [write_sentence, hb, Bool.not_true, Bool.false_eq_true, if_false, ne_eq,
          not_true_eq_false]
        have ht1 : content.take pre.length = pre := by
          rw [e1, List.append_assoc, List.take_left']
          rfl
        rw [ht1]
        simp

/-- The seek of `scan_seek` with the frame around the sentence: the prefix
`pre` before sentence `k` closes exactly `k` sentences and leaves the scans
outside a sentence, whatever follows it, and a sentence that ends with a
delimiter has no other delimiter. -/
theorem scan_seek_frame (content : List Char) (k : Nat) (cur : Int) (ins : Bool)
    (hk : ins = true → 0 < k) (h : k < sentences_from content ins) :
    ∃ pre s post, content = pre ++ s ++ post ∧ s ≠ [] ∧
      ((∃ body t, s = body ++ [t] ∧ is_delimiter t = true ∧
          ∀ ch ∈ body, is_delimiter ch = false) ∨
        (k + 1 = sentences_from content ins ∧ post = [] ∧ ∀ ch ∈ s, is_delimiter ch = false)) ∧
      (∀ bs, s.length < bs → read_loop (cur + k) bs content cur ins [] = s) ∧
      (∀ i0 sp ep : Nat, bounds_loop (cur + k) content i0 cur sp ep ins =
        { current_sentence := cur + k
          start_pos := i0 + pre.length
          end_pos := if s.any is_delimiter then i0 + pre.length + s.length else ep }) ∧
      (∀ (tail : List Char) (bs : Nat), 2 ≤ bs →
        read_loop (cur + k) bs (pre ++ tail) cur ins [] =
          read_loop (cur + k) bs tail (cur + k) false []) ∧
      (∀ tail : List Char, sentences_from (pre ++ tail) ins = k + sentences_from tail false) := by
  induction content generalizing k cur ins with
  | nil =>
    cases ins
    · simp [sentences_from] at h
    · have := hk rfl
      simp [sentences_from] at h
      omega
  | cons ch rest ih =>
    rw [sentences_from_cons] at h ⊢
    cases hd : is_delimiter ch
    · -- not a delimiter
      rw [hd] at h
      simp only [Bool.false_eq_true, if_false] at h ⊢
      cases hi : (ins || starts_sentence ch)
      · -- still outside a sentence
        rw [hi] at h
        have hopen : (!ins && starts_sentence ch) = false := by
          cases ins <;> cases hs : starts_sentence ch <;> simp_all
        obtain ⟨pre, s, post, e1, e2, e3, e4, e5, e6, e7⟩ := ih k cur false (by simp) h
        refine ⟨ch :: pre, s, post, by simp [e1], e2, e3, ?_, ?_, ?_, ?_⟩
        · intro bs hbs
          have hlen : 0 < s.length := List.length_pos.mpr e2
          rw [read_loop_cons _ bs ch rest cur ins [] (by simp; omega)]
          simp only [hi, Bool.and_false, Bool.false_eq_true, if_false, Bool.false_and]
          exact e4 bs hbs
        · intro i0 sp ep
          rw [bounds_loop_cons]
          simp only [hi, hd, hopen, Bool.and_false, Bool.false_eq_true, if_false, false_and]
          rw [e5 (i0 + 1) sp ep]
          simp only [List.length_cons, SentenceBounds.mk.injEq, true_and]
          constructor
          · omega
          · split
            · omega
            · rfl
        · intro tail bs hbs
          rw [List.cons_append, read_loop_cons _ bs ch (pre ++ tail) cur ins [] (by simp; omega)]
          simp only [hi, Bool.and_false, Bool.false_eq_true, if_false, Bool.false_and]
          exact e6 tail bs hbs
        · intro tail
          rw [List.cons_append, sentences_from_cons, hd]
          simp only [Bool.false_eq_true, if_false]
          rw [hi]
          exact e7 tail
      · rw [hi] at h
        cases k with
        | zero =>
          -- the sentence asked for opens at this byte
          have hins : ins = false := by
            cases ins
            · rfl
            · exact absurd (hk rfl) (by omega)
          have hs : starts_sentence ch = true := by
            rw [hins] at hi
            simpa using hi
          have hread : ∀ bs, (ch :: take_sentence rest).length < bs →
              read_loop (cur + (0 : Nat)) bs (ch :: rest) cur ins [] = ch :: take_sentence rest := by
            intro bs hbs
            rw [read_loop_cons _ bs ch rest cur ins [] (by simp at hbs ⊢; omega)]
            simp only [Nat.cast_zero, add_zero, decide_True, hi, Bool.and_self, if_true, hd,
              Bool.false_eq_true, if_false, List.nil_append]
            exact read_loop_collect cur bs rest [ch] (by simpa using hbs)
          have hframe1 : ∀ (tail : List Char) (bs : Nat), 2 ≤ bs →
              read_loop (cur + (0 : Nat)) bs ([] ++ tail) cur ins [] =
                read_loop (cur + (0 : Nat)) bs tail (cur + (0 : Nat)) false [] := by
            intro tail bs _
            rw [hins]
            simp
          have hframe2 : ∀ tail : List Char,
              sentences_from ([] ++ tail) ins = 0 + sentences_from tail false := by
            intro tail
            rw [hins]
            simp
          rcases take_sentence_shape rest with ⟨body, t, more, e1, e2, e3, e4⟩ | ⟨e1, e2⟩
          · refine ⟨[], ch :: take_sentence rest, more, ?_, by simp,
              Or.inl ⟨ch :: body, t, by simp [e2], e3, ?_⟩, hread, ?_, hframe1, hframe2⟩
            · rw [e2]
              conv_lhs => rw [e1]
              simp
            · intro c hc
              rcases List.mem_cons.mp hc with rfl | hc
              · exact hd
              · exact e4 c hc
            · intro i0 sp ep
              rw [bounds_loop_cons]
              simp only [hi, hd, hins, hs, Bool.and_false, Bool.false_eq_true, if_false,
                Nat.cast_zero, add_zero, Bool.not_false, Bool.and_self, and_self, if_true,
                Bool.or_true]
              rw [e2, e1, bounds_loop_closed cur body t more (i0 + 1) i0 ep e4 e3]
              have hany : (ch :: (body ++ [t])).any is_delimiter = true := by
                simp [e3]
              rw [hany]
              simp only [List.length_nil, add_zero, if_true, List.length_cons,
                List.length_append, List.length_singleton, SentenceBounds.mk.injEq, true_and]
              omega
          · refine ⟨[], ch :: take_sentence rest, [], by simp [e1], by simp, Or.inr ⟨?_, rfl, ?_⟩,
              hread, ?_, hframe1, hframe2⟩
            · rw [sentences_from_of_no_delimiter rest e2]
            · intro c hc
              rw [e1] at hc
              rcases List.mem_cons.mp hc with rfl | hc
              · exact hd
              · exact e2 c hc
            · intro i0 sp ep
              rw [bounds_loop_cons]
              simp only [hi, hd, hins, hs, Bool.and_false, Bool.false_eq_true, if_false,
                Nat.cast_zero, add_zero, Bool.not_false, Bool.and_self, and_self, if_true,
                Bool.or_true]
              rw [bounds_loop_open cur rest (i0 + 1) i0 ep e2, e1]
              have hany : (ch :: rest).any is_delimiter = false := by
                rw [List.any_cons, hd, Bool.false_or, ← Bool.not_eq_true, List.any_eq_true]
                rintro ⟨x, hx, hxd⟩
                rw [e2 x hx] at hxd
                exact Bool.noConfusion hxd
              rw [hany]
              simp
        | succ k' =>
          obtain ⟨pre, s, post, e1, e2, e3, e4, e5, e6, e7⟩ :=
            ih (k' + 1) cur true (by simp) h
          have hne : ¬ cur = cur + ((k' + 1 : Nat) : Int) := by push_cast; omega
          refine ⟨ch :: pre, s, post, by simp [e1], e2, e3, ?_, ?_, ?_, ?_⟩
          · intro bs hbs
            have hlen : 0 < s.length := List.length_pos.mpr e2
            rw [read_loop_cons _ bs ch rest cur ins [] (by simp; omega)]
            simp only [hne, decide_False, Bool.false_and, Bool.false_eq_true, if_false, hi, hd,
              Bool.and_false]
            exact e4 bs hbs
          · intro i0 sp ep
            rw [bounds_loop_cons]
            simp only [hi, hd, hne, Bool.and_false, Bool.false_eq_true, if_false, and_false]
            rw [e5 (i0 + 1) sp ep]
            simp only [List.length_cons, SentenceBounds.mk.injEq, true_and]
            constructor
            · omega
            · split
              · omega
              · rfl
          · intro tail bs hbs
            rw [List.cons_append,
              read_loop_cons _ bs ch (pre ++ tail) cur ins [] (by simp; omega)]
            simp only [hne, decide_False, Bool.false_and, Bool.false_eq_true, if_false, hi, hd,
              Bool.and_false]
            exact e6 tail bs hbs
          · intro tail
            rw [List.cons_append, sentences_from_cons, hd]
            simp only [Bool.false_eq_true, if_false]
            rw [hi]
            exact e7 tail
    · -- a delimiter: it closes a sentence, opened here or before
      rw [hd] at h
      simp only [if_true] at h ⊢
      have hs := is_delimiter_starts_sentence ch hd
      have hi : (ins || starts_sentence ch) = true := by simp [hs]
      cases k with
      | zero =>
        have hins : ins = false := by
          cases ins
          · rfl
          · exact absurd (hk rfl) (by omega)
        refine ⟨[], [ch], rest, by simp, by simp, Or.inl ⟨[], ch, by simp, hd, by simp⟩,
          ?_, ?_, ?_, ?_⟩
        · intro bs hbs
          rw [read_loop_cons _ bs ch rest cur ins [] (by simp at hbs ⊢; omega)]
          simp [hi, hd]
        · intro i0 sp ep
          rw [bounds_loop_cons]
          simp [hi, hd, hins, hs]
        · intro tail bs _
          rw [hins]
          simp
        · intro tail
          rw [hins]
          simp
      | succ k' =>
        obtain ⟨pre, s, post, e1, e2, e3, e4, e5, e6, e7⟩ :=
          ih k' (cur + 1) false (by simp) (by omega)
        have hne : ¬ cur = cur + ((k' + 1 : Nat) : Int) := by push_cast; omega
        have hidx : cur + 1 + (k' : Int) = cur + ((k' + 1 : Nat) : Int) := by
          push_cast; ring
        refine ⟨ch :: pre, s, post, by simp [e1], e2, ?_, ?_, ?_, ?_, ?_⟩
        · rcases e3 with e3 | ⟨a, b, c⟩
          · exact Or.inl e3
          · exact Or.inr ⟨by omega, b, c⟩
        · intro bs hbs
          have hlen : 0 < s.length := List.length_pos.mpr e2
          rw [read_loop_cons _ bs ch rest cur ins [] (by simp; omega)]
          simp only [hne, decide_False, Bool.false_and, Bool.false_eq_true, if_false, hi, hd,
            Bool.and_self, if_true]
          have e := e4 bs hbs
          rw [hidx] at e
          exact e
        · intro i0 sp ep
          rw [bounds_loop_cons]
          simp only [hi, hd, hne, Bool.and_self, if_true, if_false]
          have e := e5 (i0 + 1) sp ep
          rw [hidx] at e
          rw [e]
          simp only [List.length_cons, SentenceBounds.mk.injEq, true_and]
          constructor
          · omega
          · split
            · omega
            · rfl
        · intro tail bs hbs
          rw [List.cons_append,
            read_loop_cons _ bs ch (pre ++ tail) cur ins [] (by simp; omega)]
          simp only [hne, decide_False, Bool.false_and, Bool.false_eq_true, if_false, hi, hd,
            Bool.and_self, if_true]
          have e := e6 tail bs hbs
          rw [hidx] at e
          exact e
        · intro tail
          rw [List.cons_append, sentences_from_cons, hd]
          simp only [if_true]
          rw [e7 tail]
          omega

/-- An index the scan has already passed (a negative one, from the start): the
loop of `write_sentence` runs to the end of the file, counts the delimiters
and assigns neither `start_pos` nor `end_pos`. -/
theorem bounds_loop_behind (idx : Int) (content : List Char) (i : Nat) (cur : Int)
    (sp ep : Nat) (ins : Bool) (h : idx < cur) :
    bounds_loop idx content i cur sp ep ins =
      { current_sentence := cur + (content.countP is_delimiter : Nat)
        start_pos := sp, end_pos := ep } := by
  induction content generalizing i cur ins with
  | nil => simp [bounds_loop]
  | cons ch rest ih =>
    rw [bounds_loop_cons, List.countP_cons]
    have hne : ¬ cur = idx := by omega
    cases hd : is_delimiter ch
    · simp only [Bool.and_false, Bool.false_eq_true, if_false, hne, and_false]
      rw [ih (i + 1) cur _ h]
      simp
    · have hi : (ins || starts_sentence ch) = true := by
        simp [is_delimiter_starts_sentence ch hd]
      simp only [hi, Bool.and_self, if_true, hne, if_false]
      rw [ih (i + 1) (cur + 1) false (by omega)]
      simp only [SentenceBounds.mk.injEq, and_true]
      push_cast
      ring

/-- An index at or past the number of sentences left: the loop of
`write_sentence` runs to the end of the file, counts the delimiters and
assigns neither `start_pos` nor `end_pos`. -/
theorem bounds_loop_past (idx : Int) (content : List Char) (i : Nat) (cur : Int)
    (sp ep : Nat) (ins : Bool) (h : cur + sentences_from content ins ≤ idx) :
    bounds_loop idx content i cur sp ep ins =
      { current_sentence := cur + (content.countP is_delimiter : Nat)
        start_pos := sp, end_pos := ep } := by
  induction content generalizing i cur ins with
  | nil => simp [bounds_loop]
  | cons ch rest ih =>
    rw [bounds_loop_cons, List.countP_cons]
    rw [sentences_from_cons] at h
    cases hd : is_delimiter ch
    · rw [hd] at h
      simp only [Bool.false_eq_true, if_false] at h
      simp only [Bool.and_false, Bool.false_eq_true, if_false]
      have hsp : (if (!ins && starts_sentence ch) = true ∧ cur = idx then i else sp) = sp := by
        cases hi : (ins || starts_sentence ch)
        · have hopen : (!ins && starts_sentence ch) = false := by
            cases ins <;> cases hs : starts_sentence ch <;> simp_all
          simp [hopen]
        · rw [hi] at h
          have hpos := sentences_from_true_pos rest
          have hne : ¬ cur = idx := by omega
          simp [hne]
      rw [hsp, ih (i + 1) cur _ h]
      simp
    · rw [hd] at h
      simp only [if_true] at h
      have hi : (ins || starts_sentence ch) = true := by
        simp [is_delimiter_starts_sentence ch hd]
      have hne : ¬ cur = idx := by omega
      simp only [hi, Bool.and_self, if_true, hne, if_false]
      rw [ih (i + 1) (cur + 1) false (by push_cast at h; omega)]
      simp only [SentenceBounds.mk.injEq, and_true]
      push_cast
      ring

/-- What `write_sentence` does at an index that names no sentence, all
resources granted: it fails with `ERR_INVALID_OPERATION` and leaves the file
alone, except when the index equals the number of delimiter bytes, which at
such an index means the file has exactly that many sentences, all closed:
then it returns `ERR_SUCCESS` and puts the new text in front of the old
file. -/
theorem write_sentence_out_of_range (content : List Char) (idx : Int) (new_text : List Char)
    (h : idx < 0 ∨ count_sentences (some content) ≤ idx) :
    write_sentence (some content) idx new_text ⟨true, true, true⟩ =
      if idx = (content.countP is_delimiter : Nat) then
        (ERR_SUCCESS, some (new_text ++ content))
      else (ERR_INVALID_OPERATION, some content) := by
  have hb : bounds_loop idx content 0 0 0 0 false =
      { current_sentence := (0 : Int) + (content.countP is_delimiter : Nat)
        start_pos := 0, end_pos := 0 } := by
    rcases h with h | h
    · exact bounds_loop_behind idx content 0 0 0 0 false h
    · rw [count_sentences_eq] at h
      exact bounds_loop_past idx content 0 0 0 0 false (by simpa using h)
  rw [zero_add] at hb
  simp only [write_sentence, hb, Bool.not_true, Bool.false_eq_true, if_false, ne_eq]
  by_cases he : idx = (content.countP is_delimiter : Nat)
  · rw [if_pos he, if_neg (by rw [he]; simp)]
    simp
  · rw [if_neg he, if_pos (fun e => he e.symm)]

theorem take_sentence_closed (body : List Char) (t : Char) (tail : List Char)
    (hbody : ∀ ch ∈ body, is_delimiter ch = false) (ht : is_delimiter t = true) :
    take_sentence (body ++ t :: tail) = body ++ [t] := by
  induction body with
  | nil => simp [take_sentence, ht]
  | cons ch more ih =>
    rw [List.cons_append, take_sentence, hbody ch (List.mem_cons_self _ _)]
    simp only [Bool.false_eq_true, if_false, List.cons_append]
    rw [ih (fun c hc => hbody c (List.mem_cons_of_mem _ hc))]

/-- Standing before a text that opens with a byte other than space, tab and
newline and has its only delimiter as its last byte, the loop of
`read_sentence` copies exactly that text, whatever follows it. -/
theorem read_loop_at_start (idx : Int) (bs : Nat) (body : List Char) (t : Char)
    (tail : List Char) (hbody : ∀ ch ∈ body, is_delimiter ch = false)
    (ht : is_delimiter t = true)
    (hstart : ∀ ch, (body ++ [t]).head? = some ch → starts_sentence ch = true)
    (hbs : (body ++ [t]).length < bs) :
    read_loop idx bs ((body ++ [t]) ++ tail) idx false [] = body ++ [t] := by
  cases body with
  | nil =>
    simp only [List.nil_append, List.singleton_append]
    rw [read_loop_cons idx bs t tail idx false [] (by simp at hbs ⊢; omega)]
    simp [ht, is_delimiter_starts_sentence t ht]
  | cons ch more =>
    have hs : starts_sentence ch = true := hstart ch (by simp)
    have hd : is_delimiter ch = false := hbody ch (List.mem_cons_self _ _)
    simp only [List.cons_append, List.append_assoc, List.singleton_append, List.nil_append]
    rw [read_loop_cons idx bs ch (more ++ t :: tail) idx false [] (by simp at hbs ⊢; omega)]
    simp only [decide_True, hs, Bool.or_true, Bool.and_self, if_true, hd, Bool.false_eq_true,
      if_false, List.nil_append]
    have hts := take_sentence_closed more t tail
      (fun c hc => hbody c (List.mem_cons_of_mem _ hc)) ht
    rw [read_loop_collect idx bs (more ++ t :: tail) [ch] (by rw [hts]; simpa using hbs), hts]
    simp

theorem sentences_from_append_no_delimiter (text tail : List Char) (ins : Bool)
    (h : ∀ ch ∈ text, is_delimiter ch = false) :
    sentences_from (text ++ tail) ins = sentences_from tail (ins || text.any starts_sentence) := by
  induction text generalizing ins with
  | nil => simp
  | cons ch more ih =>
    rw [List.cons_append, sentences_from_cons, h ch (List.mem_cons_self _ _)]
    simp only [Bool.false_eq_true, if_false]
    rw [ih _ (fun c hc => h c (List.mem_cons_of_mem _ hc)), List.any_cons, Bool.or_assoc]

theorem sentences_from_closed (body : List Char) (t : Char) (tail : List Char) (ins : Bool)
    (hbody : ∀ ch ∈ body, is_delimiter ch = false) (ht : is_delimiter t = true) :
    sentences_from ((body ++ [t]) ++ tail) ins = 1 + sentences_from tail false := by
  rw [List.append_assoc, sentences_from_append_no_delimiter body _ ins hbody]
  simp only [List.singleton_append]
  rw [sentences_from_cons, ht]
  simp

theorem sentences_from_true_eq (content : List Char) :
    sentences_from content true =
      if sentences_from content false = 0 then 1 else sentences_from content false := by
  induction content with
  | nil => simp [sentences_from]
  | cons ch rest ih =>
    rw [sentences_from_cons, sentences_from_cons]
    cases hd : is_delimiter ch
    · simp only [Bool.false_eq_true, if_false, Bool.true_or, Bool.false_or]
      cases hs : starts_sentence ch
      · exact ih
      · have hpos := sentences_from_true_pos rest
        rw [if_neg (by omega)]
    · simp

/-- What `write_sentence` does at a valid index `k`, all resources granted,
with the frame of the target sentence `s`, `F = pre ++ s ++ post`: the prefix
`pre` closes exactly `k` sentences and leaves the scans outside a sentence.
When `s` ends with a delimiter (its only one) the file becomes
`pre ++ new_text ++ post`; when `s` is the unterminated last sentence it
becomes `pre ++ new_text ++ F`. -/
theorem write_sentence_frame (content : List Char) (k : Nat)
    (hN : k < sentences_from content false) :
    ∃ pre s post, content = pre ++ s ++ post ∧ s ≠ [] ∧
      (∀ bs, s.length < bs → read_loop k bs content 0 false [] = s) ∧
      (∀ (tail : List Char) (bs : Nat), 2 ≤ bs →
        read_loop k bs (pre ++ tail) 0 false [] = read_loop k bs tail k false []) ∧
      (∀ tail : List Char, sentences_from (pre ++ tail) false = k + sentences_from tail false) ∧
      ((∃ body t, s = body ++ [t] ∧ is_delimiter t = true ∧
          (∀ ch ∈ body, is_delimiter ch = false) ∧
          ∀ new_text, write_sentence (some content) k new_text ⟨true, true, true⟩ =
            (ERR_SUCCESS, some (pre ++ new_text ++ post))) ∨
        (k + 1 = sentences_from content false ∧ post = [] ∧
          (∀ ch ∈ s, is_delimiter ch = false) ∧
          ∀ new_text, write_sentence (some content) k new_text ⟨true, true, true⟩ =
            (ERR_SUCCESS, some (pre ++ new_text ++ content)))) := by
  obtain ⟨pre, s, post, e1, e2, e3, e4, e5, e6, e7⟩ :=
    scan_seek_frame content k 0 false (by simp) hN
  have hb := e5 0 0 0
  simp only [zero_add] at hb e4 e6
  have ht1 : content.take pre.length = pre := by
    rw [e1, List.append_assoc, List.take_left']
    rfl
  refine ⟨pre, s, post, e1, e2, e4, e6, e7, ?_⟩
  rcases e3 with ⟨body, t, hs, ht, hbody⟩ | ⟨a, b, c⟩
  · refine Or.inl ⟨body, t, hs, ht, hbody, ?_⟩
    intro new_text
    have hany : s.any is_delimiter = true := by
      rw [hs]
      simp [ht]
    rw [hany] at hb
    simp only [if_true] at hb
    simp only [write_sentence, hb, Bool.not_true, Bool.false_eq_true, if_false, ne_eq,
      not_true_eq_false]
    have hd1 : content.drop (pre.length + s.length) = post := by
      rw [e1, ← List.length_append, List.drop_left']
      rfl
    have hl : content.length - (pre.length + s.length) = post.length := by
      rw [e1]
      simp only [List.length_append]
      omega
    rw [ht1, hd1, hl, List.take_length]
  · refine Or.inr ⟨a, b, c, ?_⟩
    intro new_text
    have hany : s.any is_delimiter = false := by
      rw [← Bool.not_eq_true, List.any_eq_true]
      rintro ⟨x, hx, hxd⟩
      rw [c x hx] at hxd
      exact Bool.noConfusion hxd
    rw [hany] at hb
    simp only [Bool.false_eq_true, if_false] at hb
    simp only [write_sentence, hb, Bool.not_true, Bool.false_eq_true, if_false, ne_eq,
      not_true_eq_false]
    rw [ht1]
    simp

theorem find_file_in_some (filepath : List Char) (files before after : List FileEntry)
    (entry : FileEntry) (h : find_file_in filepath files = some (before, entry, after)) :
    files = before ++ entry :: after ∧ entry.filepath = filepath ∧
      ∀ e ∈ before, e.filepath ≠ filepath := by
  induction files generalizing before with
  | nil => simp [find_file_in] at h
  | cons f rest ih =>
    unfold find_file_in at h
    by_cases hf : f.filepath = filepath
    · rw [if_pos hf] at h
      simp only [Option.some.injEq, Prod.mk.injEq] at h
      obtain ⟨rfl, rfl, rfl⟩ := h
      exact ⟨rfl, hf, by simp⟩
    · rw [if_neg hf] at h
      cases hr : find_file_in filepath rest with
      | none => simp [hr] at h
      | some r =>
        obtain ⟨b, x, a⟩ := r
        rw [hr] at h
        simp only [Option.map_some', Option.some.injEq, Prod.mk.injEq] at h
        obtain ⟨rfl, rfl, rfl⟩ := h
        obtain ⟨e1, e2, e3⟩ := ih b hr
        refine ⟨by rw [e1]; rfl, e2, ?_⟩
        intro e he
        rcases List.mem_cons.mp he with rfl | he
        · exact hf
        · exact e3 e he

theorem write_sentence_success_file (file : Option (List Char)) (idx : Int)
    (content : List Char) (env : WriteEnv)
    (h : (write_sentence file idx content env).1 = ERR_SUCCESS) :
    ∃ new_content, (write_sentence file idx content env).2 = some new_content := by
  unfold write_sentence at h ⊢
  cases file with
  | none => simp at h
  | some file_content =>
    simp only at h ⊢
    split
    · exact ⟨_, rfl⟩
    · split
      · exact ⟨_, rfl⟩
      · split
        · exact ⟨_, rfl⟩
        · split
          · exact ⟨_, rfl⟩
          · exact ⟨_, rfl⟩

theorem release_lock_files (state : StorageServerState) (p : List Char) (i fd : Int) :
    (release_lock state p i fd).2.files = state.files := by
  unfold release_lock
  split <;> rfl

theorem acquire_write_lock_files (state : StorageServerState) (p : List Char)
    (i fd now : Int) (ok : Bool) (junk : List Char) :
    (acquire_write_lock state p i fd now ok junk).2.files = state.files := by
  unfold acquire_write_lock
  split
  · rfl
  · split <;> rfl

/-- The check of `delete_file` reads the `locks` field of the registry entry
and never `active_locks`: with that field empty and the file on disk the
delete goes through whatever the lock table holds. -/
theorem delete_file_of_empty_entry_locks (state : StorageServerState) (disk : Disk)
    (filepath : List Char) (before after : List FileEntry) (entry : FileEntry)
    (data : List Char) (hf : find_file state filepath = some (before, entry, after))
    (hl : entry.locks = []) (hd : disk entry.full_path = some data) :
    delete_file state disk filepath =
      (ERR_SUCCESS, { state with files := before ++ after },
        disk.put entry.full_path none) := by
  simp [delete_file, hf, hl, hd]

/-! ## Lock table: the claims -/

/-- C1, evaluated on the code for a path of 511 characters, which is shorter
than `MAX_PATH_LEN`. `strncpy` copies the 511 bytes into the lock record fresh
from `malloc` and writes no terminator, so when the byte behind them is not
zero (here it is `x`, followed by the zero bytes of `sentence_idx`) the path
read back from the record is not the path asked for. Starting from the empty
table, two write acquires of the key by clients 3 and 4 both succeed, and the
table holds two write entries with the same key. -/
theorem path_of_511_chars_is_write_locked_twice :
    (List.replicate 511 'a').length < MAX_PATH_LEN ∧
    (acquire_write_lock ⟨[], [], []⟩ (List.replicate 511 'a') 0 3 100 true ['x']).1 =
      ERR_SUCCESS ∧
    (acquire_write_lock
      (acquire_write_lock ⟨[], [], []⟩ (List.replicate 511 'a') 0 3 100 true ['x']).2
      (List.replicate 511 'a') 0 4 101 true ['x']).1 = ERR_SUCCESS ∧
    (run_calls ⟨[], [], []⟩
      [LockCall.acquire_write (List.replicate 511 'a') 0 3 100 true ['x'],
       LockCall.acquire_write (List.replicate 511 'a') 0 4 101 true ['x']]).active_locks =
      [⟨List.replicate 511 'a' ++ ['x'], 0, 4, true, 0, 101⟩,
       ⟨List.replicate 511 'a' ++ ['x'], 0, 3, true, 0, 100⟩] ∧
    entries_for (List.replicate 511 'a' ++ ['x']) 0
      (run_calls ⟨[], [], []⟩
        [LockCall.acquire_write (List.replicate 511 'a') 0 3 100 true ['x'],
         LockCall.acquire_write (List.replicate 511 'a') 0 4 101 true ['x']]).active_locks =
      2 := by
  have hlen : (List.replicate 511 'a').length = MAX_PATH_LEN - 1 := by
    rw [List.length_replicate]
    rfl
  have hs := strncpy_exact (List.replicate 511 'a') ['x'] hlen
  have hmiss := strncpy_overlong (List.replicate 511 'a') ['x'] (Nat.le_of_eq hlen.symm)
    (by rw [hlen]; decide)
  obtain ⟨e1, e2⟩ := acquire_write_lock_of_key_miss ⟨[], [], []⟩ (List.replicate 511 'a')
    0 3 4 100 101 ['x'] ['x'] rfl hmiss
  rw [hs] at e1 e2
  have hrun : (run_calls ⟨[], [], []⟩
      [LockCall.acquire_write (List.replicate 511 'a') 0 3 100 true ['x'],
       LockCall.acquire_write (List.replicate 511 'a') 0 4 101 true ['x']]) =
      (acquire_write_lock
        (acquire_write_lock ⟨[], [], []⟩ (List.replicate 511 'a') 0 3 100 true ['x']).2
        (List.replicate 511 'a') 0 4 101 true ['x']).2 := rfl
  rw [hrun, e2]
  refine ⟨?_, by rw [e1], rfl, rfl, ?_⟩
  · rw [hlen]
    decide
  · simp only [entries_for, List.countP_cons, List.countP_nil, and_self, decide_True, if_true]

/-- Lock disjointness below the limit of the path field. In every lock table
reached from the empty table by any sequence of `acquire_read_lock`,
`acquire_write_lock`, `release_lock` and `release_all_locks_for_client` calls
whose acquired paths are shorter than `MAX_PATH_LEN - 1`, whatever the
allocations return and whatever the memory of the fresh records holds, each key
`(filepath, sentence_idx)` has at most one entry; hence no key has both a read
entry and a write entry, and no key has two write entries. -/
theorem lock_disjointness (state : StorageServerState) (calls : List LockCall)
    (hempty : state.active_locks = []) (hfit : ∀ c ∈ calls, c.path_fits) :
    (∀ p i, entries_for p i (run_calls state calls).active_locks ≤ 1) ∧
    (∀ p i,
      ¬ ((∃ r ∈ (run_calls state calls).active_locks,
            r.filepath = p ∧ r.sentence_idx = i ∧ r.is_write_lock = false) ∧
         (∃ w ∈ (run_calls state calls).active_locks,
            w.filepath = p ∧ w.sentence_idx = i ∧ w.is_write_lock = true))) ∧
    (∀ p i, (run_calls state calls).active_locks.countP
        (fun l => l.filepath = p ∧ l.sentence_idx = i ∧ l.is_write_lock = true) ≤ 1) := by
  have hnd : ((run_calls state calls).active_locks.map lock_key).Nodup :=
    keys_nodup_run_calls calls state hfit (by simp [hempty])
  refine ⟨entries_for_le_one_of_nodup _ hnd, ?_, ?_⟩
  · rintro p i ⟨⟨r, hr, hr1, hr2, hr3⟩, ⟨w, hw, hw1, hw2, hw3⟩⟩
    have e : r = w := List.inj_on_of_nodup_map hnd hr hw (by simp [lock_key, hr1, hr2, hw1, hw2])
    rw [e, hw3] at hr3
    exact Bool.noConfusion hr3
  · intro p i
    refine le_trans ?_ (entries_for_le_one_of_nodup _ hnd p i)
    unfold entries_for
    apply List.countP_mono_left
    intro l _ hl
    simp only [decide_eq_true_eq] at hl ⊢
    exact ⟨hl.1, hl.2.1⟩

/-- An instance of `lock_disjointness`: two readers, a refused writer, a release and a writer on a
second key. -/
theorem lock_disjointness_witness :
    (∀ c ∈ [LockCall.acquire_read ['f'] 0 3 100 true [], LockCall.acquire_read ['f'] 0 4 101 true [],
            LockCall.acquire_write ['f'] 0 5 102 true [], LockCall.release ['f'] 0 3,
            LockCall.acquire_write ['g'] 1 5 103 true [], LockCall.release_all 4],
        c.path_fits) ∧
    (∀ p i, entries_for p i (run_calls ⟨[], [], []⟩
        [LockCall.acquire_read ['f'] 0 3 100 true [], LockCall.acquire_read ['f'] 0 4 101 true [],
          LockCall.acquire_write ['f'] 0 5 102 true [], LockCall.release ['f'] 0 3,
          LockCall.acquire_write ['g'] 1 5 103 true [], LockCall.release_all 4]).active_locks ≤ 1) :=
  ⟨by decide,
   (lock_disjointness ⟨[], [], []⟩
      [LockCall.acquire_read ['f'] 0 3 100 true [], LockCall.acquire_read ['f'] 0 4 101 true [],
        LockCall.acquire_write ['f'] 0 5 102 true [], LockCall.release ['f'] 0 3,
        LockCall.acquire_write ['g'] 1 5 103 true [], LockCall.release_all 4] rfl (by decide)).1⟩

/-- C4, release on disconnect. After `release_all_locks_for_client(h)` no
entry of the table has `client_fd = h`; the entries of the other clients are
all still there, unchanged and in the same order (the table is the old one
filtered); the return value is the number of entries removed; the file
registry is untouched. -/
theorem release_all_locks_for_client_spec (state : StorageServerState) (h : Int) :
    (∀ l ∈ (release_all_locks_for_client state h).2.active_locks, l.client_fd ≠ h) ∧
    (release_all_locks_for_client state h).2.active_locks =
      state.active_locks.filter (fun l => l.client_fd ≠ h) ∧
    (release_all_locks_for_client state h).1 =
      (state.active_locks.countP (fun l => l.client_fd = h) : Nat) ∧
    ((release_all_locks_for_client state h).1 : Int) +
        ((release_all_locks_for_client state h).2.active_locks.length : Nat) =
      (state.active_locks.length : Nat) ∧
    (release_all_locks_for_client state h).2.files = state.files := by
  have e : release_all_locks_for_client state h =
      (((state.active_locks.countP (fun l => l.client_fd = h) : Nat) : Int),
        { state with active_locks := state.active_locks.filter (fun l => l.client_fd ≠ h) }) := by
    simp [release_all_locks_for_client, release_all_walk_eq]
  rw [e]
  refine ⟨?_, rfl, rfl, ?_, rfl⟩
  · intro l hl
    simpa using (List.mem_filter.mp hl).2
  · have hlen : ∀ locks : List SentenceLock,
        locks.countP (fun l => l.client_fd = h) +
          (locks.filter (fun l => l.client_fd ≠ h)).length = locks.length := by
      intro locks
      induction locks with
      | nil => simp
      | cons l rest ih =>
        by_cases hl : l.client_fd = h
        · simp [List.countP_cons, List.filter_cons, hl] at ih ⊢
          omega
        · simp [List.countP_cons, List.filter_cons, hl] at ih ⊢
          omega
    show ((state.active_locks.countP (fun l => l.client_fd = h) : Nat) : Int) +
        (((state.active_locks.filter (fun l => l.client_fd ≠ h)).length : Nat) : Int) =
      ((state.active_locks.length : Nat) : Int)
    exact_mod_cast hlen state.active_locks

/-- C5, evaluated on the code. Client 3 and then client 4 acquire a read lock
on the free key `("f", 0)`, both with `ERR_SUCCESS`; the table then holds one
entry, recorded for client 3 with `read_count` 2, and `release_lock` by client
4 finds no entry: it returns `ERR_INVALID_OPERATION` and the count stays 2.
The same happens to client 3 when client 4 acquires first. -/
theorem second_reader_cannot_release :
    (acquire_read_lock ⟨[], [], []⟩ ['f'] 0 3 100 true []).1 = ERR_SUCCESS ∧
    acquire_read_lock (acquire_read_lock ⟨[], [], []⟩ ['f'] 0 3 100 true []).2 ['f'] 0 4 101 true [] =
      (ERR_SUCCESS, ⟨[], [], [⟨['f'], 0, 3, false, 2, 100⟩]⟩) ∧
    release_lock ⟨[], [], [⟨['f'], 0, 3, false, 2, 100⟩]⟩ ['f'] 0 4 =
      (ERR_INVALID_OPERATION, ⟨[], [], [⟨['f'], 0, 3, false, 2, 100⟩]⟩) ∧
    acquire_read_lock (acquire_read_lock ⟨[], [], []⟩ ['f'] 0 4 100 true []).2 ['f'] 0 3 101 true [] =
      (ERR_SUCCESS, ⟨[], [], [⟨['f'], 0, 4, false, 2, 100⟩]⟩) ∧
    release_lock ⟨[], [], [⟨['f'], 0, 4, false, 2, 100⟩]⟩ ['f'] 0 3 =
      (ERR_INVALID_OPERATION, ⟨[], [], [⟨['f'], 0, 4, false, 2, 100⟩]⟩) := by
  decide

/-- C7, segmentation round-trip. Let `N = count_sentences(F)`. For every index
`0 ≤ i < N` there is a non-empty span `s` of the file, `F = pre ++ s ++ post`,
that ends with `.`, `!` or `?` or, only when `i = N - 1`, runs to the end of
the file with no delimiter in it, and `read_sentence(F, i)` returns `s` (and
its length) for every buffer longer than `s`. For every `i ≥ N`, and every
negative `i`, `read_sentence` returns length 0 whatever the (non-zero) buffer
size. -/
theorem segmentation_round_trip (content : List Char) (i : Int) :
    (0 ≤ i → i < count_sentences (some content) →
      ∃ pre s post, content = pre ++ s ++ post ∧ s ≠ [] ∧
        ((∃ body t, s = body ++ [t] ∧ is_delimiter t = true) ∨
          (i = count_sentences (some content) - 1 ∧ post = [] ∧
            ∀ ch ∈ s, is_delimiter ch = false)) ∧
        ∀ bs, s.length < bs → read_sentence (some content) i bs = (((s.length : Nat) : Int), s)) ∧
    (count_sentences (some content) ≤ i → ∀ bs, 0 < bs →
      read_sentence (some content) i bs = (0, [])) ∧
    (i < 0 → ∀ bs, 0 < bs → read_sentence (some content) i bs = (0, [])) := by
  rw [count_sentences_eq]
  refine ⟨?_, ?_, ?_⟩
  · intro h0 hN
    obtain ⟨k, rfl⟩ := Int.eq_ofNat_of_zero_le h0
    obtain ⟨pre, s, post, e1, e2, e3, e4, _⟩ :=
      scan_seek content k 0 false (by simp) (by exact_mod_cast hN)
    refine ⟨pre, s, post, e1, e2, ?_, ?_⟩
    · rcases e3 with e3 | ⟨a, b, c⟩
      · exact Or.inl e3
      · refine Or.inr ⟨?_, b, c⟩
        rw [← a]
        push_cast
        ring
    · intro bs hbs
      have e := e4 bs hbs
      rw [zero_add] at e
      have hne : bs ≠ 0 := by omega
      unfold read_sentence
      rw [if_neg hne]
      simp only [e]
  · intro hN bs hbs
    have e := read_loop_past i bs content 0 false (by simpa using hN)
    have hne : bs ≠ 0 := by omega
    simp [read_sentence, hne, e]
  · intro hneg bs hbs
    have e := read_loop_before i bs content 0 false [] hneg
    have hne : bs ≠ 0 := by omega
    simp [read_sentence, hne, e]

/-- Witness of C7: sentence 1 of `A. B` is the unterminated `B`. -/
theorem segmentation_round_trip_witness :
    (0 : Int) ≤ 1 ∧ (1 : Int) < count_sentences (some ['A', '.', ' ', 'B']) ∧
    ∃ pre s post, ['A', '.', ' ', 'B'] = pre ++ s ++ post ∧ s ≠ [] ∧
      ((∃ body t, s = body ++ [t] ∧ is_delimiter t = true) ∨
        ((1 : Int) = count_sentences (some ['A', '.', ' ', 'B']) - 1 ∧ post = [] ∧
          ∀ ch ∈ s, is_delimiter ch = false)) ∧
      ∀ bs, s.length < bs →
        read_sentence (some ['A', '.', ' ', 'B']) 1 bs = (((s.length : Nat) : Int), s) :=
  ⟨by decide, by decide,
   (segmentation_round_trip ['A', '.', ' ', 'B'] 1).1 (by decide) (by decide)⟩

/-- C8. The count of `count_sentences` is the number of delimiter bytes, each
of which closes a sentence in the left-to-right scan (it is the value of
`count` when the loop ends), plus one exactly when the bytes after the last
delimiter hold a byte other than space, tab and newline (the value of
`in_sentence` when the loop ends). For `A. B! C? trailing` the count is 4 and
`read_sentence` at index 3 returns `trailing`. -/
theorem count_sentences_trailing_span (content : List Char) :
    count_sentences (some content) =
      (content.countP is_delimiter : Nat) +
        (if (after_last_delimiter content).any starts_sentence then 1 else 0) ∧
    (count_loop content 0 false).1 = (content.countP is_delimiter : Nat) ∧
    (count_loop content 0 false).2 = (after_last_delimiter content).any starts_sentence ∧
    count_sentences (some ("A. B! C? trailing".toList)) = 4 ∧
    read_sentence (some ("A. B! C? trailing".toList)) 3 MAX_SENTENCE_LEN =
      (8, "trailing".toList) ∧
    read_sentence (some ("A. B! C? trailing".toList)) 3 9 = (8, "trailing".toList) := by
  refine ⟨?_, ?_, ?_, by decide, by decide, by decide⟩
  · rw [count_sentences_eq, sentences_from_eq]
    cases hany : content.any is_delimiter
    · rw [after_last_delimiter_of_none content hany]
      simp only [Bool.false_eq_true, if_false, Bool.false_or]
      split <;> simp
    · simp only [if_true]
      split <;> simp
  · rw [(count_loop_closed content 0 false).1]
    simp
  · rw [(count_loop_closed content 0 false).2]
    cases hany : content.any is_delimiter
    · rw [after_last_delimiter_of_none content hany]
      simp
    · simp

/-- C9 as stated fails on the code: the file of one carriage return has one
sentence, not none, and `A.` followed by CR LF has two sentences, not one. -/
theorem carriage_return_is_not_whitespace :
    (∀ ch ∈ ['\r'], ch = ' ' ∨ ch = '\t' ∨ ch = '\n' ∨ ch = '\r') ∧
    count_sentences (some ['\r']) = 1 ∧ count_sentences (some ['\r']) ≠ 0 ∧
    count_sentences (some ['A', '.', '\r', '\n']) = 2 ∧
    count_sentences (some ['A', '.', '\r', '\n']) ≠ 1 := by
  decide

/-- C9 amended. The whitespace of segmentation is space, tab and newline, and
carriage return is not whitespace: every file whose bytes are all space, tab
or newline has `count_sentences = 0`; a CR byte met outside a sentence starts
one, so such a file followed by a CR and anything else has at least one
sentence; and `A.` followed by CR LF has `count_sentences = 2`. -/
theorem whitespace_is_space_tab_newline (content : List Char)
    (h : ∀ ch ∈ content, ch = ' ' ∨ ch = '\t' ∨ ch = '\n') :
    count_sentences (some content) = 0 ∧
    (∀ rest, 1 ≤ count_sentences (some (content ++ '\r' :: rest))) ∧
    count_sentences (some ['A', '.', '\r', '\n']) = 2 := by
  have hws : ∀ ch ∈ content, starts_sentence ch = false := by
    intro ch hch
    rcases h ch hch with rfl | rfl | rfl <;> decide
  refine ⟨?_, ?_, by decide⟩
  · rw [count_sentences_eq, sentences_from_whitespace content hws]
    rfl
  · intro rest
    rw [count_sentences_eq, sentences_from_append_whitespace content _ hws, sentences_from_cons]
    have hd : is_delimiter '\r' = false := by decide
    have hs : starts_sentence '\r' = true := by decide
    rw [hd, hs]
    simp only [Bool.false_eq_true, if_false, Bool.false_or]
    have := sentences_from_true_pos rest
    exact_mod_cast this

/-- Witness of the amended C9: a file of a space, a tab and a newline. -/
theorem whitespace_is_space_tab_newline_witness :
    (∀ ch ∈ [' ', '\t', '\n'], ch = ' ' ∨ ch = '\t' ∨ ch = '\n') ∧
    count_sentences (some [' ', '\t', '\n']) = 0 :=
  ⟨by decide, (whitespace_is_space_tab_newline [' ', '\t', '\n'] (by decide)).1⟩

/-- C10, evaluated on the code. In `A. B` sentence 1 is the unterminated `B`
at offsets 3 to 4. `write_sentence` at index 1 with content `X.` returns
`ERR_SUCCESS` and leaves `A. X.A. B`: its `end_pos` is still 0 when the loop
ends at end of file, so the whole old file follows the new content, where the
splice `F[0..start) ++ s ++ F[end..)` is `A. X.`. -/
theorem write_sentence_unterminated_last :
    count_sentences (some ("A. B".toList)) = 2 ∧
    read_sentence (some ("A. B".toList)) 1 MAX_SENTENCE_LEN = (1, "B".toList) ∧
    bounds_loop 1 ("A. B".toList) 0 0 0 0 false =
      { current_sentence := 1, start_pos := 3, end_pos := 0 } ∧
    write_sentence (some ("A. B".toList)) 1 ("X.".toList) ⟨true, true, true⟩ =
      (ERR_SUCCESS, some ("A. X.A. B".toList)) ∧
    write_sentence (some ("A. B".toList)) 1 ("X.".toList) ⟨true, true, true⟩ ≠
      (ERR_SUCCESS, some ("A. B".toList.take 3 ++ "X.".toList ++ "A. B".toList.drop 4)) := by
  decide

/-! ## Writing sentences and the handlers: the claims -/

/-- C11, evaluated on the code. The file `A.` has one sentence, and
`write_sentence` at index 1 returns `ERR_SUCCESS` and leaves `X.A.`: after the
loop `current_sentence` equals the index, so the check passes with
`start_pos = end_pos = 0`. The empty file has no sentence, and `write_sentence`
at index 0 returns `ERR_SUCCESS` and leaves `X.`. -/
theorem write_sentence_accepts_index_at_count :
    count_sentences (some ("A.".toList)) = 1 ∧
    write_sentence (some ("A.".toList)) 1 ("X.".toList) ⟨true, true, true⟩ =
      (ERR_SUCCESS, some ("X.A.".toList)) ∧
    count_sentences (some []) = 0 ∧
    write_sentence (some []) 0 ("X.".toList) ⟨true, true, true⟩ =
      (ERR_SUCCESS, some ("X.".toList)) := by
  decide

/-- C12, write then read. For every file content, every index
`0 ≤ i < count_sentences(F)` and every content `s = body ++ [t]` whose first
byte is not space, tab or newline and whose only delimiter is its last byte
`t`, `write_sentence(F, i, s)` returns `ERR_SUCCESS`, and `read_sentence` on
the new content at index `i` returns exactly `s` for every buffer longer than
`s`. -/
theorem write_then_read (content : List Char) (i : Int) (s body : List Char) (t : Char)
    (h0 : 0 ≤ i) (hN : i < count_sentences (some content))
    (hs : s = body ++ [t]) (hbody : ∀ ch ∈ body, is_delimiter ch = false)
    (ht : is_delimiter t = true)
    (hstart : ∀ ch, s.head? = some ch → starts_sentence ch = true) :
    ∃ new_content,
      write_sentence (some content) i s ⟨true, true, true⟩ = (ERR_SUCCESS, some new_content) ∧
      ∀ bs, s.length < bs →
        read_sentence (some new_content) i bs = (((s.length : Nat) : Int), s) := by
  rw [count_sentences_eq] at hN
  obtain ⟨k, rfl⟩ := Int.eq_ofNat_of_zero_le h0
  obtain ⟨pre, old, post, e1, _, _, e4, _, e6⟩ :=
    write_sentence_frame content k (by exact_mod_cast hN)
  have hread : ∀ (tail : List Char) (bs : Nat), s.length < bs →
      read_sentence (some (pre ++ s ++ tail)) k bs = (((s.length : Nat) : Int), s) := by
    intro tail bs hbs
    have hlen : 1 ≤ s.length := by
      rw [hs]
      simp
    have hne : bs ≠ 0 := by omega
    unfold read_sentence
    rw [if_neg hne]
    simp only
    rw [List.append_assoc, e4 (s ++ tail) bs (by omega)]
    subst hs
    rw [read_loop_at_start (k : Int) bs body t tail hbody ht hstart hbs]
  rcases e6 with ⟨_, _, _, _, _, hw⟩ | ⟨_, _, _, hw⟩
  · exact ⟨pre ++ s ++ post, hw s, hread post⟩
  · exact ⟨pre ++ s ++ content, hw s, hread content⟩

/-- Witness of C12: `Hi!` written over sentence 1 of `A. B. C`. -/
theorem write_then_read_witness :
    (0 : Int) ≤ 1 ∧ (1 : Int) < count_sentences (some ("A. B. C".toList)) ∧
    ∃ new_content,
      write_sentence (some ("A. B. C".toList)) 1 ['H', 'i', '!'] ⟨true, true, true⟩ =
        (ERR_SUCCESS, some new_content) ∧
      ∀ bs, ['H', 'i', '!'].length < bs →
        read_sentence (some new_content) 1 bs =
          (((['H', 'i', '!'].length : Nat) : Int), ['H', 'i', '!']) :=
  ⟨by decide, by decide,
   write_then_read ("A. B. C".toList) 1 ['H', 'i', '!'] ['H', 'i'] '!'
     (by decide) (by decide) rfl (by decide) (by decide) (by decide)⟩

/-- C13, cached metadata follows the content. Whenever `handle_write_request`
returns `ERR_SUCCESS`, the path is registered, the request wrote the file of
the first registry entry of that path, and afterwards that entry has
`sentence_count` equal to `count_sentences` of the new content on disk and
`file_size` equal to its length (and `modified_at` the reported `st_mtime`);
every other registry entry, and every other field of that entry, is as
before. -/
theorem cached_metadata_follows_content (state : StorageServerState) (disk : Disk)
    (client_fd : Int) (filepath : List Char) (sentence_idx : Int) (content : List Char)
    (now : Int) (malloc_ok : Bool) (junk : List Char) (env : WriteEnv) (mtime : Int)
    (h : (handle_write_request state disk client_fd filepath sentence_idx content
      now malloc_ok junk env mtime).code = ERR_SUCCESS) :
    ∃ before entry after new_content,
      state.files = before ++ entry :: after ∧ entry.filepath = filepath ∧
      (∀ e ∈ before, e.filepath ≠ filepath) ∧
      (handle_write_request state disk client_fd filepath sentence_idx content
        now malloc_ok junk env mtime).disk entry.full_path = some new_content ∧
      (handle_write_request state disk client_fd filepath sentence_idx content
        now malloc_ok junk env mtime).state.files =
        before ++
          { entry with
            file_size := ((new_content.length : Nat) : Int)
            modified_at := mtime
            sentence_count := count_sentences (some new_content) } :: after := by
  cases hf : find_file state filepath with
  | none =>
    simp [handle_write_request, hf] at h
  | some found =>
    obtain ⟨before, entry, after⟩ := found
    obtain ⟨e1, e2, e3⟩ := find_file_in_some filepath state.files before after entry hf
    refine ⟨before, entry, after, ?_⟩
    simp only [handle_write_request, hf] at h ⊢
    by_cases ha : (acquire_write_lock state filepath sentence_idx client_fd now malloc_ok junk).1
        = ERR_SUCCESS
    · simp only [ha, ne_eq, not_true_eq_false, if_false] at h ⊢
      by_cases hw : (write_sentence (disk entry.full_path) sentence_idx content env).1
          = ERR_SUCCESS
      · obtain ⟨new_content, hnew⟩ := write_sentence_success_file _ _ _ _ hw
        have hput : Disk.put disk entry.full_path
            (write_sentence (disk entry.full_path) sentence_idx content env).2 entry.full_path
            = some new_content := by
          simp [Disk.put, hnew]
        simp only [hw, if_true, hput]
        exact ⟨new_content, e1, e2, e3, rfl, by simp [release_lock_files]⟩
      · simp only [hw, if_false] at h
    · simp only [ha, ne_eq, not_false_eq_true, if_true] at h

/-- Witness of C13: sentence 1 of the registered file `f` (on disk `A. B.`) is
rewritten. -/
theorem cached_metadata_follows_content_witness :
    (handle_write_request
        ⟨['d'], [⟨['f'], ['d', '/', 'f'], 5, 0, 0, 2, false, []⟩], []⟩
        (fun p => if p = ['d', '/', 'f'] then some ("A. B.".toList) else none)
        7 ['f'] 1 ("X.".toList) 100 true [] ⟨true, true, true⟩ 200).code = ERR_SUCCESS ∧
    ∃ before entry after new_content,
      (⟨['d'], [⟨['f'], ['d', '/', 'f'], 5, 0, 0, 2, false, []⟩], []⟩ :
          StorageServerState).files = before ++ entry :: after ∧
      entry.filepath = ['f'] ∧ (∀ e ∈ before, e.filepath ≠ ['f']) ∧
      (handle_write_request
          ⟨['d'], [⟨['f'], ['d', '/', 'f'], 5, 0, 0, 2, false, []⟩], []⟩
          (fun p => if p = ['d', '/', 'f'] then some ("A. B.".toList) else none)
          7 ['f'] 1 ("X.".toList) 100 true [] ⟨true, true, true⟩ 200).disk entry.full_path
        = some new_content ∧
      (handle_write_request
          ⟨['d'], [⟨['f'], ['d', '/', 'f'], 5, 0, 0, 2, false, []⟩], []⟩
          (fun p => if p = ['d', '/', 'f'] then some ("A. B.".toList) else none)
          7 ['f'] 1 ("X.".toList) 100 true [] ⟨true, true, true⟩ 200).state.files =
        before ++
          { entry with
            file_size := ((new_content.length : Nat) : Int)
            modified_at := 200
            sentence_count := count_sentences (some new_content) } :: after :=
  ⟨by decide,
   cached_metadata_follows_content
     ⟨['d'], [⟨['f'], ['d', '/', 'f'], 5, 0, 0, 2, false, []⟩], []⟩
     (fun p => if p = ['d', '/', 'f'] then some ("A. B.".toList) else none)
     7 ['f'] 1 ("X.".toList) 100 true [] ⟨true, true, true⟩ 200 (by decide)⟩

/-- C14 as stated fails on the code: `A.` has one sentence, and after
`write_sentence` puts `B`, which has no delimiter, at index 0 the file is `B`,
which still has one sentence. -/
theorem count_stays_when_last_sentence_loses_delimiter :
    (0 : Int) ≤ 0 ∧ (0 : Int) < count_sentences (some ("A.".toList)) ∧
    (∀ ch ∈ ['B'], is_delimiter ch = false) ∧
    write_sentence (some ("A.".toList)) 0 ['B'] ⟨true, true, true⟩ =
      (ERR_SUCCESS, some ['B']) ∧
    ¬ (count_sentences (some ['B']) < count_sentences (some ("A.".toList))) := by
  decide

/-- C14 amended. For every file content, every index `0 ≤ i < N`,
`N = count_sentences(F)`, whose sentence ends with a delimiter, and every
content `s` with none of `.`, `!`, `?`, `write_sentence` returns `ERR_SUCCESS`
and the count afterwards is `N - 1`, except when `i` is the last index and `s`
holds a byte other than space, tab and newline: then `s` is the unterminated
last sentence and the count stays `N`. The count never grows. -/
theorem removing_delimiter_count (content : List Char) (i : Int) (s : List Char)
    (h0 : 0 ≤ i) (hN : i < count_sentences (some content))
    (hs : ∀ ch ∈ s, is_delimiter ch = false)
    (hterm : ∃ body t,
      (read_sentence (some content) i (content.length + 1)).2 = body ++ [t] ∧
        is_delimiter t = true) :
    ∃ new_content,
      write_sentence (some content) i s ⟨true, true, true⟩ = (ERR_SUCCESS, some new_content) ∧
      count_sentences (some new_content) =
        (if i + 1 = count_sentences (some content) ∧ s.any starts_sentence = true then
          count_sentences (some content)
        else count_sentences (some content) - 1) ∧
      count_sentences (some new_content) ≤ count_sentences (some content) := by
  rw [count_sentences_eq] at hN ⊢
  obtain ⟨k, rfl⟩ := Int.eq_ofNat_of_zero_le h0
  obtain ⟨pre, old, post, e1, _, e3, _, e5, e6⟩ :=
    write_sentence_frame content k (by exact_mod_cast hN)
  have hold : (read_sentence (some content) k (content.length + 1)).2 = old := by
    have hlen : old.length < content.length + 1 := by
      rw [e1]
      simp only [List.length_append]
      omega
    unfold read_sentence
    rw [if_neg (by omega)]
    simp only [e3 _ hlen]
  obtain ⟨body, t, hbt, ht⟩ := hterm
  rw [hold] at hbt
  rcases e6 with ⟨body', t', hs', ht', hbody', hw⟩ | ⟨_, _, hnone, _⟩
  · refine ⟨pre ++ s ++ post, hw s, ?_⟩
    have hnew : sentences_from (pre ++ s ++ post) false =
        k + sentences_from post (s.any starts_sentence) := by
      rw [List.append_assoc, e5, sentences_from_append_no_delimiter s post false hs]
      simp
    have hcount : sentences_from content false = k + (1 + sentences_from post false) := by
      conv_lhs => rw [e1, hs', List.append_assoc, e5]
      rw [sentences_from_closed body' t' post false hbody' ht']
    rw [count_sentences_eq, hnew, hcount]
    cases hany : s.any starts_sentence
    · simp only [Bool.false_eq_true, and_false, if_false]
      push_cast
      constructor <;> omega
    · rw [sentences_from_true_eq]
      by_cases hp : sentences_from post false = 0
      · rw [hp]
        simp
      · rw [if_neg hp, if_neg (by push_cast; omega)]
        push_cast
        constructor <;> omega
  · have hmem : t ∈ old := by
      rw [hbt]
      simp
    rw [hnone t hmem] at ht
    exact Bool.noConfusion ht

/-- Witness of the amended C14: sentence 0 of `A. B.` loses its delimiter and
merges with the next one. -/
theorem removing_delimiter_count_witness :
    (0 : Int) ≤ 0 ∧ (0 : Int) < count_sentences (some ("A. B.".toList)) ∧
    ∃ new_content,
      write_sentence (some ("A. B.".toList)) 0 ['C'] ⟨true, true, true⟩ =
        (ERR_SUCCESS, some new_content) ∧
      count_sentences (some new_content) =
        (if (0 : Int) + 1 = count_sentences (some ("A. B.".toList)) ∧
            ['C'].any starts_sentence = true then
          count_sentences (some ("A. B.".toList))
        else count_sentences (some ("A. B.".toList)) - 1) ∧
      count_sentences (some new_content) ≤ count_sentences (some ("A. B.".toList)) :=
  ⟨by decide, by decide,
   removing_delimiter_count ("A. B.".toList) 0 ['C'] (by decide) (by decide) (by decide)
     ⟨['A'], '.', by decide, by decide⟩⟩

/-- C15, evaluated on the code. The file `f` is registered and on disk, and
`active_locks` holds a write lock of client 3 on `(f, 0)`. `delete_file` looks
only at the `locks` field of the registry entry, which is empty, so it returns
`ERR_SUCCESS`, not `ERR_FILE_LOCKED`, the entry leaves the registry and the
file leaves the disk; the lock stays in `active_locks`. -/
theorem delete_file_ignores_active_locks :
    (∃ l ∈ (⟨['d'], [⟨['f'], ['d', '/', 'f'], 2, 0, 0, 1, false, []⟩],
        [⟨['f'], 0, 3, true, 0, 100⟩]⟩ : StorageServerState).active_locks,
      l.filepath = ['f']) ∧
    (delete_file
      ⟨['d'], [⟨['f'], ['d', '/', 'f'], 2, 0, 0, 1, false, []⟩], [⟨['f'], 0, 3, true, 0, 100⟩]⟩
      (fun p => if p = ['d', '/', 'f'] then some ("A.".toList) else none) ['f']).1
      = ERR_SUCCESS ∧
    (delete_file
      ⟨['d'], [⟨['f'], ['d', '/', 'f'], 2, 0, 0, 1, false, []⟩], [⟨['f'], 0, 3, true, 0, 100⟩]⟩
      (fun p => if p = ['d', '/', 'f'] then some ("A.".toList) else none) ['f']).2.1
      = ⟨['d'], [], [⟨['f'], 0, 3, true, 0, 100⟩]⟩ ∧
    (delete_file
      ⟨['d'], [⟨['f'], ['d', '/', 'f'], 2, 0, 0, 1, false, []⟩], [⟨['f'], 0, 3, true, 0, 100⟩]⟩
      (fun p => if p = ['d', '/', 'f'] then some ("A.".toList) else none) ['f']).2.2
      ['d', '/', 'f'] = none := by
  decide

/-- When the lock record does not read back as the path asked for, the write
lock that `handle_write_request` takes is not found by its `release_lock` and
stays in the table. -/
theorem handle_write_request_of_key_miss (state : StorageServerState) (disk : Disk)
    (client_fd : Int) (filepath : List Char) (sentence_idx : Int) (content : List Char)
    (now : Int) (junk : List Char) (env : WriteEnv) (mtime : Int)
    (before after : List FileEntry) (entry : FileEntry)
    (hf : find_file state filepath = some (before, entry, after))
    (hfree : entries_for filepath sentence_idx state.active_locks = 0)
    (hmiss : strncpy filepath (MAX_PATH_LEN - 1) junk ≠ filepath) :
    (handle_write_request state disk client_fd filepath sentence_idx content
      now true junk env mtime).state.active_locks =
      { filepath := strncpy filepath (MAX_PATH_LEN - 1) junk, sentence_idx := sentence_idx,
        client_fd := client_fd, is_write_lock := true, read_count := 0, acquired_at := now }
        :: state.active_locks := by
  have ha := (acquire_write_lock_of_key_miss state filepath sentence_idx client_fd client_fd
    now now junk junk hfree hmiss).1
  simp only [handle_write_request, hf]
  rw [ha]
  simp only [ne_eq, not_true_eq_false, if_false]
  have hr : release_lock
      { state with active_locks :=
        { filepath := strncpy filepath (MAX_PATH_LEN - 1) junk, sentence_idx := sentence_idx,
          client_fd := client_fd, is_write_lock := true, read_count := 0, acquired_at := now }
          :: state.active_locks } filepath sentence_idx client_fd =
      (ERR_INVALID_OPERATION,
        { state with active_locks :=
          { filepath := strncpy filepath (MAX_PATH_LEN - 1) junk, sentence_idx := sentence_idx,
            client_fd := client_fd, is_write_lock := true, read_count := 0,
            acquired_at := now } :: state.active_locks }) := by
    simp only [release_lock, release_walk, hmiss, false_and, if_false,
      release_walk_none_of_entries_zero filepath sentence_idx client_fd _ hfree,
      Option.map_none']
  rw [hr]
  split
  · split <;> rfl
  · rfl

/-- C28, evaluated on the code for a registered path of 511 characters, the
longest a `char[MAX_PATH_LEN]` field holds. `acquire_write_lock` copies
the 511 bytes into the lock record fresh from `malloc` with no terminator, so
when the byte behind them is not zero (here `x`) `release_lock` compares the
path with a longer string, finds no entry and the write lock of the request
stays in the table, which was empty before the call. -/
theorem write_request_leaves_lock_of_511_char_path :
    (∀ e ∈ (⟨['d'], [⟨List.replicate 511 'a', ['d', '/', 'f'], 2, 0, 0, 1, false, []⟩],
        []⟩ : StorageServerState).files, e.filepath.length < MAX_PATH_LEN) ∧
    (⟨['d'], [⟨List.replicate 511 'a', ['d', '/', 'f'], 2, 0, 0, 1, false, []⟩],
        []⟩ : StorageServerState).active_locks = [] ∧
    (handle_write_request
      ⟨['d'], [⟨List.replicate 511 'a', ['d', '/', 'f'], 2, 0, 0, 1, false, []⟩], []⟩
      (fun p => if p = ['d', '/', 'f'] then some ("A.".toList) else none)
      7 (List.replicate 511 'a') 0 ("X.".toList) 100 true ['x'] ⟨true, true, true⟩
      200).state.active_locks =
      [⟨List.replicate 511 'a' ++ ['x'], 0, 7, true, 0, 100⟩] := by
  have hlen : (List.replicate 511 'a').length = MAX_PATH_LEN - 1 := by
    rw [List.length_replicate]
    rfl
  have hs := strncpy_exact (List.replicate 511 'a') ['x'] hlen
  have hmiss := strncpy_overlong (List.replicate 511 'a') ['x'] (Nat.le_of_eq hlen.symm)
    (by rw [hlen]; decide)
  have hf : find_file ⟨['d'], [⟨List.replicate 511 'a', ['d', '/', 'f'], 2, 0, 0, 1, false, []⟩], []⟩ (List.replicate 511 'a') =
      some ([], ⟨List.replicate 511 'a', ['d', '/', 'f'], 2, 0, 0, 1, false, []⟩, []) := by
    unfold find_file
    dsimp only
    unfold find_file_in
    dsimp only
    rw [if_pos rfl]
  have h := handle_write_request_of_key_miss ⟨['d'], [⟨List.replicate 511 'a', ['d', '/', 'f'], 2, 0, 0, 1, false, []⟩], []⟩
    (fun p => if p = ['d', '/', 'f'] then some ("A.".toList) else none)
    7 (List.replicate 511 'a') 0 ("X.".toList) 100 ['x'] ⟨true, true, true⟩ 200
    [] [] ⟨List.replicate 511 'a', ['d', '/', 'f'], 2, 0, 0, 1, false, []⟩ hf rfl hmiss
  rw [hs] at h
  refine ⟨?_, rfl, h⟩
  intro e he
  dsimp only at he
  rw [List.mem_singleton] at he
  rw [he]
  dsimp only
  rw [hlen]
  decide

/-- A write request leaves no lock behind below the limit of the path field.
For every storage-server state whose registry paths are shorter than
`MAX_PATH_LEN - 1`, whatever the memory of the fresh lock record holds, and
every outcome of `handle_write_request` (file not found, key locked, allocation
failure, `write_sentence` failure or success) the lock table after the call
equals the lock table before it: the write lock taken is the head entry and
`release_lock` unlinks it before the return code of `write_sentence` is
looked at. -/
theorem write_request_leaves_no_lock (state : StorageServerState) (disk : Disk)
    (client_fd : Int) (filepath : List Char) (sentence_idx : Int) (content : List Char)
    (now : Int) (malloc_ok : Bool) (junk : List Char) (env : WriteEnv) (mtime : Int)
    (hfit : ∀ e ∈ state.files, e.filepath.length < MAX_PATH_LEN - 1) :
    (handle_write_request state disk client_fd filepath sentence_idx content
      now malloc_ok junk env mtime).state.active_locks = state.active_locks := by
  cases hf : find_file state filepath with
  | none => simp [handle_write_request, hf]
  | some found =>
    obtain ⟨before, entry, after⟩ := found
    obtain ⟨e1, e2, _⟩ := find_file_in_some filepath state.files before after entry hf
    have hp : filepath.length < MAX_PATH_LEN - 1 := by
      rw [← e2]
      apply hfit
      rw [e1]
      simp
    simp only [handle_write_request, hf]
    cases hany : find_any_lock filepath sentence_idx state.active_locks
    · cases malloc_ok
      · simp [acquire_write_lock, hany]
      · have ha : acquire_write_lock state filepath sentence_idx client_fd now true junk =
            (ERR_SUCCESS, { state with active_locks :=
              { filepath := filepath, sentence_idx := sentence_idx, client_fd := client_fd,
                is_write_lock := true, read_count := 0, acquired_at := now }
                :: state.active_locks }) := by
          simp [acquire_write_lock, hany, strncpy_of_fits filepath junk hp]
        rw [ha]
        simp only [ne_eq, not_true_eq_false, if_false]
        have hr : release_lock
            { state with active_locks :=
              { filepath := filepath, sentence_idx := sentence_idx, client_fd := client_fd,
                is_write_lock := true, read_count := 0, acquired_at := now }
                :: state.active_locks } filepath sentence_idx client_fd =
            (ERR_SUCCESS, state) := by
          simp [release_lock, release_walk]
        rw [hr]
        split
        · split <;> rfl
        · rfl
    · simp [acquire_write_lock, hany]

/-- An instance of `write_request_leaves_no_lock`: the registered file `f` is gone from the disk, so
`write_sentence` fails, and the lock table still holds just the lock of
another key. -/
theorem write_request_leaves_no_lock_witness :
    (∀ e ∈ (⟨['d'], [⟨['f'], ['d', '/', 'f'], 0, 0, 0, 0, false, []⟩],
        [⟨['g'], 1, 9, false, 1, 50⟩]⟩ : StorageServerState).files,
      e.filepath.length < MAX_PATH_LEN - 1) ∧
    (handle_write_request
      ⟨['d'], [⟨['f'], ['d', '/', 'f'], 0, 0, 0, 0, false, []⟩], [⟨['g'], 1, 9, false, 1, 50⟩]⟩
      (fun _ => none) 7 ['f'] 0 ("X.".toList) 100 true [] ⟨true, true, true⟩ 200).state.active_locks
      = (⟨['d'], [⟨['f'], ['d', '/', 'f'], 0, 0, 0, 0, false, []⟩],
        [⟨['g'], 1, 9, false, 1, 50⟩]⟩ : StorageServerState).active_locks :=
  ⟨by decide,
   write_request_leaves_no_lock
     ⟨['d'], [⟨['f'], ['d', '/', 'f'], 0, 0, 0, 0, false, []⟩], [⟨['g'], 1, 9, false, 1, 50⟩]⟩
     (fun _ => none) 7 ['f'] 0 ("X.".toList) 100 true [] ⟨true, true, true⟩ 200 (by decide)⟩

/-- C29, evaluated on the code. Client 3 and then client 4 acquire a read lock
on the free key `("f", 0)`; the table holds one entry, recorded for client 3
with `read_count` 2. `release_all_locks_for_client(3)` removes that entry and
returns 1, the table is empty although client 4 has not released, and
`acquire_write_lock` on the key by client 5 returns `ERR_SUCCESS`. -/
theorem release_all_drops_the_other_reader :
    acquire_read_lock (acquire_read_lock ⟨[], [], []⟩ ['f'] 0 3 100 true []).2 ['f'] 0 4 101 true [] =
      (ERR_SUCCESS, ⟨[], [], [⟨['f'], 0, 3, false, 2, 100⟩]⟩) ∧
    release_all_locks_for_client ⟨[], [], [⟨['f'], 0, 3, false, 2, 100⟩]⟩ 3 =
      (1, ⟨[], [], []⟩) ∧
    (acquire_write_lock
      (release_all_locks_for_client ⟨[], [], [⟨['f'], 0, 3, false, 2, 100⟩]⟩ 3).2
      ['f'] 0 5 102 true []).1 = ERR_SUCCESS := by
  decide

end StorageServer

namespace NameServer

open ErrorCode

/-! ## Name server: facts about the loops -/

theorem file_map_lookup_none_iff (filename : List Char) (files : List FileMetadata) :
    find_file_in filename files = none ↔ ∀ f ∈ files, f.filename ≠ filename := by
  induction files with
  | nil => simp [find_file_in]
  | cons f rest ih =>
    unfold find_file_in
    by_cases hf : f.filename = filename
    · simp [hf]
    · rw [if_neg hf, ih]
      simp [hf]

theorem file_map_lookup_some (filename : List Char) (files : List FileMetadata)
    (file : FileMetadata) (h : find_file_in filename files = some file) :
    file ∈ files ∧ file.filename = filename := by
  induction files with
  | nil => simp [find_file_in] at h
  | cons f rest ih =>
    unfold find_file_in at h
    by_cases hf : f.filename = filename
    · rw [if_pos hf] at h
      simp only [Option.some.injEq] at h
      subst h
      exact ⟨List.mem_cons_self _ _, hf⟩
    · rw [if_neg hf] at h
      exact ⟨List.mem_cons_of_mem _ (ih h).1, (ih h).2⟩

theorem find_storage_server_in_eq_none_iff (ss_id : Int) (registry : List StorageServer) :
    find_storage_server_in ss_id registry = none ↔
      ¬ ∃ ss ∈ registry, ss.ss_id = ss_id ∧ ss.is_active = true := by
  induction registry with
  | nil => simp [find_storage_server_in]
  | cons ss rest ih =>
    unfold find_storage_server_in
    by_cases h : ss.ss_id = ss_id ∧ ss.is_active = true
    · rw [if_pos h]
      simp only [reduceCtorEq, false_iff, not_not]
      exact ⟨ss, List.mem_cons_self _ _, h⟩
    · rw [if_neg h, ih]
      constructor
      · rintro hrest ⟨x, hx, hk⟩
        rcases List.mem_cons.mp hx with rfl | hx
        · exact h hk
        · exact hrest ⟨x, hx, hk⟩
      · rintro hall ⟨x, hx, hk⟩
        exact hall ⟨x, List.mem_cons_of_mem _ hx, hk⟩

theorem find_storage_server_in_some (ss_id : Int) (registry : List StorageServer)
    (ss : StorageServer) (h : find_storage_server_in ss_id registry = some ss) :
    ss ∈ registry ∧ ss.ss_id = ss_id ∧ ss.is_active = true := by
  induction registry with
  | nil => simp [find_storage_server_in] at h
  | cons x rest ih =>
    unfold find_storage_server_in at h
    by_cases hx : x.ss_id = ss_id ∧ x.is_active = true
    · rw [if_pos hx] at h
      simp only [Option.some.injEq] at h
      subst h
      exact ⟨List.mem_cons_self _ _, hx⟩
    · rw [if_neg hx] at h
      exact ⟨List.mem_cons_of_mem _ (ih h).1, (ih h).2⟩

theorem acl_can_read_iff (username : List Char) (acl : List AccessControlEntry)
    (h : (acl.map (fun e => e.username)).Nodup) :
    acl_can_read username acl = true ↔
      ∃ e ∈ acl, e.username = username ∧ e.can_read = true := by
  induction acl with
  | nil => simp [acl_can_read]
  | cons entry next ih =>
    simp only [List.map_cons, List.nodup_cons] at h
    unfold acl_can_read
    by_cases he : entry.username = username
    · rw [if_pos he]
      constructor
      · intro hr
        exact ⟨entry, List.mem_cons_self _ _, he, hr⟩
      · rintro ⟨e, hmem, hu, hr⟩
        rcases List.mem_cons.mp hmem with rfl | hmem
        · exact hr
        · exfalso
          apply h.1
          exact List.mem_map.mpr ⟨e, hmem, by rw [hu, he]⟩
    · rw [if_neg he, ih h.2]
      constructor
      · rintro ⟨e, hmem, hk⟩
        exact ⟨e, List.mem_cons_of_mem _ hmem, hk⟩
      · rintro ⟨e, hmem, hu, hr⟩
        rcases List.mem_cons.mp hmem with rfl | hmem
        · exact absurd hu he
        · exact ⟨e, hmem, hu, hr⟩

theorem acl_can_write_iff (username : List Char) (acl : List AccessControlEntry)
    (h : (acl.map (fun e => e.username)).Nodup) :
    acl_can_write username acl = true ↔
      ∃ e ∈ acl, e.username = username ∧ e.can_write = true := by
  induction acl with
  | nil => simp [acl_can_write]
  | cons entry next ih =>
    simp only [List.map_cons, List.nodup_cons] at h
    unfold acl_can_write
    by_cases he : entry.username = username
    · rw [if_pos he]
      constructor
      · intro hr
        exact ⟨entry, List.mem_cons_self _ _, he, hr⟩
      · rintro ⟨e, hmem, hu, hr⟩
        rcases List.mem_cons.mp hmem with rfl | hmem
        · exact hr
        · exfalso
          apply h.1
          exact List.mem_map.mpr ⟨e, hmem, by rw [hu, he]⟩
    · rw [if_neg he, ih h.2]
      constructor
      · rintro ⟨e, hmem, hk⟩
        exact ⟨e, List.mem_cons_of_mem _ hmem, hk⟩
      · rintro ⟨e, hmem, hu, hr⟩
        rcases List.mem_cons.mp hmem with rfl | hmem
        · exact absurd hu he
        · exact ⟨e, hmem, hu, hr⟩

theorem find_storage_server_in_map_heartbeat (ss_id : Int) (hb : StorageServer → Int)
    (registry : List StorageServer) :
    find_storage_server_in ss_id
        (registry.map (fun ss => { ss with last_heartbeat := hb ss })) =
      (find_storage_server_in ss_id registry).map
        (fun ss => { ss with last_heartbeat := hb ss }) := by
  induction registry with
  | nil => rfl
  | cons ss rest ih =>
    simp only [List.map_cons, find_storage_server_in]
    by_cases h : ss.ss_id = ss_id ∧ ss.is_active = true
    · rw [if_pos h, if_pos h]
      rfl
    · rw [if_neg h, if_neg h, ih]

theorem remove_file_in_some (filename : List Char) (files : List FileMetadata)
    (file : FileMetadata) (h : find_file_in filename files = some file) :
    ∃ before after, files = before ++ file :: after ∧
      (∀ f ∈ before, f.filename ≠ filename) ∧
      remove_file_in filename files = some (before ++ after) := by
  induction files with
  | nil => simp [find_file_in] at h
  | cons f rest ih =>
    unfold find_file_in at h
    unfold remove_file_in
    by_cases hf : f.filename = filename
    · rw [if_pos hf] at h
      simp only [Option.some.injEq] at h
      subst h
      exact ⟨[], rest, rfl, by simp, by simp [hf]⟩
    · rw [if_neg hf] at h
      obtain ⟨before, after, e1, e2, e3⟩ := ih h
      refine ⟨f :: before, after, by simp [e1], ?_, by simp [hf, e3]⟩
      intro x hx
      rcases List.mem_cons.mp hx with rfl | hx
      · exact hf
      · exact e2 x hx

theorem add_file_to_registry_clients (state : NameServerState) (file : FileMetadata) :
    (add_file_to_registry state file).2.client_registry = state.client_registry ∧
    (add_file_to_registry state file).2.ss_registry = state.ss_registry := by
  unfold add_file_to_registry
  split
  · exact ⟨rfl, rfl⟩
  · split <;> exact ⟨rfl, rfl⟩

/-- What `route_create_request` does for a new path with a storage server
registered and an active session: it always answers `SUCCESS`, and the state
is whatever `add_file_to_registry` left, for the metadata built from the
entry at index `file_count % ss_count` of the storage-server registry. -/
theorem route_create_request_new (state : NameServerState) (client_fd : Int)
    (filename owner : List Char) (now : Int) (client : ClientInfo)
    (hnew : find_file state filename = none)
    (hclient : find_client state client_fd = some client)
    (hss : state.ss_registry ≠ []) :
    ∃ ss, state.ss_registry[state.file_map.length % state.ss_registry.length]? = some ss ∧
      ss ∈ state.ss_registry ∧
      route_create_request state client_fd filename owner now =
        some (SUCCESS, { status_code := SUCCESS, ss_ip := none, ss_port := none },
          (add_file_to_registry state
            { filename := strncpy filename 255, filepath := [], owner := strncpy owner 63,
              ss_id := ss.ss_id, created_at := now, last_modified := now,
              last_accessed := now, file_size := 0, word_count := 0, char_count := 0,
              acl_head := [] }).2) := by
  have hpos : 0 < state.ss_registry.length := List.length_pos.mpr hss
  have hlt : state.file_map.length % state.ss_registry.length < state.ss_registry.length :=
    Nat.mod_lt _ hpos
  refine ⟨state.ss_registry[state.file_map.length % state.ss_registry.length],
    List.getElem?_eq_getElem hlt, List.getElem_mem _, ?_⟩
  have hne : state.ss_registry.length ≠ 0 := by omega
  have hc : find_client (add_file_to_registry state
      { filename := strncpy filename 255, filepath := [], owner := strncpy owner 63,
        ss_id := (state.ss_registry[state.file_map.length % state.ss_registry.length]).ss_id,
        created_at := now, last_modified := now, last_accessed := now, file_size := 0,
        word_count := 0, char_count := 0, acl_head := [] }).2 client_fd = some client := by
    unfold find_client
    rw [(add_file_to_registry_clients _ _).1]
    exact hclient
  simp only [route_create_request, hnew, hne, if_false, List.getElem?_eq_getElem hlt]
  rw [hc]

theorem add_file_to_registry_full (state : NameServerState) (file : FileMetadata)
    (h : MAX_FILES ≤ state.file_map.length) :
    add_file_to_registry state file = (none, state) := by
  unfold add_file_to_registry
  rw [if_pos h]

/-- With room in the file registry and a filename and an owner that fit their
fields, a create of a new path appends the metadata: the registry gains one
entry, the only one of the filename, owned by the creator, with an empty ACL
and the id of a registered storage server. -/
theorem route_create_request_inserts (state : NameServerState) (client_fd : Int)
    (filename owner : List Char) (now : Int) (client : ClientInfo)
    (hnew : find_file state filename = none)
    (hclient : find_client state client_fd = some client)
    (hss : state.ss_registry ≠ [])
    (hroom : state.file_map.length < MAX_FILES)
    (hname : filename.length < 256) (howner : owner.length < 64) :
    ∃ ss ∈ state.ss_registry,
      route_create_request state client_fd filename owner now =
        some (SUCCESS, { status_code := SUCCESS, ss_ip := none, ss_port := none },
          { state with file_map := state.file_map ++
            [{ filename := filename, filepath := [], owner := owner, ss_id := ss.ss_id,
               created_at := now, last_modified := now, last_accessed := now,
               file_size := 0, word_count := 0, char_count := 0, acl_head := [] }] }) := by
  obtain ⟨ss, _, hmem, h⟩ :=
    route_create_request_new state client_fd filename owner now client hnew hclient hss
  refine ⟨ss, hmem, ?_⟩
  rw [h]
  have e1 : strncpy filename 255 = filename := by
    unfold strncpy
    exact List.take_of_length_le (by omega)
  have e2 : strncpy owner 63 = owner := by
    unfold strncpy
    exact List.take_of_length_le (by omega)
  have hnew' : find_file_in filename state.file_map = none := hnew
  rw [e1, e2]
  simp only [add_file_to_registry, ge_iff_le, if_neg (Nat.not_le.mpr hroom), hnew']

theorem full_file_map_length : full_file_map.length = MAX_FILES := by
  unfold full_file_map
  rw [List.length_map, List.length_range]

theorem full_file_map_fresh : find_file_in ['n'] full_file_map = none := by
  rw [file_map_lookup_none_iff]
  intro f hf
  unfold full_file_map at hf
  rw [List.mem_map] at hf
  obtain ⟨n, _, rfl⟩ := hf
  intro h
  simp at h

/-! ## Name server: the claims -/

/-- C16, ACL enforcement. For every file metadata whose ACL has at most one
entry per username and every username `u`, `check_read_permission` is true
exactly when `u` is the owner or the ACL entry of `u` has `can_read`, and
`check_write_permission` exactly when `u` is the owner or the ACL entry of `u`
has `can_write`; a user who is not the owner and has no ACL entry is denied
both. -/
theorem acl_enforcement (file : FileMetadata) (u : List Char)
    (hacl : (file.acl_head.map (fun e => e.username)).Nodup) :
    (check_read_permission file u = true ↔
      u = file.owner ∨ ∃ e ∈ file.acl_head, e.username = u ∧ e.can_read = true) ∧
    (check_write_permission file u = true ↔
      u = file.owner ∨ ∃ e ∈ file.acl_head, e.username = u ∧ e.can_write = true) ∧
    (u ≠ file.owner → (∀ e ∈ file.acl_head, e.username ≠ u) →
      check_read_permission file u = false ∧ check_write_permission file u = false) := by
  have hr : check_read_permission file u = true ↔
      u = file.owner ∨ ∃ e ∈ file.acl_head, e.username = u ∧ e.can_read = true := by
    unfold check_read_permission
    by_cases ho : file.owner = u
    · simp [ho]
    · rw [if_neg ho, acl_can_read_iff u _ hacl]
      constructor
      · exact Or.inr
      · rintro (h | h)
        · exact absurd h.symm ho
        · exact h
  have hw : check_write_permission file u = true ↔
      u = file.owner ∨ ∃ e ∈ file.acl_head, e.username = u ∧ e.can_write = true := by
    unfold check_write_permission
    by_cases ho : file.owner = u
    · simp [ho]
    · rw [if_neg ho, acl_can_write_iff u _ hacl]
      constructor
      · exact Or.inr
      · rintro (h | h)
        · exact absurd h.symm ho
        · exact h
  refine ⟨hr, hw, ?_⟩
  intro hno hnone
  constructor
  · rw [← Bool.not_eq_true, hr]
    rintro (h | ⟨e, he, hu, _⟩)
    · exact hno h
    · exact hnone e he hu
  · rw [← Bool.not_eq_true, hw]
    rintro (h | ⟨e, he, hu, _⟩)
    · exact hno h
    · exact hnone e he hu

/-- Witness of C16: `bob` may read but not write the file of `alice`. -/
theorem acl_enforcement_witness :
    ((⟨['f'], [], ['a', 'l', 'i', 'c', 'e'], 1, 0, 0, 0, 0, 0, 0,
        [⟨['b', 'o', 'b'], true, false⟩]⟩ : FileMetadata).acl_head.map
      (fun e => e.username)).Nodup ∧
    (check_read_permission
        ⟨['f'], [], ['a', 'l', 'i', 'c', 'e'], 1, 0, 0, 0, 0, 0, 0,
          [⟨['b', 'o', 'b'], true, false⟩]⟩ ['b', 'o', 'b'] = true ↔
      ['b', 'o', 'b'] = ['a', 'l', 'i', 'c', 'e'] ∨
        ∃ e ∈ [(⟨['b', 'o', 'b'], true, false⟩ : AccessControlEntry)],
          e.username = ['b', 'o', 'b'] ∧ e.can_read = true) :=
  ⟨by decide,
   (acl_enforcement
      ⟨['f'], [], ['a', 'l', 'i', 'c', 'e'], 1, 0, 0, 0, 0, 0, 0,
        [⟨['b', 'o', 'b'], true, false⟩]⟩ ['b', 'o', 'b'] (by decide)).1⟩

/-- C18 as stated fails on the code: storage server 2 sent its last heartbeat
at time 0 and the time is 1000, more than 90 s later, yet `route_read_request`
by the owner of a file assigned to it returns `SUCCESS` with its address, not
`ERR_SS_UNAVAILABLE`. -/
theorem stale_heartbeat_is_still_routed :
    (1000 : Int) -
      (⟨2, ['i', 'p'], 8001, 9001, true, 0, 1, 5⟩ : StorageServer).last_heartbeat > 90 ∧
    check_read_permission ⟨['f'], [], ['a'], 2, 0, 0, 0, 0, 0, 0, []⟩ ['a'] = true ∧
    route_read_request
        ⟨[⟨2, ['i', 'p'], 8001, 9001, true, 0, 1, 5⟩], [⟨7, ['a'], ['c'], 1, 0, true⟩],
        [⟨['f'], [], ['a'], 2, 0, 0, 0, 0, 0, 0, []⟩], true⟩ 7 ['f'] 16 =
      some (SUCCESS, ⟨SUCCESS, some ['i', 'p'], some 9001⟩,
        ⟨[⟨2, ['i', 'p'], 8001, 9001, true, 0, 1, 5⟩], [⟨7, ['a'], ['c'], 1, 0, true⟩],
        [⟨['f'], [], ['a'], 2, 0, 0, 0, 0, 0, 0, []⟩], true⟩) := by
  decide

/-- C18 amended. The name server never compares `last_heartbeat` with the
time: liveness is the `is_active` flag alone. For an active session whose user
may read a registered file, `route_read_request` returns `ERR_SS_UNAVAILABLE`
exactly when no entry of the storage-server registry with the file's `ss_id`
has `is_active` set, and the code and the response it gives are the same
whatever values the `last_heartbeat` fields hold. -/
theorem liveness_is_the_active_flag (state : NameServerState) (client_fd : Int)
    (filename : List Char) (resp_ip_size : Nat) (hb : StorageServer → Int)
    (client : ClientInfo) (file : FileMetadata)
    (hclient : find_client state client_fd = some client)
    (hfile : find_file state filename = some file)
    (hperm : check_read_permission file client.username = true) :
    (∃ code resp, route_read_request state client_fd filename resp_ip_size =
        some (code, resp, state) ∧
      (code = ERR_SS_UNAVAILABLE ↔
        ¬ ∃ ss ∈ state.ss_registry, ss.ss_id = file.ss_id ∧ ss.is_active = true)) ∧
    (route_read_request
        { state with ss_registry :=
            state.ss_registry.map (fun ss => { ss with last_heartbeat := hb ss }) }
        client_fd filename resp_ip_size).map (fun r => (r.1, r.2.1)) =
      (route_read_request state client_fd filename resp_ip_size).map
        (fun r => (r.1, r.2.1)) := by
  constructor
  · cases hs : find_storage_server state file.ss_id with
    | none =>
      refine ⟨ERR_SS_UNAVAILABLE, ⟨ERR_SS_UNAVAILABLE, none, none⟩, ?_, ?_⟩
      · simp [route_read_request, hfile, hclient, hperm, hs]
      · simp only [true_iff]
        exact (find_storage_server_in_eq_none_iff file.ss_id state.ss_registry).mp hs
    | some ss =>
      obtain ⟨h1, h2, h3⟩ := find_storage_server_in_some file.ss_id state.ss_registry ss hs
      refine ⟨SUCCESS, ⟨SUCCESS, some (strncpy ss.ip (resp_ip_size - 1)), some ss.client_port⟩,
        ?_, ?_⟩
      · simp [route_read_request, hfile, hclient, hperm, hs, h3]
      · constructor
        · intro h
          exact absurd h (by decide)
        · intro h
          exact absurd ⟨ss, h1, h2, h3⟩ h
  · have hfile' : find_file
        { state with ss_registry :=
            state.ss_registry.map (fun ss => { ss with last_heartbeat := hb ss }) }
        filename = some file := hfile
    have hclient' : find_client
        { state with ss_registry :=
            state.ss_registry.map (fun ss => { ss with last_heartbeat := hb ss }) }
        client_fd = some client := hclient
    have hss : find_storage_server
        { state with ss_registry :=
            state.ss_registry.map (fun ss => { ss with last_heartbeat := hb ss }) }
        file.ss_id =
        (find_storage_server state file.ss_id).map
          (fun ss => { ss with last_heartbeat := hb ss }) :=
      find_storage_server_in_map_heartbeat file.ss_id hb state.ss_registry
    cases hs : find_storage_server state file.ss_id with
    | none =>
      rw [hs] at hss
      simp [route_read_request, hfile, hclient, hfile', hclient', hperm, hs, hss]
    | some ss =>
      rw [hs] at hss
      obtain ⟨_, _, h3⟩ := find_storage_server_in_some file.ss_id state.ss_registry ss hs
      simp [route_read_request, hfile, hclient, hfile', hclient', hperm, hs, hss, h3]

/-- Witness of the amended C18, on the state of the counterexample. -/
theorem liveness_is_the_active_flag_witness :
    find_client
      ⟨[⟨2, ['i', 'p'], 8001, 9001, true, 0, 1, 5⟩], [⟨7, ['a'], ['c'], 1, 0, true⟩],
        [⟨['f'], [], ['a'], 2, 0, 0, 0, 0, 0, 0, []⟩], true⟩ 7 =
      some ⟨7, ['a'], ['c'], 1, 0, true⟩ ∧
    find_file
      ⟨[⟨2, ['i', 'p'], 8001, 9001, true, 0, 1, 5⟩], [⟨7, ['a'], ['c'], 1, 0, true⟩],
        [⟨['f'], [], ['a'], 2, 0, 0, 0, 0, 0, 0, []⟩], true⟩ ['f'] =
      some ⟨['f'], [], ['a'], 2, 0, 0, 0, 0, 0, 0, []⟩ ∧
    check_read_permission ⟨['f'], [], ['a'], 2, 0, 0, 0, 0, 0, 0, []⟩ ['a'] = true ∧
    ∃ code resp, route_read_request
        ⟨[⟨2, ['i', 'p'], 8001, 9001, true, 0, 1, 5⟩], [⟨7, ['a'], ['c'], 1, 0, true⟩],
        [⟨['f'], [], ['a'], 2, 0, 0, 0, 0, 0, 0, []⟩], true⟩ 7 ['f'] 16 =
        some (code, resp,
          ⟨[⟨2, ['i', 'p'], 8001, 9001, true, 0, 1, 5⟩], [⟨7, ['a'], ['c'], 1, 0, true⟩],
        [⟨['f'], [], ['a'], 2, 0, 0, 0, 0, 0, 0, []⟩], true⟩) ∧
      (code = ERR_SS_UNAVAILABLE ↔
        ¬ ∃ ss ∈ (⟨[⟨2, ['i', 'p'], 8001, 9001, true, 0, 1, 5⟩], [⟨7, ['a'], ['c'], 1, 0, true⟩],
        [⟨['f'], [], ['a'], 2, 0, 0, 0, 0, 0, 0, []⟩], true⟩ : NameServerState).ss_registry,
          ss.ss_id = 2 ∧ ss.is_active = true) :=
  ⟨by decide, by decide, by decide,
   (liveness_is_the_active_flag
      ⟨[⟨2, ['i', 'p'], 8001, 9001, true, 0, 1, 5⟩], [⟨7, ['a'], ['c'], 1, 0, true⟩],
        [⟨['f'], [], ['a'], 2, 0, 0, 0, 0, 0, 0, []⟩], true⟩ 7 ['f'] 16 (fun _ => 0) ⟨7, ['a'], ['c'], 1, 0, true⟩
      ⟨['f'], [], ['a'], 2, 0, 0, 0, 0, 0, 0, []⟩ (by decide) (by decide) (by decide)).1⟩

/-- C19 as stated fails on the code: the registry holds one entry with
`ss_id = 1`, and a further `register_storage_server` carrying `ss_id = 1`
appends a second one, so `ss_count` goes from 1 to 2 and two entries have
`ss_id = 1`. -/
theorem reregistration_adds_an_entry :
    (∃ ss ∈ (⟨[⟨1, ['i', 'p'], 8001, 9001, true, 0, 0, 5⟩], [], [], true⟩ :
        NameServerState).ss_registry, ss.ss_id = 1) ∧
    register_storage_server ⟨[⟨1, ['i', 'p'], 8001, 9001, true, 0, 0, 5⟩], [], [], true⟩ 6
      (some ⟨1, ['i', 'p'], 8001, 9001, 0⟩) 50 =
      some (1, ⟨[⟨1, ['i', 'p'], 8001, 9001, true, 0, 0, 5⟩,
        ⟨1, ['i', 'p'], 8001, 9001, true, 50, 0, 6⟩], [], [], true⟩) ∧
    (⟨[⟨1, ['i', 'p'], 8001, 9001, true, 0, 0, 5⟩,
        ⟨1, ['i', 'p'], 8001, 9001, true, 50, 0, 6⟩], [], [], true⟩ :
      NameServerState).ss_registry.length = 2 ∧
    (⟨[⟨1, ['i', 'p'], 8001, 9001, true, 0, 0, 5⟩,
        ⟨1, ['i', 'p'], 8001, 9001, true, 50, 0, 6⟩], [], [], true⟩ :
      NameServerState).ss_registry.countP (fun ss => ss.ss_id = 1) = 2 := by
  decide

/-- C19 amended. `register_storage_server` never looks for an entry with the
same id. With room in the registry (`ss_count < MAX_STORAGE_SERVERS`) a
received registration carrying `ss_id = k`, already present or not, whose
`<ip>` field is shorter than 16 characters (what `char ip[16]` holds) returns
`k` and appends one active entry with that id and that ip: `ss_count` grows by
one and so does the number of entries with `ss_id = k`. With
`ss_count ≥ MAX_STORAGE_SERVERS` it returns `-1` and changes nothing. -/
theorem register_storage_server_appends (state : NameServerState) (sockfd : Int)
    (reg : Registration) (now : Int) :
    (state.ss_registry.length < MAX_STORAGE_SERVERS → reg.ip.length < 16 →
      register_storage_server state sockfd (some reg) now =
        some (reg.ss_id, { state with ss_registry := state.ss_registry ++
          [{ ss_id := reg.ss_id, ip := reg.ip, nm_port := reg.nm_port,
             client_port := reg.client_port, is_active := true, last_heartbeat := now,
             file_count := reg.file_count, sockfd := sockfd }] }) ∧
      (state.ss_registry ++
          [(⟨reg.ss_id, reg.ip, reg.nm_port, reg.client_port, true, now, reg.file_count,
            sockfd⟩ : StorageServer)]).length =
        state.ss_registry.length + 1 ∧
      (state.ss_registry ++
          [(⟨reg.ss_id, reg.ip, reg.nm_port, reg.client_port, true, now, reg.file_count,
            sockfd⟩ : StorageServer)]).countP
          (fun ss => ss.ss_id = reg.ss_id) =
        state.ss_registry.countP (fun ss => ss.ss_id = reg.ss_id) + 1) ∧
    (MAX_STORAGE_SERVERS ≤ state.ss_registry.length →
      register_storage_server state sockfd (some reg) now = some (-1, state)) := by
  constructor
  · intro hroom hip
    have e : strncpy reg.ip (16 - 1) = reg.ip := by
      unfold strncpy
      exact List.take_of_length_le (by omega)
    refine ⟨?_, by simp, by simp [List.countP_append]⟩
    unfold register_storage_server
    rw [if_neg (by omega)]
    simp only
    rw [if_neg (by omega), e]
  · intro hfull
    unfold register_storage_server
    rw [if_pos hfull]

/-- Witness of the amended C19: a second registration of storage server 1. -/
theorem register_storage_server_appends_witness :
    (⟨[⟨1, ['i', 'p'], 8001, 9001, true, 0, 0, 5⟩], [], [], true⟩ :
      NameServerState).ss_registry.length < MAX_STORAGE_SERVERS ∧
    (['i', 'p'] : List Char).length < 16 ∧
    register_storage_server ⟨[⟨1, ['i', 'p'], 8001, 9001, true, 0, 0, 5⟩], [], [], true⟩ 6
      (some ⟨1, ['i', 'p'], 8001, 9001, 0⟩) 50 =
      some (1, { (⟨[⟨1, ['i', 'p'], 8001, 9001, true, 0, 0, 5⟩], [], [], true⟩ : NameServerState) with
        ss_registry := (⟨[⟨1, ['i', 'p'], 8001, 9001, true, 0, 0, 5⟩], [], [], true⟩ : NameServerState).ss_registry ++
          [{ ss_id := 1, ip := ['i', 'p'], nm_port := 8001, client_port := 9001,
             is_active := true, last_heartbeat := 50, file_count := 0, sockfd := 6 }] }) :=
  ⟨by decide, by decide,
   ((register_storage_server_appends
      ⟨[⟨1, ['i', 'p'], 8001, 9001, true, 0, 0, 5⟩], [], [], true⟩ 6
      ⟨1, ['i', 'p'], 8001, 9001, 0⟩ 50).1 (by decide) (by decide)).1⟩

/-- C20, create rejects an existing path. For every name-server state whose
file registry holds an entry with the filename, `route_create_request` returns
`ERR_FILE_ALREADY_EXISTS` and the state, the file registry with its entries,
owners and ACLs included, is unchanged. -/
theorem create_rejects_existing_path (state : NameServerState) (client_fd : Int)
    (filename owner : List Char) (now : Int)
    (h : ∃ f ∈ state.file_map, f.filename = filename) :
    route_create_request state client_fd filename owner now =
      some (ERR_FILE_ALREADY_EXISTS, ⟨ERR_FILE_ALREADY_EXISTS, none, none⟩, state) := by
  cases hf : find_file state filename with
  | none =>
    obtain ⟨f, hmem, hname⟩ := h
    exact absurd hname ((file_map_lookup_none_iff filename state.file_map).mp hf f hmem)
  | some file =>
    simp [route_create_request, hf]

/-- Witness of C20: `b` asks to create the file `f` that `a` owns. -/
theorem create_rejects_existing_path_witness :
    (∃ f ∈ (⟨[⟨2, ['i', 'p'], 8001, 9001, true, 0, 1, 5⟩], [⟨7, ['a'], ['c'], 1, 0, true⟩],
        [⟨['f'], [], ['a'], 2, 0, 0, 0, 0, 0, 0, []⟩], true⟩ : NameServerState).file_map, f.filename = ['f']) ∧
    route_create_request
        ⟨[⟨2, ['i', 'p'], 8001, 9001, true, 0, 1, 5⟩], [⟨7, ['a'], ['c'], 1, 0, true⟩],
        [⟨['f'], [], ['a'], 2, 0, 0, 0, 0, 0, 0, []⟩], true⟩ 7 ['f'] ['b'] 60 =
      some (ERR_FILE_ALREADY_EXISTS, ⟨ERR_FILE_ALREADY_EXISTS, none, none⟩,
        ⟨[⟨2, ['i', 'p'], 8001, 9001, true, 0, 1, 5⟩], [⟨7, ['a'], ['c'], 1, 0, true⟩],
        [⟨['f'], [], ['a'], 2, 0, 0, 0, 0, 0, 0, []⟩], true⟩) :=
  ⟨by decide,
   create_rejects_existing_path
     ⟨[⟨2, ['i', 'p'], 8001, 9001, true, 0, 1, 5⟩], [⟨7, ['a'], ['c'], 1, 0, true⟩],
        [⟨['f'], [], ['a'], 2, 0, 0, 0, 0, 0, 0, []⟩], true⟩ 7 ['f'] ['b'] 60 (by decide)⟩

/-- C21, evaluated on the code. The file registry is full (`MAX_FILES`
entries, none named `n`), a storage server is registered and `a` has an active
session. `route_create_request` for the new path `n` returns `SUCCESS`, yet the
state is unchanged: `add_file_to_registry` returned `-1`, which the caller does
not look at, so no entry for `n` exists and `file_count` has not grown. -/
theorem create_reports_success_on_full_registry :
    (⟨[⟨2, ['i', 'p'], 8001, 9001, true, 0, 1, 5⟩], [⟨7, ['a'], ['c'], 1, 0, true⟩],
        full_file_map, true⟩ : NameServerState).file_map.length = MAX_FILES ∧
    find_file
      ⟨[⟨2, ['i', 'p'], 8001, 9001, true, 0, 1, 5⟩], [⟨7, ['a'], ['c'], 1, 0, true⟩],
        full_file_map, true⟩ ['n'] = none ∧
    route_create_request
      ⟨[⟨2, ['i', 'p'], 8001, 9001, true, 0, 1, 5⟩], [⟨7, ['a'], ['c'], 1, 0, true⟩],
        full_file_map, true⟩ 7 ['n'] ['a'] 60 =
      some (SUCCESS, ⟨SUCCESS, none, none⟩,
        ⟨[⟨2, ['i', 'p'], 8001, 9001, true, 0, 1, 5⟩], [⟨7, ['a'], ['c'], 1, 0, true⟩],
        full_file_map, true⟩) := by
  have hlen : (⟨[⟨2, ['i', 'p'], 8001, 9001, true, 0, 1, 5⟩], [⟨7, ['a'], ['c'], 1, 0, true⟩],
        full_file_map, true⟩ : NameServerState).file_map.length = MAX_FILES := by
    dsimp only
    exact full_file_map_length
  have hnew : find_file
      ⟨[⟨2, ['i', 'p'], 8001, 9001, true, 0, 1, 5⟩], [⟨7, ['a'], ['c'], 1, 0, true⟩],
        full_file_map, true⟩ ['n'] = none := by
    unfold find_file
    dsimp only
    exact full_file_map_fresh
  refine ⟨hlen, hnew, ?_⟩
  obtain ⟨ss, _, _, h⟩ := route_create_request_new
    ⟨[⟨2, ['i', 'p'], 8001, 9001, true, 0, 1, 5⟩], [⟨7, ['a'], ['c'], 1, 0, true⟩],
        full_file_map, true⟩ 7 ['n'] ['a'] 60 ⟨7, ['a'], ['c'], 1, 0, true⟩ hnew rfl
    (List.cons_ne_nil _ _)
  rw [h, add_file_to_registry_full _ _ (Nat.le_of_eq hlen.symm)]

/-- C22 as stated fails on the code: the only registered storage server is not
active, yet `route_create_request` for a new path returns `SUCCESS`, not
`ERR_SS_UNAVAILABLE`, and inserts metadata that assigns the file to that
server. -/
theorem create_assigns_inactive_server :
    (∀ ss ∈ (⟨[⟨2, ['i', 'p'], 8001, 9001, false, 0, 1, 5⟩], [⟨7, ['a'], ['c'], 1, 0, true⟩],
        [], true⟩ : NameServerState).ss_registry, ss.is_active = false) ∧
    route_create_request
      ⟨[⟨2, ['i', 'p'], 8001, 9001, false, 0, 1, 5⟩], [⟨7, ['a'], ['c'], 1, 0, true⟩],
        [], true⟩ 7 ['f'] ['a'] 60 =
      some (SUCCESS, ⟨SUCCESS, none, none⟩,
        ⟨[⟨2, ['i', 'p'], 8001, 9001, false, 0, 1, 5⟩], [⟨7, ['a'], ['c'], 1, 0, true⟩],
          [⟨['f'], [], ['a'], 2, 60, 60, 60, 0, 0, 0, []⟩], true⟩) := by
  decide

/-- C22 amended. `route_create_request` never looks at `is_active`. For a new
path and an active session: with no storage server registered
(`ss_count = 0`) it returns `ERR_SS_UNAVAILABLE` and the state is unchanged;
otherwise it returns `SUCCESS` and the metadata handed to
`add_file_to_registry` carries the `ss_id` of the entry at index
`file_count % ss_count` of the storage-server registry, active or not. That
entry is active when every registered storage server is. -/
theorem create_picks_by_file_count (state : NameServerState) (client_fd : Int)
    (filename owner : List Char) (now : Int) (client : ClientInfo)
    (hnew : find_file state filename = none)
    (hclient : find_client state client_fd = some client) :
    (state.ss_registry = [] →
      route_create_request state client_fd filename owner now =
        some (ERR_SS_UNAVAILABLE,
          { status_code := ERR_SS_UNAVAILABLE, ss_ip := none, ss_port := none }, state)) ∧
    (state.ss_registry ≠ [] →
      ∃ ss, state.ss_registry[state.file_map.length % state.ss_registry.length]? = some ss ∧
        route_create_request state client_fd filename owner now =
          some (SUCCESS, { status_code := SUCCESS, ss_ip := none, ss_port := none },
            (add_file_to_registry state
              { filename := strncpy filename 255, filepath := [], owner := strncpy owner 63,
                ss_id := ss.ss_id, created_at := now, last_modified := now,
                last_accessed := now, file_size := 0, word_count := 0, char_count := 0,
                acl_head := [] }).2) ∧
        ((∀ x ∈ state.ss_registry, x.is_active = true) → ss.is_active = true)) := by
  constructor
  · intro hempty
    simp [route_create_request, hnew, hempty]
  · intro hss
    obtain ⟨ss, h1, hmem, h2⟩ :=
      route_create_request_new state client_fd filename owner now client hnew hclient hss
    exact ⟨ss, h1, h2, fun hall => hall ss hmem⟩

/-- Witness of the amended C22: with no storage server registered a create is
refused. -/
theorem create_picks_by_file_count_witness :
    find_file ⟨[], [⟨7, ['a'], ['c'], 1, 0, true⟩], [], true⟩ ['f'] = none ∧
    find_client ⟨[], [⟨7, ['a'], ['c'], 1, 0, true⟩], [], true⟩ 7 =
      some ⟨7, ['a'], ['c'], 1, 0, true⟩ ∧
    ((⟨[], [⟨7, ['a'], ['c'], 1, 0, true⟩], [], true⟩ : NameServerState).ss_registry = [] →
      route_create_request ⟨[], [⟨7, ['a'], ['c'], 1, 0, true⟩], [], true⟩ 7 ['f'] ['a'] 60 =
        some (ERR_SS_UNAVAILABLE,
          { status_code := ERR_SS_UNAVAILABLE, ss_ip := none, ss_port := none },
          ⟨[], [⟨7, ['a'], ['c'], 1, 0, true⟩], [], true⟩)) :=
  ⟨by decide, by decide,
   (create_picks_by_file_count ⟨[], [⟨7, ['a'], ['c'], 1, 0, true⟩], [], true⟩ 7 ['f'] ['a'] 60
      ⟨7, ['a'], ['c'], 1, 0, true⟩ (by decide) (by decide)).1⟩

/-- C23, ownership. For every name-server state, every file of the registry
(the entry `find_file` returns for its name) and every active session whose
username differs from the file's owner, `route_delete_request` returns
`ERR_PERMISSION_DENIED` and the state, the file registry with that file's
metadata and ACL included, is unchanged. -/
theorem delete_by_non_owner_denied (state : NameServerState) (client_fd : Int)
    (filename : List Char) (client : ClientInfo) (file : FileMetadata)
    (hfile : find_file state filename = some file)
    (hclient : find_client state client_fd = some client)
    (hother : client.username ≠ file.owner) :
    route_delete_request state client_fd filename =
      some (ERR_PERMISSION_DENIED,
        { status_code := ERR_PERMISSION_DENIED, ss_ip := none, ss_port := none }, state) := by
  have hne : ¬ file.owner = client.username := fun h => hother h.symm
  simp [route_delete_request, hfile, hclient, hne]

/-- Witness of C23: `b` asks to delete the file `f` of `a`. -/
theorem delete_by_non_owner_denied_witness :
    find_file
      ⟨[⟨2, ['i', 'p'], 8001, 9001, true, 0, 1, 5⟩], [⟨7, ['a'], ['c'], 1, 0, true⟩,
        ⟨8, ['b'], ['c'], 2, 0, true⟩], [⟨['f'], [], ['a'], 2, 0, 0, 0, 0, 0, 0, []⟩], true⟩ ['f'] =
      some ⟨['f'], [], ['a'], 2, 0, 0, 0, 0, 0, 0, []⟩ ∧
    find_client
      ⟨[⟨2, ['i', 'p'], 8001, 9001, true, 0, 1, 5⟩], [⟨7, ['a'], ['c'], 1, 0, true⟩,
        ⟨8, ['b'], ['c'], 2, 0, true⟩], [⟨['f'], [], ['a'], 2, 0, 0, 0, 0, 0, 0, []⟩], true⟩ 8 =
      some ⟨8, ['b'], ['c'], 2, 0, true⟩ ∧
    route_delete_request
      ⟨[⟨2, ['i', 'p'], 8001, 9001, true, 0, 1, 5⟩], [⟨7, ['a'], ['c'], 1, 0, true⟩,
        ⟨8, ['b'], ['c'], 2, 0, true⟩], [⟨['f'], [], ['a'], 2, 0, 0, 0, 0, 0, 0, []⟩], true⟩ 8 ['f'] =
      some (ERR_PERMISSION_DENIED,
        { status_code := ERR_PERMISSION_DENIED, ss_ip := none, ss_port := none },
        ⟨[⟨2, ['i', 'p'], 8001, 9001, true, 0, 1, 5⟩], [⟨7, ['a'], ['c'], 1, 0, true⟩,
        ⟨8, ['b'], ['c'], 2, 0, true⟩], [⟨['f'], [], ['a'], 2, 0, 0, 0, 0, 0, 0, []⟩], true⟩) :=
  ⟨by decide, by decide,
   delete_by_non_owner_denied
     ⟨[⟨2, ['i', 'p'], 8001, 9001, true, 0, 1, 5⟩], [⟨7, ['a'], ['c'], 1, 0, true⟩,
        ⟨8, ['b'], ['c'], 2, 0, true⟩], [⟨['f'], [], ['a'], 2, 0, 0, 0, 0, 0, 0, []⟩], true⟩ 8 ['f'] ⟨8, ['b'], ['c'], 2, 0, true⟩
     ⟨['f'], [], ['a'], 2, 0, 0, 0, 0, 0, 0, []⟩ (by decide) (by decide) (by decide)⟩

/-- C24 as stated fails on the code: the storage server of the file `f` is not
active, yet `route_delete_request` by the owner returns `SUCCESS`, not
`ERR_SS_UNAVAILABLE`, and the metadata of `f` is gone from the registry. -/
theorem delete_ignores_storage_server :
    find_storage_server
      ⟨[⟨2, ['i', 'p'], 8001, 9001, false, 0, 1, 5⟩], [⟨7, ['a'], ['c'], 1, 0, true⟩],
        [⟨['f'], [], ['a'], 2, 0, 0, 0, 0, 0, 0, []⟩], true⟩ 2 = none ∧
    route_delete_request
      ⟨[⟨2, ['i', 'p'], 8001, 9001, false, 0, 1, 5⟩], [⟨7, ['a'], ['c'], 1, 0, true⟩],
        [⟨['f'], [], ['a'], 2, 0, 0, 0, 0, 0, 0, []⟩], true⟩ 7 ['f'] =
      some (SUCCESS, ⟨SUCCESS, none, none⟩,
        ⟨[⟨2, ['i', 'p'], 8001, 9001, false, 0, 1, 5⟩], [⟨7, ['a'], ['c'], 1, 0, true⟩],
          [], true⟩) := by
  decide

/-- C24 amended. `route_delete_request` never consults the storage-server
registry (forwarding to the storage server is a stub). When the owner, in an
active session, asks to delete a registered file, the call returns `SUCCESS`
and the first registry entry of the filename is removed, the other entries
keeping their order, whether or not the file's storage server is active. -/
theorem delete_by_owner_removes_metadata (state : NameServerState) (client_fd : Int)
    (filename : List Char) (client : ClientInfo) (file : FileMetadata)
    (hfile : find_file state filename = some file)
    (hclient : find_client state client_fd = some client)
    (howner : client.username = file.owner) :
    ∃ before after, state.file_map = before ++ file :: after ∧
      (∀ f ∈ before, f.filename ≠ filename) ∧
      route_delete_request state client_fd filename =
        some (SUCCESS, { status_code := SUCCESS, ss_ip := none, ss_port := none },
          { state with file_map := before ++ after }) := by
  obtain ⟨before, after, e1, e2, e3⟩ := remove_file_in_some filename state.file_map file hfile
  refine ⟨before, after, e1, e2, ?_⟩
  simp [route_delete_request, hfile, hclient, howner, remove_file_from_registry, e3]

/-- Witness of the amended C24, on the state of the counterexample. -/
theorem delete_by_owner_removes_metadata_witness :
    find_file
      ⟨[⟨2, ['i', 'p'], 8001, 9001, false, 0, 1, 5⟩], [⟨7, ['a'], ['c'], 1, 0, true⟩],
        [⟨['f'], [], ['a'], 2, 0, 0, 0, 0, 0, 0, []⟩], true⟩ ['f'] =
      some ⟨['f'], [], ['a'], 2, 0, 0, 0, 0, 0, 0, []⟩ ∧
    find_client
      ⟨[⟨2, ['i', 'p'], 8001, 9001, false, 0, 1, 5⟩], [⟨7, ['a'], ['c'], 1, 0, true⟩],
        [⟨['f'], [], ['a'], 2, 0, 0, 0, 0, 0, 0, []⟩], true⟩ 7 =
      some ⟨7, ['a'], ['c'], 1, 0, true⟩ ∧
    ∃ before after,
      (⟨[⟨2, ['i', 'p'], 8001, 9001, false, 0, 1, 5⟩], [⟨7, ['a'], ['c'], 1, 0, true⟩],
        [⟨['f'], [], ['a'], 2, 0, 0, 0, 0, 0, 0, []⟩], true⟩ : NameServerState).file_map =
        before ++ ⟨['f'], [], ['a'], 2, 0, 0, 0, 0, 0, 0, []⟩ :: after ∧
      (∀ f ∈ before, f.filename ≠ ['f']) ∧
      route_delete_request
        ⟨[⟨2, ['i', 'p'], 8001, 9001, false, 0, 1, 5⟩], [⟨7, ['a'], ['c'], 1, 0, true⟩],
        [⟨['f'], [], ['a'], 2, 0, 0, 0, 0, 0, 0, []⟩], true⟩ 7 ['f'] =
        some (SUCCESS, { status_code := SUCCESS, ss_ip := none, ss_port := none },
          { (⟨[⟨2, ['i', 'p'], 8001, 9001, false, 0, 1, 5⟩], [⟨7, ['a'], ['c'], 1, 0, true⟩],
        [⟨['f'], [], ['a'], 2, 0, 0, 0, 0, 0, 0, []⟩], true⟩ : NameServerState) with file_map := before ++ after }) :=
  ⟨by decide, by decide,
   delete_by_owner_removes_metadata
     ⟨[⟨2, ['i', 'p'], 8001, 9001, false, 0, 1, 5⟩], [⟨7, ['a'], ['c'], 1, 0, true⟩],
        [⟨['f'], [], ['a'], 2, 0, 0, 0, 0, 0, 0, []⟩], true⟩ 7 ['f'] ⟨7, ['a'], ['c'], 1, 0, true⟩
     ⟨['f'], [], ['a'], 2, 0, 0, 0, 0, 0, 0, []⟩ (by decide) (by decide) (by decide)⟩

/-- C30, evaluated on the code. A client registers on descriptor 7 as `old`
and disconnects (`remove_client`), which leaves its entry in the registry with
`is_active = false`. A second client is then given descriptor 7, registers as
`new` and disconnects. `remove_client` stops at the first entry with the
descriptor, the stale one, so after the call `find_client(state, 7)` still
returns the session of `new`, not NULL. -/
theorem remove_client_misses_reused_descriptor :
    (remove_client (register_client ⟨[], [], [], true⟩ 7 ['o', 'l', 'd'] ['c'] 1 10).2
      7).client_registry = [⟨7, ['o', 'l', 'd'], ['c'], 1, 10, false⟩] ∧
    find_client
      (remove_client
        (register_client
          (remove_client (register_client ⟨[], [], [], true⟩ 7 ['o', 'l', 'd'] ['c'] 1 10).2 7)
          7 ['n', 'e', 'w'] ['c'] 2 20).2 7) 7 =
      some ⟨7, ['n', 'e', 'w'], ['c'], 2, 20, true⟩ := by
  decide

end NameServer

namespace Utils

/-! ## Common utilities: facts about the loops -/

theorem trim_end_take (l : List Char) (a : Char) (t : List Char) (hl : l = a :: t)
    (ha : isspace a = false) :
    ∀ e, e < l.length → l.take (trim_end l e + 1) = (l.take (e + 1)).rdropWhile isspace := by
  intro e
  induction e with
  | zero =>
    intro _
    subst hl
    simp [trim_end, List.rdropWhile, ha]
  | succ e ih =>
    intro he
    have hget : l.getD (e + 1) (Char.ofNat 0) = l[e + 1] := by
      simp [List.getD, List.getElem?_eq_getElem he]
    have htake : l.take (e + 1 + 1) = l.take (e + 1) ++ [l[e + 1]] := by
      rw [List.take_succ, List.getElem?_eq_getElem he]
      rfl
    unfold trim_end
    rw [hget, htake]
    by_cases hs : isspace l[e + 1] = true
    · rw [if_pos hs, List.rdropWhile_concat_pos _ _ _ hs]
      exact ih (by omega)
    · rw [if_neg hs, List.rdropWhile_concat_neg _ _ _ hs, ← htake]

theorem trim_whitespace_eq (s : List Char) :
    trim_whitespace s = (s.dropWhile isspace).rdropWhile isspace := by
  unfold trim_whitespace
  cases hstart : s.dropWhile isspace with
  | nil => simp
  | cons a t =>
    have ha : isspace a = false := by
      have h := List.head_dropWhile_not isspace s (by rw [hstart]; simp)
      simpa [hstart] using h
    have h := trim_end_take (a :: t) a t rfl ha t.length (by simp)
    have hfull : (a :: t).take (t.length + 1) = a :: t := List.take_of_length_le (by simp)
    rw [hfull] at h
    rw [← h]
    simp


theorem rdropWhile_append_rtakeWhile_chars (p : Char → Bool) (l : List Char) :
    l.rdropWhile p ++ l.rtakeWhile p = l := by
  have h := congrArg List.reverse (List.takeWhile_append_dropWhile p l.reverse)
  rw [List.reverse_append, List.reverse_reverse] at h
  exact h

theorem trim_whitespace_head (s : List Char) (c : Char) (r : List Char)
    (h : trim_whitespace s = c :: r) : isspace c = false := by
  rw [trim_whitespace_eq] at h
  obtain ⟨k, hk⟩ := List.rdropWhile_prefix isspace (l := s.dropWhile isspace)
  rw [h] at hk
  have hne : s.dropWhile isspace ≠ [] := by
    rw [← hk]
    simp
  have hd := List.head_dropWhile_not isspace s hne
  simpa [← hk] using hd

theorem trim_whitespace_idem (s : List Char) :
    trim_whitespace (trim_whitespace s) = trim_whitespace s := by
  have hdrop : (trim_whitespace s).dropWhile isspace = trim_whitespace s := by
    cases h : trim_whitespace s with
    | nil => rfl
    | cons c r =>
      have hc := trim_whitespace_head s c r h
      simp [List.dropWhile, hc]
  rw [trim_whitespace_eq (trim_whitespace s), hdrop, trim_whitespace_eq s,
    List.rdropWhile_idempotent]

/-! ## Common utilities: the tokens of `split_string` -/

theorem pieces_nil (delim : List Char) : pieces [] delim = [] := by
  simp [pieces, List.splitOnP_nil]

theorem pieces_cons_delim (delim : List Char) (c : Char) (s : List Char) (hc : c ∈ delim) :
    pieces (c :: s) delim = pieces s delim := by
  unfold pieces
  rw [List.splitOnP_cons]
  simp [hc]

theorem pieces_dropWhile (delim : List Char) (s : List Char) :
    pieces (s.dropWhile (fun c => decide (c ∈ delim))) delim = pieces s delim := by
  induction s with
  | nil => rfl
  | cons c s ih =>
    by_cases hc : c ∈ delim
    · rw [pieces_cons_delim delim c s hc]
      simpa [List.dropWhile, hc] using ih
    · simp [List.dropWhile, hc]

theorem strtok_none (delim s : List Char) (h : strtok delim s = none) :
    pieces s delim = [] := by
  unfold strtok at h
  by_cases h1 : s.dropWhile (fun c => decide (c ∈ delim)) = []
  · rw [← pieces_dropWhile, h1, pieces_nil]
  · simp [h1] at h

theorem strtok_some (delim s token rest : List Char)
    (h : strtok delim s = some (token, rest)) :
    pieces s delim = token :: pieces rest delim ∧ rest.length < s.length ∧
      token ≠ [] ∧ ∀ c ∈ token, c ∉ delim := by
  unfold strtok at h
  by_cases h1 : s.dropWhile (fun c => decide (c ∈ delim)) = []
  · simp [h1] at h
  · simp only [h1, if_false, Option.some.injEq, Prod.mk.injEq] at h
    obtain ⟨htok, hrest⟩ := h
    have hfree : ∀ c ∈ token, ¬ (fun c => decide (c ∈ delim)) c = true := by
      intro c hc
      rw [← htok] at hc
      have := List.mem_takeWhile_imp hc
      simpa using this
    have hsplit := List.takeWhile_append_dropWhile (fun c => !decide (c ∈ delim))
      (s.dropWhile (fun c => decide (c ∈ delim)))
    rw [htok] at hsplit
    have hlen : (s.dropWhile (fun c => decide (c ∈ delim))).length ≤ s.length :=
      (List.dropWhile_sublist _).length_le
    have hhead := List.head_dropWhile_not (fun c => decide (c ∈ delim)) s h1
    have htokne : token ≠ [] := by
      intro he
      rw [← htok] at he
      cases hs1 : s.dropWhile (fun c => decide (c ∈ delim)) with
      | nil => exact h1 hs1
      | cons a t =>
        simp only [hs1, List.head_cons] at hhead
        rw [hs1] at he
        simp [List.takeWhile, hhead] at he
    refine ⟨?_, ?_, htokne, fun c hc => by simpa using hfree c hc⟩
    · rw [← pieces_dropWhile delim s, ← hsplit]
      cases hd : (s.dropWhile (fun c => decide (c ∈ delim))).dropWhile
          (fun c => !decide (c ∈ delim)) with
      | nil =>
        rw [hd] at hrest
        simp only [List.drop_nil] at hrest
        rw [← hrest, pieces_nil, List.append_nil]
        unfold pieces
        rw [List.splitOnP_eq_single _ _ hfree]
        simp [htokne]
      | cons d r =>
        rw [hd] at hrest
        simp only [List.drop_succ_cons, List.drop_zero] at hrest
        have hdp : (fun c => decide (c ∈ delim)) d = true := by
          have hne : (s.dropWhile (fun c => decide (c ∈ delim))).dropWhile
              (fun c => !decide (c ∈ delim)) ≠ [] := by rw [hd]; simp
          have := List.head_dropWhile_not (fun c => !decide (c ∈ delim)) _ hne
          simpa [hd] using this
        unfold pieces
        rw [List.splitOnP_first _ _ hfree d hdp, ← hrest]
        simp [htokne]
    · have h2 := congrArg List.length hsplit
      rw [List.length_append] at h2
      have h3 : 0 < token.length := List.length_pos.mpr htokne
      have h4 : rest.length ≤ ((s.dropWhile (fun c => decide (c ∈ delim))).dropWhile
          (fun c => !decide (c ∈ delim))).length := by
        rw [← hrest, List.length_drop]
        omega
      omega

theorem collect_tokens_eq (delim : List Char) :
    ∀ (fuel : Nat) (s : List Char), s.length < fuel →
      collect_tokens delim fuel s = pieces s delim := by
  intro fuel
  induction fuel with
  | zero => intro s h; omega
  | succ fuel ih =>
    intro s hs
    unfold collect_tokens
    cases h : strtok delim s with
    | none => rw [strtok_none delim s h]
    | some tr =>
      obtain ⟨token, rest⟩ := tr
      obtain ⟨h1, h2, _, _⟩ := strtok_some delim s token rest h
      simp only
      rw [h1, ih rest (by omega)]

theorem count_tokens_eq (delim : List Char) :
    ∀ (fuel : Nat) (s : List Char) (n : Int), s.length < fuel →
      count_tokens delim fuel s n = n + (pieces s delim).length := by
  intro fuel
  induction fuel with
  | zero => intro s n h; omega
  | succ fuel ih =>
    intro s n hs
    unfold count_tokens
    cases h : strtok delim s with
    | none => rw [strtok_none delim s h]; simp
    | some tr =>
      obtain ⟨token, rest⟩ := tr
      obtain ⟨h1, h2, _, _⟩ := strtok_some delim s token rest h
      simp only
      rw [h1, ih rest (n + 1) (by omega)]
      simp only [List.length_cons]
      push_cast
      ring

theorem pieces_are_tokens (delim : List Char) :
    ∀ (n : Nat) (s : List Char), s.length < n →
      ∀ t ∈ pieces s delim, t ≠ [] ∧ ∀ c ∈ t, c ∉ delim := by
  intro n
  induction n with
  | zero => intro s h; omega
  | succ n ih =>
    intro s hs t ht
    cases h : strtok delim s with
    | none =>
      rw [strtok_none delim s h] at ht
      cases ht
    | some tr =>
      obtain ⟨token, rest⟩ := tr
      obtain ⟨h1, h2, h3, h4⟩ := strtok_some delim s token rest h
      rw [h1] at ht
      rcases List.mem_cons.mp ht with rfl | ht
      · exact ⟨h3, h4⟩
      · exact ih rest (by omega) t ht

/-! ## Common utilities: the claims -/

/-- C26, `trim_whitespace` strips both ends. For every string `s` the buffer
afterwards holds a middle part of `s`: `s` is a run of `isspace` characters,
then the result, then a run of `isspace` characters; the result neither starts
nor ends with an `isspace` character, so both runs are maximal and what lies
between them is unchanged; it is empty when `s` is all whitespace. The string
`"  hello world  "` becomes `"hello world"`, and trimming twice equals trimming
once. -/
theorem trim_whitespace_strips_both_ends (s : List Char) :
    trim_whitespace s = (s.dropWhile isspace).rdropWhile isspace ∧
    (∃ lead trail, (∀ c ∈ lead, isspace c = true) ∧ (∀ c ∈ trail, isspace c = true) ∧
      s = lead ++ trim_whitespace s ++ trail) ∧
    (∀ c, (trim_whitespace s).head? = some c → isspace c = false) ∧
    (∀ c, (trim_whitespace s).getLast? = some c → isspace c = false) ∧
    ((∀ c ∈ s, isspace c = true) → trim_whitespace s = []) ∧
    trim_whitespace "  hello world  ".toList = "hello world".toList ∧
    trim_whitespace (trim_whitespace s) = trim_whitespace s := by
  refine ⟨trim_whitespace_eq s, ?_, ?_, ?_, ?_, by decide, trim_whitespace_idem s⟩
  · refine ⟨s.takeWhile isspace, (s.dropWhile isspace).rtakeWhile isspace,
      fun c hc => List.mem_takeWhile_imp hc, fun c hc => List.mem_rtakeWhile_imp hc, ?_⟩
    rw [trim_whitespace_eq, List.append_assoc, rdropWhile_append_rtakeWhile_chars,
      List.takeWhile_append_dropWhile]
  · intro c hc
    cases h : trim_whitespace s with
    | nil => rw [h] at hc; cases hc
    | cons a r =>
      rw [h] at hc
      simp only [List.head?_cons, Option.some.injEq] at hc
      rw [← hc]
      exact trim_whitespace_head s a r h
  · intro c hc
    rw [trim_whitespace_eq] at hc
    have hne : (s.dropWhile isspace).rdropWhile isspace ≠ [] := by
      intro he
      rw [he] at hc
      cases hc
    have hlast := List.rdropWhile_last_not isspace (s.dropWhile isspace) hne
    rw [List.getLast?_eq_getLast _ hne, Option.some.injEq] at hc
    rw [hc] at hlast
    simpa using hlast
  · intro hall
    rw [trim_whitespace_eq, List.dropWhile_eq_nil_iff.mpr hall]
    rfl

/-- C27, `split_string` returns the pieces between delimiters. For every
string `str` and delimiter set `delim`, when the array is allocated, the call
returns, in order, the maximal non-empty substrings of `str` that hold no
character of `delim` (`pieces`, every one of them non-empty and free of
delimiters) and `*count` is their number; it returns `NULL` with `*count = 0`
when there are none. `"apple,banana,cherry"` split on `","` gives
`["apple", "banana", "cherry"]` with count 3. -/
theorem split_string_gives_the_pieces (str delim : List Char) :
    split_string str delim true =
      (if pieces str delim = [] then (none, 0)
       else (some (pieces str delim), ((pieces str delim).length : Int))) ∧
    (∀ t ∈ pieces str delim, t ≠ [] ∧ ∀ c ∈ t, c ∉ delim) ∧
    split_string "apple,banana,cherry".toList ",".toList true =
      (some ["apple".toList, "banana".toList, "cherry".toList], 3) := by
  refine ⟨?_, pieces_are_tokens delim (str.length + 1) str (Nat.lt_succ_self _), by decide⟩
  unfold split_string
  rw [count_tokens_eq delim (str.length + 1) str 0 (Nat.lt_succ_self _),
    collect_tokens_eq delim (str.length + 1) str (Nat.lt_succ_self _)]
  by_cases h : pieces str delim = []
  · simp [h]
  · have hlen : ((pieces str delim).length : Int) ≠ 0 := by
      have := List.length_pos.mpr h
      omega
    simp [h, hlen]

end Utils
